import Mathlib

/-! # Skiplist: a shallow embedding of `src/skiplist.cc`

Memory is a map from addresses (`Nat`) to node headers; a node pointer is an
`Option Nat`, `none` being `NULL`.  The two sentinels embedded in the
container (`slist->head`, `slist->tail`) live at the fixed addresses
`headAddr` and `tailAddr`.  Every `while` / `do-while` / `goto` loop of the
source whose trip count is not bounded by a counter is driven by a `fuel`
argument; a function returns `none` when the fuel runs out, when the source
would hand a `NULL` node to the comparator, or when it would index the local
arrays `prevs` / `nexts` at or beyond `SKIPLIST_MAX_LAYER`.  That constant is
declared outside `skiplist.cc` and is a parameter of the writers.

`ATM_CAS` is a weak compare-exchange.  The writers come in two forms:
`skiplist_insert`, `skiplist_erase_node` and `skiplist_erase` are the runs in
which no exchange fails spuriously, and `skiplist_insert_weak`,
`skiplist_erase_node_weak` and `skiplist_erase_weak` take the outcomes of the
exchanges as a list and count the jumps to the retry labels; the second form
with the empty list is the first (`insert_weak_nil`, `erase_node_weak_nil`,
`erase_weak_nil`).
-/

namespace Skiplist

/-- Node header (`SkiplistNode`): the forward-pointer array `next`
(`[]` stands for `next == NULL`), the three atomic flags and `topLayer`. -/
structure SkiplistNode where
  next : List (Option Nat)
  isFullyLinked : Bool
  beingModified : Bool
  removed : Bool
  topLayer : Nat
deriving DecidableEq

/-- Container (`SkiplistRaw`) together with the memory its nodes live in.
The opaque `aux` pointer is folded into `cmpFunc`. -/
structure SkiplistRaw where
  mem : Nat → SkiplistNode
  cmpFunc : Nat → Nat → Int
  fanout : Nat
  maxLayer : Nat

/-- Address of `slist->head`. -/
def headAddr : Nat := 0

/-- Address of `slist->tail`. -/
def tailAddr : Nat := 1

/-- Overwrite the header stored at address `a`. -/
def setNode (s : SkiplistRaw) (a : Nat) (n : SkiplistNode) : SkiplistRaw :=
  { s with mem := Function.update s.mem a n }

/-- Atomic load of `a->next[layer]` (`ATM_LOAD`). -/
def loadNext (s : SkiplistRaw) (a layer : Nat) : Option Nat :=
  (s.mem a).next.getD layer none

/-- Atomic store to `a->next[layer]` (`ATM_STORE`).  A store past the end of
the array, which is undefined behaviour in the source, leaves the memory as
it is; the theorems keep the layers within the arrays. -/
def storeNext (s : SkiplistRaw) (a layer : Nat) (v : Option Nat) : SkiplistRaw :=
  setNode s a { s.mem a with next := (s.mem a).next.set layer v }

/-- Atomic store to `a->isFullyLinked` (`ATM_STORE`). -/
def storeFullyLinked (s : SkiplistRaw) (a : Nat) (v : Bool) : SkiplistRaw :=
  setNode s a { s.mem a with isFullyLinked := v }

/-- Atomic store to `a->beingModified` (`ATM_STORE`). -/
def storeBeingModified (s : SkiplistRaw) (a : Nat) (v : Bool) : SkiplistRaw :=
  setNode s a { s.mem a with beingModified := v }

/-- Atomic store to `a->removed` (`ATM_STORE`). -/
def storeRemoved (s : SkiplistRaw) (a : Nat) (v : Bool) : SkiplistRaw :=
  setNode s a { s.mem a with removed := v }

/-- Source function `_sl_node_init`: caps `top_layer` at `UINT8_MAX`, clears the three flags
and (re)allocates the forward array when its size changes or it is `NULL`.
The freshly allocated array is modelled as holding `NULL` in every slot. -/
def _sl_node_init (s : SkiplistRaw) (node top_layer : Nat) : SkiplistRaw :=
  let top_layer := if top_layer > 255 then 255 else top_layer
  let n : SkiplistNode :=
    { s.mem node with isFullyLinked := false, beingModified := false, removed := false }
  let n : SkiplistNode :=
    if n.topLayer ≠ top_layer ∨ n.next = [] then
      { n with topLayer := top_layer, next := List.replicate (top_layer + 1) none }
    else n
  setNode s node n

/-- The `for (layer = 0; layer < maxLayer; ++layer)` loop of `skiplist_init`;
the first argument counts the iterations still to run. -/
def skiplist_init_loop : Nat → SkiplistRaw → Nat → SkiplistRaw
  | 0, s, _ => s
  | n + 1, s, layer =>
    skiplist_init_loop n
      (storeNext (storeNext s headAddr layer (some tailAddr)) tailAddr layer none) (layer + 1)

/-- Source function `skiplist_init`. -/
def skiplist_init (s : SkiplistRaw) (cmp_func : Nat → Nat → Int) : SkiplistRaw :=
  let s := _sl_node_init s headAddr s.maxLayer
  let s := _sl_node_init s tailAddr s.maxLayer
  let s := skiplist_init_loop s.maxLayer s 0
  let s := storeFullyLinked s headAddr true
  let s := storeFullyLinked s tailAddr true
  { s with cmpFunc := cmp_func }

/-- Source function `_sl_cmp`. -/
def _sl_cmp (s : SkiplistRaw) (a b : Nat) : Int :=
  if a = b then 0
  else if a = headAddr ∨ b = tailAddr then -1
  else if a = tailAddr ∨ b = headAddr then 1
  else s.cmpFunc a b

/-- Source function `_sl_valid_node`. -/
def _sl_valid_node (s : SkiplistRaw) (node : Nat) : Bool :=
  !(s.mem node).removed && (s.mem node).isFullyLinked

/-- The `while` loop of `_sl_next`, started on the pointer just loaded. -/
def _sl_next_loop (s : SkiplistRaw) (layer : Nat) : Nat → Option Nat → Option (Option Nat)
  | _, none => some none
  | fuel, some n =>
    if _sl_valid_node s n then some (some n)
    else match fuel with
      | 0 => none
      | fuel + 1 => _sl_next_loop s layer fuel (loadNext s n layer)

/-- Source function `_sl_next`. -/
def _sl_next (s : SkiplistRaw) (fuel cur_node layer : Nat) : Option (Option Nat) :=
  _sl_next_loop s layer fuel (loadNext s cur_node layer)

/-- Source function `_sl_valid_prev_next`. -/
def _sl_valid_prev_next (s : SkiplistRaw) (prev next : Nat) : Bool :=
  _sl_valid_node s prev && _sl_valid_node s next

/-- The nested `for` / `do-while` of `skiplist_find`, entered at
`(cur_layer, cur_node)`.  One unit of fuel is spent per `_sl_next` call. -/
def skiplist_find_walk (s : SkiplistRaw) (query : Nat) :
    Nat → Nat → Nat → Option (Option Nat)
  | 0, _, _ => none
  | fuel + 1, cur_layer, cur_node =>
    match _sl_next s (fuel + 1) cur_node cur_layer with
    | none => none
    | some none => none
    | some (some next_node) =>
      let cmp := _sl_cmp s query next_node
      if cmp > 0 then
        if next_node ≠ tailAddr then skiplist_find_walk s query fuel cur_layer next_node
        else if cur_layer = 0 then some none
        else skiplist_find_walk s query fuel (cur_layer - 1) next_node
      else if cmp = 0 then some (some next_node)
      else if cur_layer ≠ 0 then skiplist_find_walk s query fuel (cur_layer - 1) cur_node
      else some none

/-- Source function `skiplist_find`. -/
def skiplist_find (s : SkiplistRaw) (fuel query : Nat) : Option (Option Nat) :=
  if s.maxLayer = 0 then some none
  else skiplist_find_walk s query fuel (s.maxLayer - 1) headAddr

/-- The nested `for` / `do-while` of `skiplist_find_smaller`. -/
def skiplist_find_smaller_walk (s : SkiplistRaw) (query : Nat) :
    Nat → Nat → Nat → Option (Option Nat)
  | 0, _, _ => none
  | fuel + 1, cur_layer, cur_node =>
    match _sl_next s (fuel + 1) cur_node cur_layer with
    | none => none
    | some none => none
    | some (some next_node) =>
      let cmp := _sl_cmp s query next_node
      if cmp > 0 then
        if next_node ≠ tailAddr then skiplist_find_smaller_walk s query fuel cur_layer next_node
        else if cur_layer = 0 then some none
        else skiplist_find_smaller_walk s query fuel (cur_layer - 1) next_node
      else if cur_layer ≠ 0 then skiplist_find_smaller_walk s query fuel (cur_layer - 1) cur_node
      else some (some cur_node)

/-- Source function `skiplist_find_smaller`. -/
def skiplist_find_smaller (s : SkiplistRaw) (fuel query : Nat) : Option (Option Nat) :=
  if s.maxLayer = 0 then some none
  else skiplist_find_smaller_walk s query fuel (s.maxLayer - 1) headAddr

/-- Source function `skiplist_next`. -/
def skiplist_next (s : SkiplistRaw) (fuel node : Nat) : Option (Option Nat) :=
  match _sl_next s fuel node 0 with
  | none => none
  | some next => if next = some tailAddr then some none else some next

/-- Source function `skiplist_prev`. -/
def skiplist_prev (s : SkiplistRaw) (fuel node : Nat) : Option (Option Nat) :=
  match skiplist_find_smaller s fuel node with
  | none => none
  | some prev => if prev = some headAddr then some none else some prev

/-- Source function `skiplist_begin`. -/
def skiplist_begin (s : SkiplistRaw) (fuel : Nat) : Option (Option Nat) :=
  match _sl_next s fuel headAddr 0 with
  | none => none
  | some next => if next = some tailAddr then some none else some next

/-- Source function `skiplist_end`. -/
def skiplist_end (s : SkiplistRaw) (fuel : Nat) : Option (Option Nat) :=
  skiplist_prev s fuel tailAddr

/-- The loop of `_sl_decide_top_layer`; `rand k` is the value of the `k`-th
call of `rand()`, the first argument bounds the iterations (the source loop
runs at most `maxLayer` times).  Returns the layer and the number of draws
consumed. -/
def _sl_decide_top_layer_loop (s : SkiplistRaw) (rand : Nat → Nat) :
    Nat → Nat → Nat → Nat × Nat
  | 0, layer, used => (layer, used)
  | n + 1, layer, used =>
    if layer + 1 < s.maxLayer then
      if rand used % s.fanout = 0 then _sl_decide_top_layer_loop s rand n (layer + 1) (used + 1)
      else (layer, used + 1)
    else (layer, used)

/-- Source function `_sl_decide_top_layer`: the sampled layer and the number of draws used. -/
def _sl_decide_top_layer (s : SkiplistRaw) (rand : Nat → Nat) : Nat × Nat :=
  _sl_decide_top_layer_loop s rand s.maxLayer 0 0

/-- The `for` loop of `_sl_clr_flags`; the first argument counts the
iterations still to run. -/
def _sl_clr_flags_loop (node_arr : Nat → Nat) (top_layer : Nat) :
    Nat → SkiplistRaw → Nat → SkiplistRaw
  | 0, s, _ => s
  | n + 1, s, layer =>
    let s :=
      if layer = top_layer ∨ node_arr layer ≠ node_arr (layer + 1) then
        storeBeingModified s (node_arr layer) false
      else s
    _sl_clr_flags_loop node_arr top_layer n s (layer + 1)

/-- Source function `_sl_clr_flags`. -/
def _sl_clr_flags (s : SkiplistRaw) (node_arr : Nat → Nat) (start_layer top_layer : Nat) :
    SkiplistRaw :=
  _sl_clr_flags_loop node_arr top_layer (top_layer + 1 - start_layer) s start_layer

/-- The `if (cur_layer <= top_layer)` block of `skiplist_insert`, run after
`prevs[cur_layer]` and `nexts[cur_layer]` have been recorded.  The result is
`(true, s)` when the layer has been locked and validated, `(false, s)` when
the code jumps to `insert_retry` (locks already released).  This is the run
in which the compare-exchange does not fail spuriously: it succeeds exactly
when the flag is clear (`skiplist_insert_layer_weak` is the general form). -/
def skiplist_insert_layer (s : SkiplistRaw) (fuel node top_layer : Nat)
    (prevs nexts : Nat → Nat) (cur_layer cur_node next_node : Nat) :
    Option (Bool × SkiplistRaw) :=
  let dup : Bool := decide (cur_layer < top_layer ∧ prevs cur_layer = prevs (cur_layer + 1))
  let casOk : Bool := !dup && !(s.mem (prevs cur_layer)).beingModified
  let s1 := if casOk then storeBeingModified s (prevs cur_layer) true else s
  let locked_layer := if casOk then cur_layer else cur_layer + 1
  let error_code : Int := if dup || casOk then 0 else -1
  let error_code : Int :=
    if error_code = 0 ∧ !_sl_valid_prev_next s1 (prevs cur_layer) (nexts cur_layer) then -2
    else error_code
  if error_code ≠ 0 then some (false, _sl_clr_flags s1 prevs locked_layer top_layer)
  else
    let s2 := storeNext s1 node cur_layer (some (nexts cur_layer))
    match _sl_next s2 fuel cur_node cur_layer with
    | none => none
    | some r =>
      if r ≠ some next_node then some (false, _sl_clr_flags s2 prevs cur_layer top_layer)
      else some (true, s2)

/-- The `for (layer = 0; layer <= top_layer; ++layer)` loop of
`skiplist_insert` storing `prevs[layer]->next[layer] = node`. -/
def skiplist_insert_link (node : Nat) (prevs : Nat → Nat) : Nat → SkiplistRaw → Nat → SkiplistRaw
  | 0, s, _ => s
  | n + 1, s, layer =>
    skiplist_insert_link node prevs n (storeNext s (prevs layer) layer (some node)) (layer + 1)

/-- The tail of `skiplist_insert` once the bottom layer is validated. -/
def skiplist_insert_finish (s : SkiplistRaw) (node top_layer : Nat) (prevs : Nat → Nat) :
    SkiplistRaw :=
  let s := skiplist_insert_link node prevs (top_layer + 1) s 0
  let s := storeFullyLinked s node true
  _sl_clr_flags s prevs 0 top_layer

/-- The nested `for` / `do-while` of `skiplist_insert` with its
`goto insert_retry`, entered at `(cur_layer, cur_node)`.  The local arrays
`prevs` and `nexts` have `SKIPLIST_MAX_LAYER` slots, a constant of
`skiplist.h` taken as a parameter; a store past their end yields `none`. -/
def skiplist_insert_walk (SKIPLIST_MAX_LAYER node top_layer : Nat) :
    Nat → SkiplistRaw → (Nat → Nat) → (Nat → Nat) → Nat → Nat → Option SkiplistRaw
  | 0, _, _, _, _, _ => none
  | fuel + 1, s, prevs, nexts, cur_layer, cur_node =>
    match _sl_next s (fuel + 1) cur_node cur_layer with
    | none => none
    | some none => none
    | some (some next_node) =>
      if _sl_cmp s node next_node > 0 then
        if next_node ≠ tailAddr then
          skiplist_insert_walk SKIPLIST_MAX_LAYER node top_layer fuel s prevs nexts cur_layer next_node
        else if cur_layer = 0 then some s
        else skiplist_insert_walk SKIPLIST_MAX_LAYER node top_layer fuel s prevs nexts (cur_layer - 1) next_node
      else if cur_layer ≤ top_layer then
        if cur_layer < SKIPLIST_MAX_LAYER then
          let prevs := Function.update prevs cur_layer cur_node
          let nexts := Function.update nexts cur_layer next_node
          match skiplist_insert_layer s (fuel + 1) node top_layer prevs nexts
              cur_layer cur_node next_node with
          | none => none
          | some (false, s) =>
            skiplist_insert_walk SKIPLIST_MAX_LAYER node top_layer fuel s prevs nexts
              (s.maxLayer - 1) headAddr
          | some (true, s) =>
            if cur_layer ≠ 0 then
              skiplist_insert_walk SKIPLIST_MAX_LAYER node top_layer fuel s prevs nexts
                (cur_layer - 1) cur_node
            else some (skiplist_insert_finish s node top_layer prevs)
        else none
      else if cur_layer ≠ 0 then
        skiplist_insert_walk SKIPLIST_MAX_LAYER node top_layer fuel s prevs nexts (cur_layer - 1) cur_node
      else some (skiplist_insert_finish s node top_layer prevs)

/-- Source function `skiplist_insert`, in the run in which no
compare-exchange fails spuriously (`skiplist_insert_weak` is the general
form); `rand` supplies the outcomes of `rand()`.  The local arrays `prevs`
and `nexts` (`SKIPLIST_MAX_LAYER` slots) start out holding address 0 in every
slot. -/
def skiplist_insert (SKIPLIST_MAX_LAYER : Nat) (s : SkiplistRaw) (fuel node : Nat)
    (rand : Nat → Nat) :
    Option SkiplistRaw :=
  let top_layer := (_sl_decide_top_layer s rand).1
  let s := _sl_node_init s node top_layer
  if s.maxLayer = 0 then some s
  else skiplist_insert_walk SKIPLIST_MAX_LAYER node top_layer fuel s (fun _ => 0) (fun _ => 0)
    (s.maxLayer - 1) headAddr

/-- The `if (cur_layer <= top_layer)` block of `skiplist_erase_node`; same
conventions as `skiplist_insert_layer` (`skiplist_erase_node_layer_weak` is
the general form). -/
def skiplist_erase_node_layer (s : SkiplistRaw) (fuel top_layer : Nat)
    (prevs nexts : Nat → Nat) (cur_layer cur_node : Nat) :
    Option (Bool × SkiplistRaw) :=
  let dup : Bool := decide (cur_layer < top_layer ∧ prevs cur_layer = prevs (cur_layer + 1))
  let casOk : Bool := !dup && !(s.mem (prevs cur_layer)).beingModified
  let s1 := if casOk then storeBeingModified s (prevs cur_layer) true else s
  let locked_layer := if casOk then cur_layer else cur_layer + 1
  let error_code : Int := if dup || casOk then 0 else -1
  let error_code : Int :=
    if error_code = 0 ∧ !_sl_valid_prev_next s1 (prevs cur_layer) (nexts cur_layer) then -2
    else error_code
  if error_code ≠ 0 then some (false, _sl_clr_flags s1 prevs locked_layer top_layer)
  else
    match _sl_next s1 fuel cur_node cur_layer with
    | none => none
    | some r =>
      if r ≠ some (nexts cur_layer) then
        some (false, _sl_clr_flags s1 prevs cur_layer top_layer)
      else some (true, s1)

/-- The `for (cur_layer = 0; cur_layer <= top_layer; ++cur_layer)` loop of
`skiplist_erase_node` storing `prevs[L]->next[L] = nexts[L]`. -/
def skiplist_erase_node_unlink (prevs nexts : Nat → Nat) :
    Nat → SkiplistRaw → Nat → SkiplistRaw
  | 0, s, _ => s
  | n + 1, s, layer =>
    skiplist_erase_node_unlink prevs nexts n
      (storeNext s (prevs layer) layer (some (nexts layer))) (layer + 1)

/-- The tail of `skiplist_erase_node` after the search loop. -/
def skiplist_erase_node_finish (s : SkiplistRaw) (node top_layer : Nat)
    (prevs nexts : Nat → Nat) : SkiplistRaw :=
  let s := skiplist_erase_node_unlink prevs nexts (top_layer + 1) s 0
  let s := storeFullyLinked s node false
  let s := _sl_clr_flags s prevs 0 top_layer
  storeBeingModified s node false

/-- The nested `for` / `do-while` of `skiplist_erase_node` with its
`goto erase_node_retry` (which re-reads `isFullyLinked`).  A store past the
end of the `SKIPLIST_MAX_LAYER`-slot arrays `prevs` / `nexts` yields `none`. -/
def skiplist_erase_node_walk (SKIPLIST_MAX_LAYER node top_layer : Nat) :
    Nat → SkiplistRaw → (Nat → Nat) → (Nat → Nat) → Nat → Nat → Option (Int × SkiplistRaw)
  | 0, _, _, _, _, _ => none
  | fuel + 1, s, prevs, nexts, cur_layer, cur_node =>
    match _sl_next s (fuel + 1) cur_node cur_layer with
    | none => none
    | some none => none
    | some (some next_node) =>
      if _sl_cmp s node next_node > 0 then
        if next_node ≠ tailAddr then
          skiplist_erase_node_walk SKIPLIST_MAX_LAYER node top_layer fuel s prevs nexts cur_layer next_node
        else if cur_layer = 0 then
          some (0, skiplist_erase_node_finish s node top_layer prevs nexts)
        else skiplist_erase_node_walk SKIPLIST_MAX_LAYER node top_layer fuel s prevs nexts (cur_layer - 1) next_node
      else if cur_layer ≤ top_layer then
        if cur_layer < SKIPLIST_MAX_LAYER then
          let prevs := Function.update prevs cur_layer cur_node
          let nexts := Function.update nexts cur_layer next_node
          match skiplist_erase_node_layer s (fuel + 1) top_layer prevs nexts
              cur_layer cur_node with
          | none => none
          | some (false, s) =>
            if !(s.mem node).isFullyLinked then some (-3, s)
            else skiplist_erase_node_walk SKIPLIST_MAX_LAYER node top_layer fuel s prevs nexts
              (s.maxLayer - 1) headAddr
          | some (true, s) =>
            if cur_layer ≠ 0 then
              skiplist_erase_node_walk SKIPLIST_MAX_LAYER node top_layer fuel s prevs nexts
                (cur_layer - 1) cur_node
            else some (0, skiplist_erase_node_finish s node top_layer prevs nexts)
        else none
      else if cur_layer ≠ 0 then
        skiplist_erase_node_walk SKIPLIST_MAX_LAYER node top_layer fuel s prevs nexts (cur_layer - 1) cur_node
      else some (0, skiplist_erase_node_finish s node top_layer prevs nexts)

/-- Source function `skiplist_erase_node`: the status code and the state left
behind, in the run in which no compare-exchange fails spuriously: the one on
`node->beingModified` succeeds exactly when the flag is clear
(`skiplist_erase_node_weak` is the general form). -/
def skiplist_erase_node (SKIPLIST_MAX_LAYER : Nat) (s : SkiplistRaw) (fuel node : Nat) :
    Option (Int × SkiplistRaw) :=
  let top_layer := (s.mem node).topLayer
  if (s.mem node).removed then some (-1, s)
  else if (s.mem node).beingModified then some (-2, s)
  else
    let s := storeBeingModified s node true
    let s := storeRemoved s node true
    if !(s.mem node).isFullyLinked then some (-3, s)
    else if s.maxLayer = 0 then
      some (0, skiplist_erase_node_finish s node top_layer (fun _ => 0) (fun _ => 0))
    else skiplist_erase_node_walk SKIPLIST_MAX_LAYER node top_layer fuel s (fun _ => 0) (fun _ => 0)
      (s.maxLayer - 1) headAddr

/-- The `do { ... } while (ret == -2)` loop of `skiplist_erase`. -/
def skiplist_erase_loop (SKIPLIST_MAX_LAYER found : Nat) :
    Nat → SkiplistRaw → Option (Int × SkiplistRaw)
  | 0, _ => none
  | fuel + 1, s =>
    match skiplist_erase_node SKIPLIST_MAX_LAYER s (fuel + 1) found with
    | none => none
    | some (ret, s) =>
      if ret = -2 then skiplist_erase_loop SKIPLIST_MAX_LAYER found fuel s else some (ret, s)

/-- Source function `skiplist_erase`. -/
def skiplist_erase (SKIPLIST_MAX_LAYER : Nat) (s : SkiplistRaw) (fuel query : Nat) :
    Option (Int × SkiplistRaw) :=
  match skiplist_find s fuel query with
  | none => none
  | some none => some (-4, s)
  | some (some found) => skiplist_erase_loop SKIPLIST_MAX_LAYER found fuel s

/-- The comparator contract: the user comparator is the three-way comparison
of a total preorder (antisymmetric in sign, transitive). -/
structure LawfulCmp (cmp : Nat → Nat → Int) : Prop where
  antisymm : ∀ a b, cmp a b < 0 ↔ 0 < cmp b a
  trans : ∀ a b c, cmp a b ≤ 0 → cmp b c ≤ 0 → cmp a c ≤ 0

/-- A node is live (visible to readers): fully linked and not tombstoned. -/
def Live (s : SkiplistRaw) (a : Nat) : Prop := _sl_valid_node s a = true

/-- Node `b` is the layer-`L` successor of `a` and compares greater. -/
def Step (s : SkiplistRaw) (L a b : Nat) : Prop :=
  loadNext s a L = some b ∧ _sl_cmp s a b < 0

/-- Ordering invariant: at every layer `L < maxLayer` following `next[L]` from
head runs through `ch L` and reaches tail, every consecutive pair `A, B`
satisfying `cmp(A, B) < 0`. -/
def Ordered (s : SkiplistRaw) (ch : Nat → List Nat) : Prop :=
  ∀ L, L < s.maxLayer → List.Chain' (Step s L) (headAddr :: ch L ++ [tailAddr])

/-- Layer containment: a live node linked at layer `L + 1` is linked at layer `L`. -/
def Contained (s : SkiplistRaw) (ch : Nat → List Nat) : Prop :=
  ∀ L, L + 1 < s.maxLayer → ∀ x ∈ ch (L + 1), Live s x → x ∈ ch L

/-- A well-formed list whose layer-`L` chain (sentinels excluded) is `ch L`.
Chains may hold nodes that are not live. -/
structure WellFormed (s : SkiplistRaw) (ch : Nat → List Nat) : Prop where
  maxLayer_pos : 1 ≤ s.maxLayer
  lawful : LawfulCmp s.cmpFunc
  head_live : Live s headAddr
  tail_live : Live s tailAddr
  ordered : Ordered s ch
  contained : Contained s ch

/-- One more than the total length of the chains of layers `0 .. M-1`. -/
def chainBound (ch : Nat → List Nat) : Nat → Nat
  | 0 => 1
  | M + 1 => chainBound ch M + (ch M).length

/-- Fuel that suffices for one top-down search. -/
def searchFuel (s : SkiplistRaw) (ch : Nat → List Nat) : Nat :=
  s.maxLayer * (chainBound ch s.maxLayer + 1)

/-- Search position: `cur` is head or a live node below the query, and `rest`
is what follows `cur` on the layer-`L` chain, tail included. -/
def Pos (s : SkiplistRaw) (ch : Nat → List Nat) (q L cur : Nat) (rest : List Nat) : Prop :=
  (cur = headAddr ∧ rest = ch L ++ [tailAddr]) ∨
  (Live s cur ∧ 0 < _sl_cmp s q cur ∧ ∃ a, ch L ++ [tailAddr] = a ++ cur :: rest)

/-- The live nodes of a list of nodes, in order. -/
def liveNodes (s : SkiplistRaw) (l : List Nat) : List Nat :=
  l.filter (fun a => _sl_valid_node s a)

/-- Sequential well-formedness: a well-formed list as left behind by
operations that ran to completion one after another.  Every chained node is
live, `topLayer` bounds the layers a node is linked at, every forward array
is `NULL` or has `topLayer + 1` slots, `maxLayer` does not exceed the 256
slots `_sl_node_init` gives the head, and no node of the list holds
`beingModified`. -/
structure SeqWellFormed (s : SkiplistRaw) (ch : Nat → List Nat) : Prop where
  wf : WellFormed s ch
  maxLayer_le : s.maxLayer ≤ 256
  live : ∀ L, L < s.maxLayer → ∀ x ∈ ch L, Live s x
  top : ∀ L, L < s.maxLayer → ∀ x ∈ ch L,
    L ≤ (s.mem x).topLayer ∧ (s.mem x).topLayer < s.maxLayer
  arr : ∀ a, (s.mem a).next = [] ∨ (s.mem a).next.length = (s.mem a).topLayer + 1
  unlocked : ∀ x ∈ headAddr :: ch 0, (s.mem x).beingModified = false

/-- On the layer-`j` chain `p` is followed by `n`, possibly with `node` (and
nothing else) in between, and `node` sorts strictly between the two. -/
def Adj (s : SkiplistRaw) (ch : Nat → List Nat) (node j p n : Nat) : Prop :=
  ∃ pre dead post, headAddr :: ch j ++ [tailAddr] = pre ++ p :: (dead ++ n :: post) ∧
    (∀ d ∈ dead, d = node) ∧ p ≠ node ∧ n ≠ node ∧
    _sl_cmp s p node < 0 ∧ _sl_cmp s node n < 0

/-- State of a writer in the middle of its top-down search for `node`, layers
`k .. t` already locked and validated (`prevs`, `nexts` hold their
neighbours): the list is well-formed, `node` is the only node that may be
dead on a chain, and the locked nodes are exactly `prevs[k..t]`. -/
structure WalkInv (s : SkiplistRaw) (ch : Nat → List Nat) (node t : Nat)
    (prevs nexts : Nat → Nat) (k : Nat) : Prop where
  wf : WellFormed s ch
  t_lt : t < s.maxLayer
  node_ne_head : node ≠ headAddr
  node_ne_tail : node ≠ tailAddr
  node_dead : ¬ Live s node
  live : ∀ L, L < s.maxLayer → ∀ x ∈ ch L, x ≠ node → Live s x
  locks : ∀ a ∈ headAddr :: ch 0, a ≠ node →
    ((s.mem a).beingModified = true ↔ ∃ j, k ≤ j ∧ j ≤ t ∧ prevs j = a)
  adj : ∀ j, k ≤ j → j ≤ t → Adj s ch node j (prevs j) (nexts j)
  mono : ∀ j, k ≤ j → j ≤ t → ∀ i, k ≤ i → i ≤ j →
    prevs j = prevs i ∨ _sl_cmp s (prevs j) (prevs i) < 0
  fresh : ∀ x ∈ ch 0 ++ [tailAddr], x ≠ node → _sl_cmp s node x ≠ 0

/-- Two states that differ at most in `beingModified` flags. -/
def SameButLocks (s s' : SkiplistRaw) : Prop :=
  s'.cmpFunc = s.cmpFunc ∧ s'.maxLayer = s.maxLayer ∧ s'.fanout = s.fanout ∧
  ∀ a, (s'.mem a).next = (s.mem a).next ∧ (s'.mem a).topLayer = (s.mem a).topLayer ∧
    (s'.mem a).isFullyLinked = (s.mem a).isFullyLinked ∧ (s'.mem a).removed = (s.mem a).removed

/-- A node header is consistent: its forward array is `NULL` or has
`topLayer + 1` slots. -/
def NodeOK (n : SkiplistNode) : Prop :=
  n.next = [] ∨ n.next.length = n.topLayer + 1

/-- Comparator of the running examples: nodes are ordered by address. -/
def exCmp (a b : Nat) : Int := (a : Int) - (b : Int)

/-- Example list with `maxLayer = 2` holding node 10 (layer 0) and node 20
(layers 0 and 1). -/
def exState : SkiplistRaw where
  mem := fun a =>
    if a = 0 then ⟨[some 10, some 20, none], true, false, false, 2⟩
    else if a = 1 then ⟨[none, none, none], true, false, false, 2⟩
    else if a = 10 then ⟨[some 20], true, false, false, 0⟩
    else if a = 20 then ⟨[some 1, some 1], true, false, false, 1⟩
    else ⟨[], false, false, false, 0⟩
  cmpFunc := exCmp
  fanout := 4
  maxLayer := 2

/-- Chains of `exState`. -/
def exChains (L : Nat) : List Nat :=
  if L = 0 then [10, 20] else if L = 1 then [20] else []

/-- Memory before `skiplist_init`: every header zeroed, `maxLayer = 2`. -/
def exBlank : SkiplistRaw where
  mem := fun _ => ⟨[], false, false, false, 0⟩
  cmpFunc := fun _ _ => 0
  fanout := 4
  maxLayer := 2

/-- Forward chains are finite and end at tail, with no assumption on order or
containment: `R L a` says that the search may stand on node `a` at layer `L`;
it holds of head at every layer, is kept when the search steps to `next[L]`
(which is not `NULL` before tail and lowers the rank) and when it descends a
layer, and the tail sentinel is live.  `B` bounds the ranks. -/
structure ChainsEnd (s : SkiplistRaw) (R : Nat → Nat → Prop) (rank : Nat → Nat → Nat)
    (B : Nat) : Prop where
  tail_live : Live s tailAddr
  head : ∀ L, L < s.maxLayer → R L headAddr
  down : ∀ L a, R (L + 1) a → R L a
  next : ∀ L a, L < s.maxLayer → R L a → a ≠ tailAddr →
    ∃ b, loadNext s a L = some b ∧ R L b ∧ rank L b < rank L a
  bound : ∀ L a, rank L a ≤ B

/-- The example list after node 10 has been tombstoned (`removed = true`) but
not yet unlinked. -/
def exTomb : SkiplistRaw := storeRemoved exState 10 true

/-! ## Instrumented writers: stores and memory traces -/

/-- The memory after each store of the loop of `_sl_clr_flags`, in program
order. -/
def _sl_clr_flags_loop_trace (node_arr : Nat → Nat) (top_layer : Nat) :
    Nat → SkiplistRaw → Nat → List SkiplistRaw
  | 0, _, _ => []
  | n + 1, s, layer =>
    if layer = top_layer ∨ node_arr layer ≠ node_arr (layer + 1) then
      storeBeingModified s (node_arr layer) false ::
        _sl_clr_flags_loop_trace node_arr top_layer n
          (storeBeingModified s (node_arr layer) false) (layer + 1)
    else _sl_clr_flags_loop_trace node_arr top_layer n s (layer + 1)

/-- The memory after each store of `_sl_clr_flags`. -/
def _sl_clr_flags_trace (s : SkiplistRaw) (node_arr : Nat → Nat) (start_layer top_layer : Nat) :
    List SkiplistRaw :=
  _sl_clr_flags_loop_trace node_arr top_layer (top_layer + 1 - start_layer) s start_layer

/-- The memory after each store of the `if (cur_layer <= top_layer)` block of
`skiplist_insert` (`skiplist_insert_layer`): the successful CAS, the store to
`node->next[cur_layer]` and the stores of `_sl_clr_flags` on the way to
`insert_retry`. -/
def skiplist_insert_layer_trace (s : SkiplistRaw) (fuel node top_layer : Nat)
    (prevs nexts : Nat → Nat) (cur_layer cur_node next_node : Nat) : List SkiplistRaw :=
  let dup : Bool := decide (cur_layer < top_layer ∧ prevs cur_layer = prevs (cur_layer + 1))
  let casOk : Bool := !dup && !(s.mem (prevs cur_layer)).beingModified
  let s1 := if casOk then storeBeingModified s (prevs cur_layer) true else s
  let locked_layer := if casOk then cur_layer else cur_layer + 1
  let error_code : Int := if dup || casOk then 0 else -1
  let error_code : Int :=
    if error_code = 0 ∧ !_sl_valid_prev_next s1 (prevs cur_layer) (nexts cur_layer) then -2
    else error_code
  (if casOk then [s1] else []) ++
    (if error_code ≠ 0 then _sl_clr_flags_trace s1 prevs locked_layer top_layer
    else
      storeNext s1 node cur_layer (some (nexts cur_layer)) ::
        (match _sl_next (storeNext s1 node cur_layer (some (nexts cur_layer))) fuel
            cur_node cur_layer with
        | none => []
        | some r =>
          if r ≠ some next_node then
            _sl_clr_flags_trace (storeNext s1 node cur_layer (some (nexts cur_layer))) prevs
              cur_layer top_layer
          else []))

/-- The memory after each store of the linking loop of `skiplist_insert`. -/
def skiplist_insert_link_trace (node : Nat) (prevs : Nat → Nat) :
    Nat → SkiplistRaw → Nat → List SkiplistRaw
  | 0, _, _ => []
  | n + 1, s, layer =>
    storeNext s (prevs layer) layer (some node) ::
      skiplist_insert_link_trace node prevs n (storeNext s (prevs layer) layer (some node))
        (layer + 1)

/-- The memory after each store of the tail of `skiplist_insert`. -/
def skiplist_insert_finish_trace (s : SkiplistRaw) (node top_layer : Nat) (prevs : Nat → Nat) :
    List SkiplistRaw :=
  skiplist_insert_link_trace node prevs (top_layer + 1) s 0 ++
    storeFullyLinked (skiplist_insert_link node prevs (top_layer + 1) s 0) node true ::
      _sl_clr_flags_trace
        (storeFullyLinked (skiplist_insert_link node prevs (top_layer + 1) s 0) node true)
        prevs 0 top_layer

/-- The memory after each store of the search loop of `skiplist_insert`
(`skiplist_insert_walk`), up to its return or to the end of the fuel. -/
def skiplist_insert_walk_trace (SKIPLIST_MAX_LAYER node top_layer : Nat) :
    Nat → SkiplistRaw → (Nat → Nat) → (Nat → Nat) → Nat → Nat → List SkiplistRaw
  | 0, _, _, _, _, _ => []
  | fuel + 1, s, prevs, nexts, cur_layer, cur_node =>
    match _sl_next s (fuel + 1) cur_node cur_layer with
    | none => []
    | some none => []
    | some (some next_node) =>
      if _sl_cmp s node next_node > 0 then
        if next_node ≠ tailAddr then
          skiplist_insert_walk_trace SKIPLIST_MAX_LAYER node top_layer fuel s prevs nexts
            cur_layer next_node
        else if cur_layer = 0 then []
        else skiplist_insert_walk_trace SKIPLIST_MAX_LAYER node top_layer fuel s prevs nexts
          (cur_layer - 1) next_node
      else if cur_layer ≤ top_layer then
        if cur_layer < SKIPLIST_MAX_LAYER then
          let prevs := Function.update prevs cur_layer cur_node
          let nexts := Function.update nexts cur_layer next_node
          skiplist_insert_layer_trace s (fuel + 1) node top_layer prevs nexts
              cur_layer cur_node next_node ++
            (match skiplist_insert_layer s (fuel + 1) node top_layer prevs nexts
                cur_layer cur_node next_node with
            | none => []
            | some (false, s) =>
              skiplist_insert_walk_trace SKIPLIST_MAX_LAYER node top_layer fuel s prevs nexts
                (s.maxLayer - 1) headAddr
            | some (true, s) =>
              if cur_layer ≠ 0 then
                skiplist_insert_walk_trace SKIPLIST_MAX_LAYER node top_layer fuel s prevs nexts
                  (cur_layer - 1) cur_node
              else skiplist_insert_finish_trace s node top_layer prevs)
        else []
      else if cur_layer ≠ 0 then
        skiplist_insert_walk_trace SKIPLIST_MAX_LAYER node top_layer fuel s prevs nexts
          (cur_layer - 1) cur_node
      else skiplist_insert_finish_trace s node top_layer prevs

/-- The memory after each step of `skiplist_insert`: after `_sl_node_init`
(taken as one step, it writes the private node only) and after each store
that follows. -/
def skiplist_insert_trace (SKIPLIST_MAX_LAYER : Nat) (s : SkiplistRaw) (fuel node : Nat)
    (rand : Nat → Nat) : List SkiplistRaw :=
  _sl_node_init s node (_sl_decide_top_layer s rand).1 ::
    (if (_sl_node_init s node (_sl_decide_top_layer s rand).1).maxLayer = 0 then []
    else skiplist_insert_walk_trace SKIPLIST_MAX_LAYER node (_sl_decide_top_layer s rand).1 fuel
      (_sl_node_init s node (_sl_decide_top_layer s rand).1) (fun _ => 0) (fun _ => 0)
      ((_sl_node_init s node (_sl_decide_top_layer s rand).1).maxLayer - 1) headAddr)

/-- The memory after each store of the `if (cur_layer <= top_layer)` block of
`skiplist_erase_node` (`skiplist_erase_node_layer`). -/
def skiplist_erase_node_layer_trace (s : SkiplistRaw) (fuel top_layer : Nat)
    (prevs nexts : Nat → Nat) (cur_layer cur_node : Nat) : List SkiplistRaw :=
  let dup : Bool := decide (cur_layer < top_layer ∧ prevs cur_layer = prevs (cur_layer + 1))
  let casOk : Bool := !dup && !(s.mem (prevs cur_layer)).beingModified
  let s1 := if casOk then storeBeingModified s (prevs cur_layer) true else s
  let locked_layer := if casOk then cur_layer else cur_layer + 1
  let error_code : Int := if dup || casOk then 0 else -1
  let error_code : Int :=
    if error_code = 0 ∧ !_sl_valid_prev_next s1 (prevs cur_layer) (nexts cur_layer) then -2
    else error_code
  (if casOk then [s1] else []) ++
    (if error_code ≠ 0 then _sl_clr_flags_trace s1 prevs locked_layer top_layer
    else
      match _sl_next s1 fuel cur_node cur_layer with
      | none => []
      | some r =>
        if r ≠ some (nexts cur_layer) then _sl_clr_flags_trace s1 prevs cur_layer top_layer
        else [])

/-- The memory after each store of the unlinking loop of
`skiplist_erase_node`. -/
def skiplist_erase_node_unlink_trace (prevs nexts : Nat → Nat) :
    Nat → SkiplistRaw → Nat → List SkiplistRaw
  | 0, _, _ => []
  | n + 1, s, layer =>
    storeNext s (prevs layer) layer (some (nexts layer)) ::
      skiplist_erase_node_unlink_trace prevs nexts n
        (storeNext s (prevs layer) layer (some (nexts layer))) (layer + 1)

/-- The memory after each store of the tail of `skiplist_erase_node`; the
last entry is the state the function returns. -/
def skiplist_erase_node_finish_trace (s : SkiplistRaw) (node top_layer : Nat)
    (prevs nexts : Nat → Nat) : List SkiplistRaw :=
  skiplist_erase_node_unlink_trace prevs nexts (top_layer + 1) s 0 ++
    storeFullyLinked (skiplist_erase_node_unlink prevs nexts (top_layer + 1) s 0) node false ::
      (_sl_clr_flags_trace
        (storeFullyLinked (skiplist_erase_node_unlink prevs nexts (top_layer + 1) s 0) node
          false) prevs 0 top_layer ++
        [skiplist_erase_node_finish s node top_layer prevs nexts])

/-- The memory after each store of the search loop of `skiplist_erase_node`
(`skiplist_erase_node_walk`), up to its return or to the end of the fuel. -/
def skiplist_erase_node_walk_trace (SKIPLIST_MAX_LAYER node top_layer : Nat) :
    Nat → SkiplistRaw → (Nat → Nat) → (Nat → Nat) → Nat → Nat → List SkiplistRaw
  | 0, _, _, _, _, _ => []
  | fuel + 1, s, prevs, nexts, cur_layer, cur_node =>
    match _sl_next s (fuel + 1) cur_node cur_layer with
    | none => []
    | some none => []
    | some (some next_node) =>
      if _sl_cmp s node next_node > 0 then
        if next_node ≠ tailAddr then
          skiplist_erase_node_walk_trace SKIPLIST_MAX_LAYER node top_layer fuel s prevs nexts
            cur_layer next_node
        else if cur_layer = 0 then
          skiplist_erase_node_finish_trace s node top_layer prevs nexts
        else skiplist_erase_node_walk_trace SKIPLIST_MAX_LAYER node top_layer fuel s prevs nexts
          (cur_layer - 1) next_node
      else if cur_layer ≤ top_layer then
        if cur_layer < SKIPLIST_MAX_LAYER then
          let prevs := Function.update prevs cur_layer cur_node
          let nexts := Function.update nexts cur_layer next_node
          skiplist_erase_node_layer_trace s (fuel + 1) top_layer prevs nexts
              cur_layer cur_node ++
            (match skiplist_erase_node_layer s (fuel + 1) top_layer prevs nexts
                cur_layer cur_node with
            | none => []
            | some (false, s) =>
              if !(s.mem node).isFullyLinked then []
              else skiplist_erase_node_walk_trace SKIPLIST_MAX_LAYER node top_layer fuel s
                prevs nexts (s.maxLayer - 1) headAddr
            | some (true, s) =>
              if cur_layer ≠ 0 then
                skiplist_erase_node_walk_trace SKIPLIST_MAX_LAYER node top_layer fuel s prevs
                  nexts (cur_layer - 1) cur_node
              else skiplist_erase_node_finish_trace s node top_layer prevs nexts)
        else []
      else if cur_layer ≠ 0 then
        skiplist_erase_node_walk_trace SKIPLIST_MAX_LAYER node top_layer fuel s prevs nexts
          (cur_layer - 1) cur_node
      else skiplist_erase_node_finish_trace s node top_layer prevs nexts

/-- The memory after each store of `skiplist_erase_node`: the CAS on the node
itself, the store to `removed`, and the stores of the search and of the
unlinking. -/
def skiplist_erase_node_trace (SKIPLIST_MAX_LAYER : Nat) (s : SkiplistRaw) (fuel node : Nat) :
    List SkiplistRaw :=
  if (s.mem node).removed then []
  else if (s.mem node).beingModified then []
  else
    storeBeingModified s node true ::
      storeRemoved (storeBeingModified s node true) node true ::
        (if !((storeRemoved (storeBeingModified s node true) node true).mem node).isFullyLinked
          then []
        else if (storeRemoved (storeBeingModified s node true) node true).maxLayer = 0 then
          skiplist_erase_node_finish_trace
            (storeRemoved (storeBeingModified s node true) node true) node
            (s.mem node).topLayer (fun _ => 0) (fun _ => 0)
        else skiplist_erase_node_walk_trace SKIPLIST_MAX_LAYER node (s.mem node).topLayer fuel
          (storeRemoved (storeBeingModified s node true) node true) (fun _ => 0) (fun _ => 0)
          ((storeRemoved (storeBeingModified s node true) node true).maxLayer - 1) headAddr)

/-- `ATM_CAS(a->beingModified, expected = false, true)`, which the source
expands to `compare_exchange_weak`: the exchange fails when the flag is set
and may fail spuriously when it is clear.  `spur` lists, for the attempts
still to come, whether each one fails spuriously (none does once the list is
used up); every attempt uses up one entry.  The result is whether the
exchange took place, the memory, and the entries left. -/
def ATM_CAS (spur : List Bool) (s : SkiplistRaw) (a : Nat) : Bool × SkiplistRaw × List Bool :=
  if (s.mem a).beingModified = false ∧ spur.head? ≠ some true then
    (true, storeBeingModified s a true, spur.tail)
  else (false, s, spur.tail)

/-- The `if (cur_layer <= top_layer)` block of `skiplist_insert` with the
weak compare-exchange: `(true, s, spur)` when the layer has been locked and
validated, `(false, s, spur)` when the code jumps to `insert_retry` (locks
already released); `spur` is what is left of the list of CAS outcomes. -/
def skiplist_insert_layer_weak (spur : List Bool) (s : SkiplistRaw) (fuel node top_layer : Nat)
    (prevs nexts : Nat → Nat) (cur_layer cur_node next_node : Nat) :
    Option (Bool × SkiplistRaw × List Bool) :=
  let dup : Bool := decide (cur_layer < top_layer ∧ prevs cur_layer = prevs (cur_layer + 1))
  let cas := if dup then (false, s, spur) else ATM_CAS spur s (prevs cur_layer)
  let locked_layer := if cas.1 then cur_layer else cur_layer + 1
  let error_code : Int := if dup || cas.1 then 0 else -1
  let error_code : Int :=
    if error_code = 0 ∧ !_sl_valid_prev_next cas.2.1 (prevs cur_layer) (nexts cur_layer) then -2
    else error_code
  if error_code ≠ 0 then
    some (false, _sl_clr_flags cas.2.1 prevs locked_layer top_layer, cas.2.2)
  else
    let s2 := storeNext cas.2.1 node cur_layer (some (nexts cur_layer))
    match _sl_next s2 fuel cur_node cur_layer with
    | none => none
    | some r =>
      if r ≠ some next_node then
        some (false, _sl_clr_flags s2 prevs cur_layer top_layer, cas.2.2)
      else some (true, s2, cas.2.2)

/-- The nested `for` / `do-while` of `skiplist_insert` with its
`goto insert_retry` and the weak compare-exchange, entered at
`(cur_layer, cur_node)`.  The result is the memory at the return, the number
of jumps to `insert_retry` and what is left of the list of CAS outcomes. -/
def skiplist_insert_walk_weak (SKIPLIST_MAX_LAYER node top_layer : Nat) :
    Nat → List Bool → SkiplistRaw → (Nat → Nat) → (Nat → Nat) → Nat → Nat →
      Option (SkiplistRaw × Nat × List Bool)
  | 0, _, _, _, _, _, _ => none
  | fuel + 1, spur, s, prevs, nexts, cur_layer, cur_node =>
    match _sl_next s (fuel + 1) cur_node cur_layer with
    | none => none
    | some none => none
    | some (some next_node) =>
      if _sl_cmp s node next_node > 0 then
        if next_node ≠ tailAddr then
          skiplist_insert_walk_weak SKIPLIST_MAX_LAYER node top_layer fuel spur s prevs nexts
            cur_layer next_node
        else if cur_layer = 0 then some (s, 0, spur)
        else skiplist_insert_walk_weak SKIPLIST_MAX_LAYER node top_layer fuel spur s prevs nexts
          (cur_layer - 1) next_node
      else if cur_layer ≤ top_layer then
        if cur_layer < SKIPLIST_MAX_LAYER then
          let prevs := Function.update prevs cur_layer cur_node
          let nexts := Function.update nexts cur_layer next_node
          match skiplist_insert_layer_weak spur s (fuel + 1) node top_layer prevs nexts
              cur_layer cur_node next_node with
          | none => none
          | some (false, s, spur) =>
            (skiplist_insert_walk_weak SKIPLIST_MAX_LAYER node top_layer fuel spur s prevs nexts
              (s.maxLayer - 1) headAddr).map (fun r => (r.1, r.2.1 + 1, r.2.2))
          | some (true, s, spur) =>
            if cur_layer ≠ 0 then
              skiplist_insert_walk_weak SKIPLIST_MAX_LAYER node top_layer fuel spur s prevs nexts
                (cur_layer - 1) cur_node
            else some (skiplist_insert_finish s node top_layer prevs, 0, spur)
        else none
      else if cur_layer ≠ 0 then
        skiplist_insert_walk_weak SKIPLIST_MAX_LAYER node top_layer fuel spur s prevs nexts
          (cur_layer - 1) cur_node
      else some (skiplist_insert_finish s node top_layer prevs, 0, spur)

/-- Source function `skiplist_insert` with the weak compare-exchange: `spur`
lists the outcomes of the CAS attempts, `rand` those of `rand()`.  The
result is the memory at the return, the number of jumps to `insert_retry`
and what is left of `spur`. -/
def skiplist_insert_weak (SKIPLIST_MAX_LAYER : Nat) (spur : List Bool) (s : SkiplistRaw)
    (fuel node : Nat) (rand : Nat → Nat) : Option (SkiplistRaw × Nat × List Bool) :=
  let top_layer := (_sl_decide_top_layer s rand).1
  let s := _sl_node_init s node top_layer
  if s.maxLayer = 0 then some (s, 0, spur)
  else skiplist_insert_walk_weak SKIPLIST_MAX_LAYER node top_layer fuel spur s (fun _ => 0)
    (fun _ => 0) (s.maxLayer - 1) headAddr

/-- The `if (cur_layer <= top_layer)` block of `skiplist_erase_node` with the
weak compare-exchange; same conventions as `skiplist_insert_layer_weak`. -/
def skiplist_erase_node_layer_weak (spur : List Bool) (s : SkiplistRaw) (fuel top_layer : Nat)
    (prevs nexts : Nat → Nat) (cur_layer cur_node : Nat) :
    Option (Bool × SkiplistRaw × List Bool) :=
  let dup : Bool := decide (cur_layer < top_layer ∧ prevs cur_layer = prevs (cur_layer + 1))
  let cas := if dup then (false, s, spur) else ATM_CAS spur s (prevs cur_layer)
  let locked_layer := if cas.1 then cur_layer else cur_layer + 1
  let error_code : Int := if dup || cas.1 then 0 else -1
  let error_code : Int :=
    if error_code = 0 ∧ !_sl_valid_prev_next cas.2.1 (prevs cur_layer) (nexts cur_layer) then -2
    else error_code
  if error_code ≠ 0 then
    some (false, _sl_clr_flags cas.2.1 prevs locked_layer top_layer, cas.2.2)
  else
    match _sl_next cas.2.1 fuel cur_node cur_layer with
    | none => none
    | some r =>
      if r ≠ some (nexts cur_layer) then
        some (false, _sl_clr_flags cas.2.1 prevs cur_layer top_layer, cas.2.2)
      else some (true, cas.2.1, cas.2.2)

/-- The nested `for` / `do-while` of `skiplist_erase_node` with its
`goto erase_node_retry` (which re-reads `isFullyLinked`) and the weak
compare-exchange.  The result is the status, the memory at the return, the
number of jumps to `erase_node_retry` and what is left of the list of CAS
outcomes. -/
def skiplist_erase_node_walk_weak (SKIPLIST_MAX_LAYER node top_layer : Nat) :
    Nat → List Bool → SkiplistRaw → (Nat → Nat) → (Nat → Nat) → Nat → Nat →
      Option (Int × SkiplistRaw × Nat × List Bool)
  | 0, _, _, _, _, _, _ => none
  | fuel + 1, spur, s, prevs, nexts, cur_layer, cur_node =>
    match _sl_next s (fuel + 1) cur_node cur_layer with
    | none => none
    | some none => none
    | some (some next_node) =>
      if _sl_cmp s node next_node > 0 then
        if next_node ≠ tailAddr then
          skiplist_erase_node_walk_weak SKIPLIST_MAX_LAYER node top_layer fuel spur s prevs
            nexts cur_layer next_node
        else if cur_layer = 0 then
          some (0, skiplist_erase_node_finish s node top_layer prevs nexts, 0, spur)
        else skiplist_erase_node_walk_weak SKIPLIST_MAX_LAYER node top_layer fuel spur s prevs
          nexts (cur_layer - 1) next_node
      else if cur_layer ≤ top_layer then
        if cur_layer < SKIPLIST_MAX_LAYER then
          let prevs := Function.update prevs cur_layer cur_node
          let nexts := Function.update nexts cur_layer next_node
          match skiplist_erase_node_layer_weak spur s (fuel + 1) top_layer prevs nexts
              cur_layer cur_node with
          | none => none
          | some (false, s, spur) =>
            if !(s.mem node).isFullyLinked then some (-3, s, 1, spur)
            else (skiplist_erase_node_walk_weak SKIPLIST_MAX_LAYER node top_layer fuel spur s
              prevs nexts (s.maxLayer - 1) headAddr).map
                (fun r => (r.1, r.2.1, r.2.2.1 + 1, r.2.2.2))
          | some (true, s, spur) =>
            if cur_layer ≠ 0 then
              skiplist_erase_node_walk_weak SKIPLIST_MAX_LAYER node top_layer fuel spur s prevs
                nexts (cur_layer - 1) cur_node
            else some (0, skiplist_erase_node_finish s node top_layer prevs nexts, 0, spur)
        else none
      else if cur_layer ≠ 0 then
        skiplist_erase_node_walk_weak SKIPLIST_MAX_LAYER node top_layer fuel spur s prevs nexts
          (cur_layer - 1) cur_node
      else some (0, skiplist_erase_node_finish s node top_layer prevs nexts, 0, spur)

/-- Source function `skiplist_erase_node` with the weak compare-exchange:
the status code, the memory left behind, the number of jumps to
`erase_node_retry` and what is left of the list `spur` of CAS outcomes. -/
def skiplist_erase_node_weak (SKIPLIST_MAX_LAYER : Nat) (spur : List Bool) (s : SkiplistRaw)
    (fuel node : Nat) : Option (Int × SkiplistRaw × Nat × List Bool) :=
  let top_layer := (s.mem node).topLayer
  if (s.mem node).removed then some (-1, s, 0, spur)
  else
    let cas := ATM_CAS spur s node
    if !cas.1 then some (-2, cas.2.1, 0, cas.2.2)
    else
      let s := storeRemoved cas.2.1 node true
      if !(s.mem node).isFullyLinked then some (-3, s, 0, cas.2.2)
      else if s.maxLayer = 0 then
        some (0, skiplist_erase_node_finish s node top_layer (fun _ => 0) (fun _ => 0), 0,
          cas.2.2)
      else skiplist_erase_node_walk_weak SKIPLIST_MAX_LAYER node top_layer fuel cas.2.2 s
        (fun _ => 0) (fun _ => 0) (s.maxLayer - 1) headAddr

/-- The `do { ... } while (ret == -2)` loop of `skiplist_erase` with the weak
compare-exchange: the status, the memory left behind and the number of calls
of `skiplist_erase_node` that returned -2. -/
def skiplist_erase_loop_weak (SKIPLIST_MAX_LAYER found : Nat) :
    Nat → List Bool → SkiplistRaw → Option (Int × SkiplistRaw × Nat)
  | 0, _, _ => none
  | fuel + 1, spur, s =>
    match skiplist_erase_node_weak SKIPLIST_MAX_LAYER spur s (fuel + 1) found with
    | none => none
    | some (ret, s, _, spur) =>
      if ret = -2 then
        (skiplist_erase_loop_weak SKIPLIST_MAX_LAYER found fuel spur s).map
          (fun r => (r.1, r.2.1, r.2.2 + 1))
      else some (ret, s, 0)

/-- Source function `skiplist_erase` with the weak compare-exchange. -/
def skiplist_erase_weak (SKIPLIST_MAX_LAYER : Nat) (spur : List Bool) (s : SkiplistRaw)
    (fuel query : Nat) : Option (Int × SkiplistRaw × Nat) :=
  match skiplist_find s fuel query with
  | none => none
  | some none => some (-4, s, 0)
  | some (some found) => skiplist_erase_loop_weak SKIPLIST_MAX_LAYER found fuel spur s

end Skiplist

namespace Skiplist

theorem sl_cmp_self (s : SkiplistRaw) (a : Nat) : _sl_cmp s a a = 0 := by
  simp [_sl_cmp]

theorem sl_cmp_antisymm {s : SkiplistRaw} (h : LawfulCmp s.cmpFunc) (a b : Nat) :
    _sl_cmp s a b < 0 ↔ 0 < _sl_cmp s b a := by
  have := h.antisymm a b
  unfold _sl_cmp headAddr tailAddr
  by_cases hab : a = b
  · subst hab; simp
  · have hba : ¬ b = a := fun e => hab e.symm
    simp only [hab, hba, if_false]
    split_ifs <;> omega

theorem sl_cmp_trans {s : SkiplistRaw} (h : LawfulCmp s.cmpFunc) (a b c : Nat)
    (h1 : _sl_cmp s a b ≤ 0) (h2 : _sl_cmp s b c ≤ 0) : _sl_cmp s a c ≤ 0 := by
  have := h.trans a b c
  unfold _sl_cmp headAddr tailAddr at *
  split_ifs at * <;> first | omega | simp_all

theorem sl_cmp_lt_of_lt_of_le {s : SkiplistRaw} (h : LawfulCmp s.cmpFunc) {a b c : Nat}
    (h1 : _sl_cmp s a b < 0) (h2 : _sl_cmp s b c ≤ 0) : _sl_cmp s a c < 0 := by
  by_contra hc
  have hac : _sl_cmp s a c ≤ 0 := sl_cmp_trans h a b c (le_of_lt h1) h2
  have hca : _sl_cmp s c a ≤ 0 := by
    by_contra h'
    have := (sl_cmp_antisymm h a c).2 (by omega)
    omega
  have hba := sl_cmp_trans h b c a h2 hca
  have := (sl_cmp_antisymm h a b).1 h1
  omega

theorem sl_cmp_lt_of_le_of_lt {s : SkiplistRaw} (h : LawfulCmp s.cmpFunc) {a b c : Nat}
    (h1 : _sl_cmp s a b ≤ 0) (h2 : _sl_cmp s b c < 0) : _sl_cmp s a c < 0 := by
  by_contra hc
  have hac : _sl_cmp s a c ≤ 0 := sl_cmp_trans h a b c h1 (le_of_lt h2)
  have hca : _sl_cmp s c a ≤ 0 := by
    by_contra h'
    have := (sl_cmp_antisymm h a c).2 (by omega)
    omega
  have hcb := sl_cmp_trans h c a b hca h1
  have := (sl_cmp_antisymm h b c).1 h2
  omega

theorem sl_cmp_lt_trans {s : SkiplistRaw} (h : LawfulCmp s.cmpFunc) {a b c : Nat}
    (h1 : _sl_cmp s a b < 0) (h2 : _sl_cmp s b c < 0) : _sl_cmp s a c < 0 :=
  sl_cmp_lt_of_lt_of_le h h1 (le_of_lt h2)

theorem sl_cmp_eq_symm {s : SkiplistRaw} (h : LawfulCmp s.cmpFunc) {a b : Nat}
    (h1 : _sl_cmp s a b = 0) : _sl_cmp s b a = 0 := by
  have h2 := sl_cmp_antisymm h a b
  have h3 := sl_cmp_antisymm h b a
  omega

end Skiplist

namespace Skiplist

/-! ## Chains and the traversal primitive -/

theorem chainBound_le (ch : Nat → List Nat) :
    ∀ M L, L < M → (ch L).length + 1 ≤ chainBound ch M := by
  intro M
  induction M with
  | zero => intro L h; omega
  | succ M ih =>
    intro L h
    simp only [chainBound]
    by_cases hL : L = M
    · subst hL
      have : 1 ≤ chainBound ch L := by
        clear ih h
        induction L with
        | zero => simp [chainBound]
        | succ k ihk => simp only [chainBound]; omega
      omega
    · have := ih L (by omega)
      omega

theorem split_first_live (s : SkiplistRaw) :
    ∀ l : List Nat, (∃ x ∈ l, Live s x) →
      ∃ dead nx rest, l = dead ++ nx :: rest ∧ (∀ d ∈ dead, ¬ Live s d) ∧ Live s nx := by
  intro l
  induction l with
  | nil => rintro ⟨x, hx, _⟩; simp at hx
  | cons a l ih =>
    intro h
    by_cases ha : Live s a
    · exact ⟨[], a, l, rfl, by simp, ha⟩
    · have : ∃ x ∈ l, Live s x := by
        obtain ⟨x, hx, hl⟩ := h
        rcases List.mem_cons.1 hx with rfl | hx
        · exact absurd hl ha
        · exact ⟨x, hx, hl⟩
      obtain ⟨dead, nx, rest, rfl, hd, hn⟩ := ih this
      refine ⟨a :: dead, nx, rest, rfl, ?_, hn⟩
      intro d hd'
      rcases List.mem_cons.1 hd' with rfl | hd'
      · exact ha
      · exact hd d hd'

theorem sl_next_skip (s : SkiplistRaw) (L : Nat) :
    ∀ (dead : List Nat) (x nx : Nat) (rest : List Nat) (fuel : Nat),
      List.Chain' (Step s L) (x :: (dead ++ nx :: rest)) →
      (∀ d ∈ dead, ¬ Live s d) → Live s nx → dead.length ≤ fuel →
      _sl_next s fuel x L = some (some nx) := by
  intro dead
  induction dead with
  | nil =>
    intro x nx rest fuel hc _ hn _
    have h1 : loadNext s x L = some nx := by
      simp only [List.nil_append, List.chain'_cons] at hc
      exact hc.1.1
    unfold _sl_next
    rw [h1]
    unfold _sl_next_loop
    unfold Live at hn
    simp [hn]
  | cons d ds ih =>
    intro x nx rest fuel hc hd hn hf
    have h1 : loadNext s x L = some d := by
      simp only [List.cons_append, List.chain'_cons] at hc
      exact hc.1.1
    have h2 : List.Chain' (Step s L) (d :: (ds ++ nx :: rest)) := by
      simp only [List.cons_append, List.chain'_cons] at hc
      exact hc.2
    have hdd : ¬ Live s d := hd d (by simp)
    obtain ⟨f, rfl⟩ : ∃ f, fuel = f + 1 := ⟨fuel - 1, by simp at hf; omega⟩
    have := ih d nx rest f h2 (fun e he => hd e (by simp [he])) hn (by simp at hf; omega)
    unfold _sl_next at this ⊢
    rw [h1]
    unfold _sl_next_loop
    unfold Live at hdd
    simp only [hdd]
    simpa using this

end Skiplist

namespace Skiplist

/-! ## Search positions -/

theorem ordered_pairwise {s : SkiplistRaw} {ch : Nat → List Nat} (wf : WellFormed s ch)
    {L : Nat} (hL : L < s.maxLayer) :
    List.Pairwise (fun a b => _sl_cmp s a b < 0) (headAddr :: ch L ++ [tailAddr]) := by
  have h := wf.ordered L hL
  have h2 : List.Chain' (fun a b => _sl_cmp s a b < 0) (headAddr :: ch L ++ [tailAddr]) :=
    h.imp (fun _ _ hab => hab.2)
  haveI : IsTrans Nat (fun a b => _sl_cmp s a b < 0) :=
    ⟨fun _ _ _ hab hbc => sl_cmp_lt_trans wf.lawful hab hbc⟩
  exact List.chain'_iff_pairwise.1 h2

theorem sl_cmp_tail_le (s : SkiplistRaw) (q : Nat) : _sl_cmp s q tailAddr ≤ 0 := by
  unfold _sl_cmp
  split_ifs <;> simp_all

theorem pos_tail_mem {s : SkiplistRaw} {ch : Nat → List Nat} {q L cur : Nat} {rest : List Nat}
    (hp : Pos s ch q L cur rest) : tailAddr ∈ rest := by
  rcases hp with ⟨_, rfl⟩ | ⟨_, hq, a, ha⟩
  · simp
  · have h1 : (ch L ++ [tailAddr]).getLast? = some tailAddr := by simp
    rw [ha] at h1
    rcases List.eq_nil_or_concat rest with rfl | ⟨r, x, rfl⟩
    · simp at h1
      subst h1
      have := sl_cmp_tail_le s q
      omega
    · simp only [List.concat_eq_append] at h1 ⊢
      have : a ++ cur :: (r ++ [x]) = (a ++ cur :: r) ++ [x] := by simp
      rw [this] at h1
      simp only [List.getLast?_append, List.getLast?_singleton] at h1
      simp [Option.or] at h1
      subst h1
      simp

theorem pos_chain {s : SkiplistRaw} {ch : Nat → List Nat} (wf : WellFormed s ch)
    {q L cur : Nat} {rest : List Nat} (hL : L < s.maxLayer) (hp : Pos s ch q L cur rest) :
    List.Chain' (Step s L) (cur :: rest) := by
  have h := wf.ordered L hL
  rcases hp with ⟨rfl, rfl⟩ | ⟨_, _, a, ha⟩
  · simpa using h
  · have h' : List.Chain' (Step s L) ((headAddr :: a) ++ cur :: rest) := by
      simpa [ha] using h
    exact h'.right_of_append

theorem pos_step {s : SkiplistRaw} {ch : Nat → List Nat} (wf : WellFormed s ch)
    {q L cur : Nat} {rest : List Nat} (hL : L < s.maxLayer) (hp : Pos s ch q L cur rest)
    {fuel : Nat} (hf : rest.length ≤ fuel) :
    ∃ dead nx rest2, rest = dead ++ nx :: rest2 ∧ (∀ d ∈ dead, ¬ Live s d) ∧ Live s nx ∧
      _sl_next s fuel cur L = some (some nx) := by
  obtain ⟨dead, nx, rest2, rfl, hd, hn⟩ :=
    split_first_live s rest ⟨tailAddr, pos_tail_mem hp, wf.tail_live⟩
  refine ⟨dead, nx, rest2, rfl, hd, hn, ?_⟩
  apply sl_next_skip s L dead cur nx rest2 fuel (pos_chain wf hL hp) hd hn
  simp at hf
  omega

theorem pos_advance {s : SkiplistRaw} {ch : Nat → List Nat}
    {q L cur nx : Nat} {dead rest2 : List Nat}
    (hp : Pos s ch q L cur (dead ++ nx :: rest2)) (hn : Live s nx)
    (hc : 0 < _sl_cmp s q nx) : nx ≠ tailAddr ∧ Pos s ch q L nx rest2 := by
  constructor
  · rintro rfl
    have := sl_cmp_tail_le s q
    omega
  · right
    refine ⟨hn, hc, ?_⟩
    rcases hp with ⟨_, h⟩ | ⟨_, _, a, ha⟩
    · exact ⟨dead, h.symm⟩
    · exact ⟨a ++ cur :: dead, by simp [ha]⟩

theorem pos_head (s : SkiplistRaw) (ch : Nat → List Nat) (q L : Nat) :
    Pos s ch q L headAddr (ch L ++ [tailAddr]) := Or.inl ⟨rfl, rfl⟩

theorem pos_descend {s : SkiplistRaw} {ch : Nat → List Nat} (wf : WellFormed s ch)
    {q L cur : Nat} {rest : List Nat} (hL : L + 1 < s.maxLayer)
    (hp : Pos s ch q (L + 1) cur rest) :
    ∃ rest', Pos s ch q L cur rest' ∧ rest'.length ≤ (ch L).length + 1 := by
  rcases hp with ⟨rfl, _⟩ | ⟨hl, hq, a, ha⟩
  · exact ⟨_, pos_head s ch q L, by simp⟩
  · have hne : cur ≠ tailAddr := by
      rintro rfl
      have := sl_cmp_tail_le s q
      omega
    have hmem : cur ∈ ch (L + 1) := by
      have : cur ∈ ch (L + 1) ++ [tailAddr] := by rw [ha]; simp
      simpa [hne] using this
    obtain ⟨a', b', hab⟩ := List.append_of_mem (wf.contained L hL cur hmem hl)
    refine ⟨b' ++ [tailAddr], Or.inr ⟨hl, hq, a', by simp [hab]⟩, ?_⟩
    rw [hab]
    simp
    omega

theorem pos_mem {s : SkiplistRaw} {ch : Nat → List Nat}
    {q L cur nx : Nat} {dead rest2 : List Nat}
    (hp : Pos s ch q L cur (dead ++ nx :: rest2)) : nx ∈ ch L ++ [tailAddr] := by
  rcases hp with ⟨_, h⟩ | ⟨_, _, a, ha⟩
  · rw [← h]; simp
  · rw [ha]; simp

/-- Every live member of the layer is at or before `cur` (hence below the
query), is the next live node `nx`, or comes after `nx`. -/
theorem pos_cases {s : SkiplistRaw} {ch : Nat → List Nat} (wf : WellFormed s ch)
    {q L cur nx : Nat} {dead rest2 : List Nat} (hL : L < s.maxLayer)
    (hp : Pos s ch q L cur (dead ++ nx :: rest2)) (hd : ∀ d ∈ dead, ¬ Live s d)
    {n : Nat} (hn : n ∈ ch L ++ [tailAddr]) (hl : Live s n) :
    (Live s cur ∧ 0 < _sl_cmp s q cur ∧ (n = cur ∨ _sl_cmp s n cur < 0)) ∨ n = nx ∨
      _sl_cmp s nx n < 0 := by
  have hpw := ordered_pairwise wf hL
  have hpw' : List.Pairwise (fun a b => _sl_cmp s a b < 0) (ch L ++ [tailAddr]) := by
    simp only [List.cons_append] at hpw
    exact (List.pairwise_cons.1 hpw).2
  have key : ∀ m ∈ dead ++ nx :: rest2, Live s m → m = nx ∨ _sl_cmp s nx m < 0 := by
    intro m hm hlm
    rcases List.mem_append.1 hm with h | h
    · exact absurd hlm (hd m h)
    · rcases List.mem_cons.1 h with h | h
      · exact Or.inl h
      · right
        have h3 : List.Pairwise (fun a b => _sl_cmp s a b < 0) (nx :: rest2) := by
          rcases hp with ⟨_, h'⟩ | ⟨_, _, a, ha⟩
          · rw [← h'] at hpw'
            exact (List.pairwise_append.1 hpw').2.1
          · rw [ha] at hpw'
            have := (List.pairwise_append.1 hpw').2.1
            have := (List.pairwise_cons.1 this).2
            exact (List.pairwise_append.1 this).2.1
        exact (List.pairwise_cons.1 h3).1 m h
  rcases hp with ⟨_, h'⟩ | ⟨hlc, hqc, a, ha⟩
  · rw [← h'] at hn
    exact Or.inr (key n hn hl)
  · rw [ha] at hn hpw'
    rcases List.mem_append.1 hn with h | h
    · left
      refine ⟨hlc, hqc, Or.inr ?_⟩
      exact (List.pairwise_append.1 hpw').2.2 n h cur (by simp)
    · rcases List.mem_cons.1 h with h | h
      · exact Or.inl ⟨hlc, hqc, Or.inl h⟩
      · exact Or.inr (key n h hl)

theorem live_mem_zero {s : SkiplistRaw} {ch : Nat → List Nat} (wf : WellFormed s ch) :
    ∀ L, L < s.maxLayer → ∀ x ∈ ch L ++ [tailAddr], Live s x → x ∈ ch 0 ++ [tailAddr] := by
  intro L
  induction L with
  | zero => intro _ x hx _; exact hx
  | succ L ih =>
    intro hL x hx hl
    rcases List.mem_append.1 hx with h | h
    · exact ih (by omega) x (List.mem_append_left _ (wf.contained L hL x h hl)) hl
    · exact List.mem_append_right _ h

end Skiplist

namespace Skiplist

/-! ## Lookups -/

theorem find_walk_spec {s : SkiplistRaw} {ch : Nat → List Nat} (wf : WellFormed s ch)
    (q : Nat) :
    ∀ (fuel L cur : Nat) (rest : List Nat), L < s.maxLayer → Pos s ch q L cur rest →
      rest.length + L * (chainBound ch s.maxLayer + 1) ≤ fuel →
      ∃ r, skiplist_find_walk s q fuel L cur = some r ∧
        (∀ n, r = some n → Live s n ∧ n ∈ ch 0 ++ [tailAddr] ∧ _sl_cmp s q n = 0) ∧
        (r = none → ∀ n ∈ ch 0 ++ [tailAddr], Live s n → _sl_cmp s q n ≠ 0) := by
  intro fuel
  induction fuel with
  | zero =>
    intro L cur rest _ hp hf
    have := List.length_pos_of_mem (pos_tail_mem hp)
    omega
  | succ fuel ih =>
    intro L cur rest hL hp hf
    obtain ⟨dead, nx, rest2, rfl, hd, hn, hnext⟩ :=
      pos_step wf hL hp (show (rest.length ≤ fuel + 1) by omega)
    rw [skiplist_find_walk, hnext]
    simp only [List.length_append, List.length_cons] at hf
    by_cases hc : 0 < _sl_cmp s q nx
    · obtain ⟨hnt, hp'⟩ := pos_advance hp hn hc
      simp only [gt_iff_lt, hc, if_true, ne_eq, hnt, not_false_eq_true]
      exact ih L nx rest2 hL hp' (by omega)
    · simp only [gt_iff_lt, hc, if_false]
      by_cases hz : _sl_cmp s q nx = 0
      · simp only [hz, if_true]
        refine ⟨some nx, rfl, ?_, by simp⟩
        intro n hn'
        cases hn'
        exact ⟨hn, live_mem_zero wf L hL nx (pos_mem hp) hn, hz⟩
      · simp only [hz, if_false]
        cases L with
        | zero =>
          simp only [ne_eq, not_true_eq_false, if_false]
          refine ⟨none, rfl, by simp, ?_⟩
          intro _ n hn' hl
          have hlt : _sl_cmp s q nx < 0 := by omega
          rcases pos_cases wf hL hp hd hn' hl with ⟨_, hqc, h | h⟩ | h | h
          · subst h; omega
          · have h1 := (sl_cmp_antisymm wf.lawful cur q).2 hqc
            have h2 := sl_cmp_lt_trans wf.lawful h h1
            have := (sl_cmp_antisymm wf.lawful n q).1 h2
            omega
          · subst h; omega
          · have := sl_cmp_lt_trans wf.lawful hlt h
            omega
        | succ L =>
          obtain ⟨rest', hp', hlen⟩ := pos_descend wf hL hp
          have hB := chainBound_le ch s.maxLayer L (by omega)
          simp only [ne_eq, Nat.add_one_ne_zero, not_false_eq_true, if_true,
            Nat.add_sub_cancel]
          apply ih L cur rest' (by omega) hp'
          have : (L + 1) * (chainBound ch s.maxLayer + 1) =
              L * (chainBound ch s.maxLayer + 1) + (chainBound ch s.maxLayer + 1) := by ring
          omega

theorem find_smaller_walk_spec {s : SkiplistRaw} {ch : Nat → List Nat} (wf : WellFormed s ch)
    (q : Nat) :
    ∀ (fuel L cur : Nat) (rest : List Nat), L < s.maxLayer → Pos s ch q L cur rest →
      rest.length + L * (chainBound ch s.maxLayer + 1) ≤ fuel →
      ∃ p, skiplist_find_smaller_walk s q fuel L cur = some (some p) ∧
        (p = headAddr ∨ (Live s p ∧ p ∈ ch 0 ∧ 0 < _sl_cmp s q p)) ∧
        (∀ n ∈ ch 0 ++ [tailAddr], Live s n → 0 < _sl_cmp s q n →
          Live s p ∧ 0 < _sl_cmp s q p ∧ (n = p ∨ _sl_cmp s n p < 0)) := by
  intro fuel
  induction fuel with
  | zero =>
    intro L cur rest _ hp hf
    have := List.length_pos_of_mem (pos_tail_mem hp)
    omega
  | succ fuel ih =>
    intro L cur rest hL hp hf
    obtain ⟨dead, nx, rest2, rfl, hd, hn, hnext⟩ :=
      pos_step wf hL hp (show (rest.length ≤ fuel + 1) by omega)
    rw [skiplist_find_smaller_walk, hnext]
    simp only [List.length_append, List.length_cons] at hf
    by_cases hc : 0 < _sl_cmp s q nx
    · obtain ⟨hnt, hp'⟩ := pos_advance hp hn hc
      simp only [gt_iff_lt, hc, if_true, ne_eq, hnt, not_false_eq_true]
      exact ih L nx rest2 hL hp' (by omega)
    · simp only [gt_iff_lt, hc, if_false]
      cases L with
      | zero =>
        simp only [ne_eq, not_true_eq_false, if_false]
        refine ⟨cur, rfl, ?_, ?_⟩
        · rcases hp with ⟨h, _⟩ | ⟨hl, hq, a, ha⟩
          · exact Or.inl h
          · right
            refine ⟨hl, ?_, hq⟩
            have hne : cur ≠ tailAddr := by
              rintro rfl
              have := sl_cmp_tail_le s q
              omega
            have : cur ∈ ch 0 ++ [tailAddr] := by rw [ha]; simp
            simpa [hne] using this
        · intro n hn' hl hqn
          rcases pos_cases wf hL hp hd hn' hl with h | h | h
          · exact h
          · subst h; omega
          · have h1 := (sl_cmp_antisymm wf.lawful n q).2 hqn
            have h2 := sl_cmp_lt_trans wf.lawful h h1
            have := (sl_cmp_antisymm wf.lawful nx q).1 h2
            omega
      | succ L =>
        obtain ⟨rest', hp', hlen⟩ := pos_descend wf hL hp
        have hB := chainBound_le ch s.maxLayer L (by omega)
        simp only [ne_eq, Nat.add_one_ne_zero, not_false_eq_true, if_true,
          Nat.add_sub_cancel]
        apply ih L cur rest' (by omega) hp'
        have : (L + 1) * (chainBound ch s.maxLayer + 1) =
            L * (chainBound ch s.maxLayer + 1) + (chainBound ch s.maxLayer + 1) := by ring
        omega

theorem searchFuel_ge {s : SkiplistRaw} {ch : Nat → List Nat} (h : 1 ≤ s.maxLayer) :
    (ch (s.maxLayer - 1) ++ [tailAddr]).length +
      (s.maxLayer - 1) * (chainBound ch s.maxLayer + 1) ≤ searchFuel s ch := by
  have hB := chainBound_le ch s.maxLayer (s.maxLayer - 1) (by omega)
  unfold searchFuel
  obtain ⟨m, hm⟩ : ∃ m, s.maxLayer = m + 1 := ⟨s.maxLayer - 1, by omega⟩
  rw [hm] at hB ⊢
  simp only [Nat.add_sub_cancel, List.length_append, List.length_singleton] at hB ⊢
  have : (m + 1) * (chainBound ch (m + 1) + 1) =
      m * (chainBound ch (m + 1) + 1) + (chainBound ch (m + 1) + 1) := by ring
  omega

end Skiplist

namespace Skiplist

/-! ## Neighbour queries -/

theorem sl_cmp_head_ge (s : SkiplistRaw) (n : Nat) : 0 ≤ _sl_cmp s n headAddr := by
  unfold _sl_cmp headAddr tailAddr
  split_ifs <;> simp_all

theorem sl_cmp_tail_ge (s : SkiplistRaw) (n : Nat) : 0 ≤ _sl_cmp s tailAddr n := by
  unfold _sl_cmp headAddr tailAddr
  split_ifs <;> simp_all

theorem mem_liveNodes {s : SkiplistRaw} {l : List Nat} {x : Nat} :
    x ∈ liveNodes s l ↔ x ∈ l ∧ Live s x := by
  simp [liveNodes, Live]

theorem liveNodes_append (s : SkiplistRaw) (a b : List Nat) :
    liveNodes s (a ++ b) = liveNodes s a ++ liveNodes s b := by
  simp [liveNodes]

theorem head_not_mem {s : SkiplistRaw} {ch : Nat → List Nat} (wf : WellFormed s ch)
    {L : Nat} (hL : L < s.maxLayer) : headAddr ∉ ch L ++ [tailAddr] := by
  intro h
  have hpw := ordered_pairwise wf hL
  simp only [List.cons_append] at hpw
  have := (List.pairwise_cons.1 hpw).1 headAddr h
  rw [sl_cmp_self] at this
  omega

theorem tail_not_mem {s : SkiplistRaw} {ch : Nat → List Nat} (wf : WellFormed s ch)
    {L : Nat} (hL : L < s.maxLayer) : tailAddr ∉ ch L := by
  intro h
  have hpw := ordered_pairwise wf hL
  simp only [List.cons_append] at hpw
  have h2 := (List.pairwise_append.1 (List.pairwise_cons.1 hpw).2).2.2 tailAddr h tailAddr
    (by simp)
  rw [sl_cmp_self] at h2
  omega

theorem next_from_chain (s : SkiplistRaw) (L : Nat) (ht : Live s tailAddr) :
    ∀ (b : List Nat) (x fuel : Nat), List.Chain' (Step s L) (x :: (b ++ [tailAddr])) →
      b.length ≤ fuel →
      _sl_next s fuel x L = some (some ((liveNodes s b).head?.getD tailAddr)) := by
  intro b
  induction b with
  | nil =>
    intro x fuel hc _
    exact sl_next_skip s L [] x tailAddr [] fuel (by simpa using hc) (by simp) ht (by simp)
  | cons d b ih =>
    intro x fuel hc hf
    by_cases hd : Live s d
    · have : liveNodes s (d :: b) = d :: liveNodes s b := by
        unfold Live at hd
        simp [liveNodes, hd]
      rw [this]
      exact sl_next_skip s L [] x d (b ++ [tailAddr]) fuel (by simpa using hc) (by simp) hd
        (by simp)
    · have hlive : liveNodes s (d :: b) = liveNodes s b := by
        unfold Live at hd
        simp [liveNodes, hd]
      rw [hlive]
      obtain ⟨f, rfl⟩ : ∃ f, fuel = f + 1 := ⟨fuel - 1, by simp at hf; omega⟩
      have h1 : loadNext s x L = some d := by
        simp only [List.cons_append, List.chain'_cons] at hc
        exact hc.1.1
      have h2 : List.Chain' (Step s L) (d :: (b ++ [tailAddr])) := by
        simp only [List.cons_append, List.chain'_cons] at hc
        exact hc.2
      have := ih d f h2 (by simp at hf; omega)
      unfold _sl_next at this ⊢
      rw [h1]
      unfold _sl_next_loop
      unfold Live at hd
      simp only [hd]
      simpa using this

/-- What `skiplist_find_smaller` returns on a node of the bottom chain (tail
included): the last live node before it, or head. -/
theorem find_smaller_spec {s : SkiplistRaw} {ch : Nat → List Nat} (wf : WellFormed s ch)
    {a b : List Nat} {q fuel : Nat} (hch : ch 0 ++ [tailAddr] = a ++ q :: b)
    (hf : searchFuel s ch ≤ fuel) :
    skiplist_find_smaller s fuel q = some (some ((liveNodes s a).getLast?.getD headAddr)) := by
  have hM : 0 < s.maxLayer := wf.maxLayer_pos
  have hpw := ordered_pairwise wf hM
  simp only [List.cons_append] at hpw
  have hpw' := (List.pairwise_cons.1 hpw).2
  rw [hch] at hpw'
  obtain ⟨p, hres, hp, hgreat⟩ := find_smaller_walk_spec wf q fuel (s.maxLayer - 1) headAddr _
    (by omega) (pos_head s ch q _) (le_trans (searchFuel_ge wf.maxLayer_pos) hf)
  unfold skiplist_find_smaller
  rw [if_neg (by omega), hres]
  have hqa : ∀ m ∈ a, _sl_cmp s m q < 0 := fun m hm =>
    (List.pairwise_append.1 hpw').2.2 m hm q (by simp)
  have hqb : ∀ m ∈ b, _sl_cmp s q m < 0 := fun m hm =>
    (List.pairwise_cons.1 (List.pairwise_append.1 hpw').2.1).1 m hm
  -- a live node of the chain below `q` lies in `a`
  have hbelow : ∀ m, m ∈ ch 0 → 0 < _sl_cmp s q m → m ∈ a := by
    intro m hm hc
    have : m ∈ a ++ q :: b := by rw [← hch]; simp [hm]
    rcases List.mem_append.1 this with h | h
    · exact h
    · rcases List.mem_cons.1 h with h | h
      · subst h; rw [sl_cmp_self] at hc; omega
      · have := hqb m h; omega
  have hhead : ∀ m, m ∈ a → m ≠ headAddr := by
    intro m hm e
    exact head_not_mem wf hM (by rw [hch, ← e]; simp [hm])
  have haw : List.Pairwise (fun x y => _sl_cmp s x y < 0) (liveNodes s a) :=
    (List.pairwise_append.1 hpw').1.sublist (List.filter_sublist a)
  rcases List.eq_nil_or_concat (liveNodes s a) with hnil | ⟨w, m, hw⟩
  · rw [hnil]
    simp only [List.getLast?_nil, Option.getD_none]
    rcases hp with h | ⟨hl, hm, hc⟩
    · rw [h]
    · have := mem_liveNodes.2 ⟨hbelow p hm hc, hl⟩
      rw [hnil] at this
      simp at this
  · rw [List.concat_eq_append] at hw
    have hmm : m ∈ liveNodes s a := by rw [hw]; simp
    obtain ⟨hma, hml⟩ := mem_liveNodes.1 hmm
    have hlast : (liveNodes s a).getLast?.getD headAddr = m := by
      rw [hw]; simp
    rw [hlast]
    have hqm : 0 < _sl_cmp s q m := (sl_cmp_antisymm wf.lawful m q).1 (hqa m hma)
    have hmem : m ∈ ch 0 ++ [tailAddr] := by rw [hch]; simp [hma]
    obtain ⟨hlp, hqp, hor⟩ := hgreat m hmem hml hqm
    rcases hor with h | h
    · rw [h]
    · exfalso
      have hph : p ≠ headAddr := by
        rintro rfl
        have := sl_cmp_head_ge s m
        omega
      rcases hp with h' | ⟨_, hpm, _⟩
      · exact hph h'
      · have hpa := mem_liveNodes.2 ⟨hbelow p hpm hqp, hlp⟩
        rw [hw] at hpa haw
        rcases List.mem_append.1 hpa with h' | h'
        · have := (List.pairwise_append.1 haw).2.2 p h' m (by simp)
          have := (sl_cmp_antisymm wf.lawful m p).1 h
          omega
        · simp at h'
          subst h'
          rw [sl_cmp_self] at h
          omega

theorem searchFuel_ge_len {s : SkiplistRaw} {ch : Nat → List Nat} (h : 1 ≤ s.maxLayer) :
    (ch 0).length + 1 ≤ searchFuel s ch := by
  have hB := chainBound_le ch s.maxLayer 0 (by omega)
  unfold searchFuel
  have : chainBound ch s.maxLayer + 1 ≤ s.maxLayer * (chainBound ch s.maxLayer + 1) :=
    Nat.le_mul_of_pos_left _ (by omega)
  omega

end Skiplist

namespace Skiplist

/-! ## Effect of the primitive stores -/

theorem setNode_mem (s : SkiplistRaw) (x a : Nat) (n : SkiplistNode) :
    (setNode s x n).mem a = if a = x then n else s.mem a := by
  by_cases h : a = x
  · subst h; simp [setNode]
  · simp [setNode, Function.update, h]

@[simp] theorem setNode_cmpFunc (s : SkiplistRaw) (a : Nat) (n : SkiplistNode) :
    (setNode s a n).cmpFunc = s.cmpFunc := rfl

@[simp] theorem setNode_maxLayer (s : SkiplistRaw) (a : Nat) (n : SkiplistNode) :
    (setNode s a n).maxLayer = s.maxLayer := rfl

@[simp] theorem setNode_fanout (s : SkiplistRaw) (a : Nat) (n : SkiplistNode) :
    (setNode s a n).fanout = s.fanout := rfl

theorem sl_cmp_congr {s s' : SkiplistRaw} (h : s'.cmpFunc = s.cmpFunc) :
    _sl_cmp s' = _sl_cmp s := by
  funext a b
  simp [_sl_cmp, h]

theorem storeBM_valid (s : SkiplistRaw) (x a : Nat) (v : Bool) :
    _sl_valid_node (storeBeingModified s x v) a = _sl_valid_node s a := by
  unfold _sl_valid_node storeBeingModified
  rw [setNode_mem]
  split_ifs with h
  · subst h; rfl
  · rfl

theorem storeBM_loadNext (s : SkiplistRaw) (x a L : Nat) (v : Bool) :
    loadNext (storeBeingModified s x v) a L = loadNext s a L := by
  unfold loadNext storeBeingModified
  rw [setNode_mem]
  split_ifs with h
  · subst h; rfl
  · rfl

theorem storeBM_flag (s : SkiplistRaw) (x a : Nat) (v : Bool) :
    ((storeBeingModified s x v).mem a).beingModified =
      if a = x then v else (s.mem a).beingModified := by
  unfold storeBeingModified
  rw [setNode_mem]
  split_ifs with h <;> rfl

theorem storeBM_shape (s : SkiplistRaw) (x a : Nat) (v : Bool) :
    ((storeBeingModified s x v).mem a).next = (s.mem a).next ∧
    ((storeBeingModified s x v).mem a).topLayer = (s.mem a).topLayer ∧
    ((storeBeingModified s x v).mem a).isFullyLinked = (s.mem a).isFullyLinked ∧
    ((storeBeingModified s x v).mem a).removed = (s.mem a).removed := by
  unfold storeBeingModified
  rw [setNode_mem]
  split_ifs with h
  · subst h; exact ⟨rfl, rfl, rfl, rfl⟩
  · exact ⟨rfl, rfl, rfl, rfl⟩

theorem storeNext_loadNext (s : SkiplistRaw) (x L a j : Nat) (v : Option Nat) :
    loadNext (storeNext s x L v) a j =
      if a = x ∧ j = L ∧ L < (s.mem x).next.length then v else loadNext s a j := by
  unfold loadNext storeNext
  rw [setNode_mem]
  by_cases h : a = x
  · subst h
    simp only [if_true, true_and]
    by_cases hj : j = L
    · subst hj
      by_cases hl : j < (s.mem a).next.length
      · simp [hl, List.getD_eq_getElem?_getD, List.getElem?_set]
      · simp [hl, List.getD_eq_getElem?_getD, List.getElem?_set]
        simp at hl
        simp [List.getElem?_eq_none hl]
    · have : ¬ L = j := fun e => hj e.symm
      simp [hj, List.getD_eq_getElem?_getD, List.getElem?_set, this]
  · simp [h]

theorem storeNext_flags (s : SkiplistRaw) (x L a : Nat) (v : Option Nat) :
    ((storeNext s x L v).mem a).beingModified = (s.mem a).beingModified ∧
    ((storeNext s x L v).mem a).topLayer = (s.mem a).topLayer ∧
    ((storeNext s x L v).mem a).isFullyLinked = (s.mem a).isFullyLinked ∧
    ((storeNext s x L v).mem a).removed = (s.mem a).removed ∧
    ((storeNext s x L v).mem a).next.length = (s.mem a).next.length ∧
    (((storeNext s x L v).mem a).next = [] ↔ (s.mem a).next = []) := by
  unfold storeNext
  rw [setNode_mem]
  split_ifs with h
  · subst h
    refine ⟨rfl, rfl, rfl, rfl, by simp, ?_⟩
    simp [← List.length_eq_zero]
  · simp

/-- Well-formedness only reads the comparator, `maxLayer`, the live flags and
the forward pointers of the chained nodes. -/
theorem wf_transport {s s' : SkiplistRaw} {ch : Nat → List Nat} (wf : WellFormed s ch)
    (hc : s'.cmpFunc = s.cmpFunc) (hm : s'.maxLayer = s.maxLayer)
    (hv : ∀ a, _sl_valid_node s' a = _sl_valid_node s a)
    (hn : ∀ L, L < s.maxLayer → ∀ a ∈ headAddr :: ch L, loadNext s' a L = loadNext s a L) :
    WellFormed s' ch := by
  have hcmp := sl_cmp_congr hc
  refine ⟨by rw [hm]; exact wf.maxLayer_pos, by rw [hc]; exact wf.lawful, ?_, ?_, ?_, ?_⟩
  · unfold Live; rw [hv]; exact wf.head_live
  · unfold Live; rw [hv]; exact wf.tail_live
  · intro L hL
    rw [hm] at hL
    have h := List.Chain'.iff_mem.1 (wf.ordered L hL)
    refine h.imp ?_
    rintro a b ⟨ha, hb, hst⟩
    refine ⟨?_, by rw [hcmp]; exact hst.2⟩
    have ha' : a ∈ headAddr :: ch L := by
      have hne : a ≠ tailAddr := by
        rintro rfl
        have := sl_cmp_tail_ge s b
        have := hst.2
        omega
      simp only [List.cons_append, List.mem_cons, List.mem_append, List.mem_singleton] at ha
      simp only [List.mem_cons]
      tauto
    rw [hn L hL a ha']
    exact hst.1
  · intro L hL x hx hl
    rw [hm] at hL
    unfold Live at hl
    rw [hv] at hl
    exact wf.contained L hL x hx hl

end Skiplist

namespace Skiplist

/-! ## The locking step of a writer -/

theorem pos_decomp {s : SkiplistRaw} {ch : Nat → List Nat} {q L cur : Nat} {rest : List Nat}
    (hp : Pos s ch q L cur rest) :
    ∃ pre, headAddr :: ch L ++ [tailAddr] = pre ++ cur :: rest := by
  rcases hp with ⟨rfl, rfl⟩ | ⟨_, _, a, ha⟩
  · exact ⟨[], rfl⟩
  · exact ⟨headAddr :: a, by simp [ha]⟩

theorem pos_cur_lt {s : SkiplistRaw} {ch : Nat → List Nat} (wf : WellFormed s ch)
    {q L cur : Nat} {rest : List Nat} (hq : q ≠ headAddr)
    (hp : Pos s ch q L cur rest) : _sl_cmp s cur q < 0 := by
  rcases hp with ⟨rfl, _⟩ | ⟨_, h, _⟩
  · unfold _sl_cmp
    have : ¬ headAddr = q := fun e => hq e.symm
    simp [this]
  · exact (sl_cmp_antisymm wf.lawful cur q).2 h

theorem pos_cur_mem {s : SkiplistRaw} {ch : Nat → List Nat} (wf : WellFormed s ch)
    {q L cur : Nat} {rest : List Nat} (hL : L < s.maxLayer)
    (hp : Pos s ch q L cur rest) : Live s cur ∧ cur ∈ headAddr :: ch 0 := by
  rcases hp with ⟨rfl, _⟩ | ⟨hl, hq, a, ha⟩
  · exact ⟨wf.head_live, by simp⟩
  · refine ⟨hl, ?_⟩
    have h1 : cur ∈ ch L ++ [tailAddr] := by rw [ha]; simp
    have h2 := live_mem_zero wf L hL cur h1 hl
    have hne : cur ≠ tailAddr := by
      rintro rfl
      have := sl_cmp_tail_le s q
      omega
    simp only [List.mem_append, List.mem_singleton, hne, or_false] at h2
    exact List.mem_cons_of_mem _ h2

theorem pos_cur_lt_next {s : SkiplistRaw} {ch : Nat → List Nat} (wf : WellFormed s ch)
    {q L cur : Nat} {rest : List Nat} (hL : L < s.maxLayer)
    (hp : Pos s ch q L cur rest) : ∀ x ∈ rest, _sl_cmp s cur x < 0 := by
  obtain ⟨pre, hpre⟩ := pos_decomp hp
  have hpw := ordered_pairwise wf hL
  rw [hpre] at hpw
  exact (List.pairwise_cons.1 (List.pairwise_append.1 hpw).2.1).1

/-- Recording `cur` / `nx` as the layer-`L` neighbours and taking the lock on
`cur` (unless it is already held from the layer above) keeps the writer's
invariant, and the CAS finds the flag clear. -/
theorem walkInv_lock {s : SkiplistRaw} {ch : Nat → List Nat} {node t : Nat}
    {prevs nexts : Nat → Nat} {L cur nx : Nat} {dead rest2 : List Nat}
    (inv : WalkInv s ch node t prevs nexts (L + 1)) (hLt : L ≤ t)
    (hp : Pos s ch node L cur (dead ++ nx :: rest2))
    (hd : ∀ d ∈ dead, ¬ Live s d) (hnx : Live s nx)
    (hc : ¬ 0 < _sl_cmp s node nx)
    (hmono : ∀ j, L + 1 ≤ j → j ≤ t → prevs j = cur ∨ _sl_cmp s (prevs j) cur < 0) :
    (¬ (L < t ∧ cur = prevs (L + 1)) → (s.mem cur).beingModified = false) ∧
    WalkInv (if L < t ∧ cur = prevs (L + 1) then s else storeBeingModified s cur true)
      ch node t (Function.update prevs L cur) (Function.update nexts L nx) L := by
  have wf := inv.wf
  have hL : L < s.maxLayer := lt_of_le_of_lt hLt inv.t_lt
  obtain ⟨hcl, hcm⟩ := pos_cur_mem wf hL hp
  have hcn : cur ≠ node := fun e => inv.node_dead (e ▸ hcl)
  have hnn : nx ≠ node := fun e => inv.node_dead (e ▸ hnx)
  have hirr : ∀ a, ¬ _sl_cmp s a a < 0 := fun a h => by rw [sl_cmp_self] at h; omega
  -- the CAS succeeds
  have hcas : ¬ (L < t ∧ cur = prevs (L + 1)) → (s.mem cur).beingModified = false := by
    intro hdup
    by_contra hbm
    have hbm' : (s.mem cur).beingModified = true := by simpa using hbm
    obtain ⟨j, hj1, hj2, hj3⟩ := (inv.locks cur hcm hcn).1 hbm'
    have hlt : L < t := by omega
    apply hdup
    refine ⟨hlt, ?_⟩
    rcases hmono (L + 1) le_rfl (by omega) with h | h
    · exact h.symm
    · exfalso
      rcases inv.mono j hj1 hj2 (L + 1) le_rfl hj1 with h' | h'
      · rw [← h', hj3] at h
        exact hirr _ h
      · rw [hj3] at h'
        exact hirr _ (sl_cmp_lt_trans wf.lawful h' h)
  refine ⟨hcas, ?_⟩
  have hupd : ∀ j, L + 1 ≤ j → Function.update prevs L cur j = prevs j := by
    intro j hj
    exact Function.update_noteq (by omega) _ _
  have hupdn : ∀ j, L + 1 ≤ j → Function.update nexts L nx j = nexts j := by
    intro j hj
    exact Function.update_noteq (by omega) _ _
  -- the new invariant on the old state, locks apart
  have hadj : ∀ j, L ≤ j → j ≤ t →
      Adj s ch node j (Function.update prevs L cur j) (Function.update nexts L nx j) := by
    intro j hj1 hj2
    rcases Nat.eq_or_lt_of_le hj1 with rfl | hlt
    · simp only [Function.update_same]
      obtain ⟨pre, hpre⟩ := pos_decomp hp
      refine ⟨pre, dead, rest2, hpre, ?_, hcn, hnn, pos_cur_lt wf inv.node_ne_head hp, ?_⟩
      · intro d hdd
        by_contra hne
        have hmem : d ∈ ch L ++ [tailAddr] := by
          rcases hp with ⟨_, h⟩ | ⟨_, _, a, ha⟩
          · rw [← h]; simp [hdd]
          · rw [ha]; simp [hdd]
        rcases List.mem_append.1 hmem with h | h
        · exact hd d hdd (inv.live L hL d h hne)
        · simp at h
          exact hd d hdd (h ▸ wf.tail_live)
      · have h0 := inv.fresh nx (live_mem_zero wf L hL nx (pos_mem hp) hnx) hnn
        omega
    · rw [hupd j hlt, hupdn j hlt]
      exact inv.adj j hlt hj2
  have hmono' : ∀ j, L ≤ j → j ≤ t → ∀ i, L ≤ i → i ≤ j →
      Function.update prevs L cur j = Function.update prevs L cur i ∨
      _sl_cmp s (Function.update prevs L cur j) (Function.update prevs L cur i) < 0 := by
    intro j hj1 hj2 i hi1 hi2
    rcases Nat.eq_or_lt_of_le hi1 with rfl | hilt
    · rcases Nat.eq_or_lt_of_le hj1 with rfl | hjlt
      · exact Or.inl rfl
      · rw [hupd j hjlt]
        simp only [Function.update_same]
        exact hmono j hjlt hj2
    · rw [hupd j (by omega), hupd i hilt]
      exact inv.mono j (by omega) hj2 i hilt hi2
  by_cases hdup : L < t ∧ cur = prevs (L + 1)
  · rw [if_pos hdup]
    refine ⟨wf, inv.t_lt, inv.node_ne_head, inv.node_ne_tail, inv.node_dead, inv.live, ?_,
      hadj, hmono', inv.fresh⟩
    intro a ha hne
    rw [inv.locks a ha hne]
    constructor
    · rintro ⟨j, h1, h2, h3⟩
      exact ⟨j, by omega, h2, by rw [hupd j h1]; exact h3⟩
    · rintro ⟨j, h1, h2, h3⟩
      rcases Nat.eq_or_lt_of_le h1 with rfl | hlt
      · simp only [Function.update_same] at h3
        exact ⟨L + 1, le_rfl, by omega, by rw [← h3]; exact hdup.2.symm⟩
      · exact ⟨j, hlt, h2, by rw [hupd j hlt] at h3; exact h3⟩
  · rw [if_neg hdup]
    have hsh := storeBM_shape s cur
    have hv : ∀ a, _sl_valid_node (storeBeingModified s cur true) a = _sl_valid_node s a :=
      fun a => storeBM_valid s cur a true
    have hcmp : _sl_cmp (storeBeingModified s cur true) = _sl_cmp s := sl_cmp_congr rfl
    refine ⟨wf_transport wf rfl rfl hv (fun _ _ a _ => storeBM_loadNext s cur a _ true),
      inv.t_lt, inv.node_ne_head, inv.node_ne_tail, ?_, ?_, ?_, ?_, ?_, ?_⟩
    · unfold Live; rw [hv]; exact inv.node_dead
    · intro L' hL' x hx hne
      unfold Live; rw [hv]
      exact inv.live L' hL' x hx hne
    · intro a ha hne
      rw [storeBM_flag]
      by_cases hac : a = cur
      · subst hac
        simp only [if_true, true_iff]
        exact ⟨L, le_rfl, hLt, by simp⟩
      · simp only [hac, if_false]
        rw [inv.locks a ha hne]
        constructor
        · rintro ⟨j, h1, h2, h3⟩
          exact ⟨j, by omega, h2, by rw [hupd j h1]; exact h3⟩
        · rintro ⟨j, h1, h2, h3⟩
          rcases Nat.eq_or_lt_of_le h1 with rfl | hlt
          · simp only [Function.update_same] at h3
            exact absurd h3.symm hac
          · exact ⟨j, hlt, h2, by rw [hupd j hlt] at h3; exact h3⟩
    · intro j h1 h2
      have := hadj j h1 h2
      unfold Adj at this ⊢
      rw [hcmp]
      exact this
    · intro j h1 h2 i h3 h4
      rw [hcmp]
      exact hmono' j h1 h2 i h3 h4
    · intro x hx hne
      rw [hcmp]
      exact inv.fresh x hx hne

end Skiplist

namespace Skiplist

/-! ## The search phase of `skiplist_erase_node` -/

theorem sameButLocks_refl (s : SkiplistRaw) : SameButLocks s s :=
  ⟨rfl, rfl, rfl, fun _ => ⟨rfl, rfl, rfl, rfl⟩⟩

theorem sameButLocks_trans {s s' s'' : SkiplistRaw} (h1 : SameButLocks s s')
    (h2 : SameButLocks s' s'') : SameButLocks s s'' := by
  obtain ⟨a1, b1, c1, d1⟩ := h1
  obtain ⟨a2, b2, c2, d2⟩ := h2
  refine ⟨a2.trans a1, b2.trans b1, c2.trans c1, fun a => ?_⟩
  obtain ⟨e1, e2, e3, e4⟩ := d1 a
  obtain ⟨f1, f2, f3, f4⟩ := d2 a
  exact ⟨f1.trans e1, f2.trans e2, f3.trans e3, f4.trans e4⟩

theorem sameButLocks_storeBM (s : SkiplistRaw) (x : Nat) (v : Bool) :
    SameButLocks s (storeBeingModified s x v) :=
  ⟨rfl, rfl, rfl, fun a => storeBM_shape s x a v⟩

theorem pos_transport {s s' : SkiplistRaw} {ch : Nat → List Nat} {q L cur : Nat}
    {rest : List Nat} (hc : s'.cmpFunc = s.cmpFunc)
    (hv : ∀ a, _sl_valid_node s' a = _sl_valid_node s a) (hp : Pos s ch q L cur rest) :
    Pos s' ch q L cur rest := by
  unfold Pos Live at *
  rw [sl_cmp_congr hc, hv]
  exact hp

theorem walkInv_lower {s : SkiplistRaw} {ch : Nat → List Nat} {node t : Nat}
    {prevs nexts : Nat → Nat} {L : Nat} (inv : WalkInv s ch node t prevs nexts (L + 1))
    (h : t < L) : WalkInv s ch node t prevs nexts L := by
  refine ⟨inv.wf, inv.t_lt, inv.node_ne_head, inv.node_ne_tail, inv.node_dead, inv.live, ?_,
    ?_, ?_, inv.fresh⟩
  · intro a ha hne
    rw [inv.locks a ha hne]
    constructor
    · rintro ⟨j, h1, h2, _⟩; omega
    · rintro ⟨j, h1, h2, _⟩; omega
  · intro j h1 h2; omega
  · intro j h1 h2; omega

theorem erase_layer_ok {s : SkiplistRaw} {ch : Nat → List Nat} {node t : Nat}
    {prevs nexts : Nat → Nat} {L cur nx : Nat} {dead rest2 : List Nat}
    (inv : WalkInv s ch node t prevs nexts (L + 1)) (hLt : L ≤ t)
    (hp : Pos s ch node L cur (dead ++ nx :: rest2))
    (hd : ∀ d ∈ dead, ¬ Live s d) (hnx : Live s nx)
    (hc : ¬ 0 < _sl_cmp s node nx)
    (hmono : ∀ j, L + 1 ≤ j → j ≤ t → prevs j = cur ∨ _sl_cmp s (prevs j) cur < 0)
    {fuel : Nat} (hf : dead.length ≤ fuel) :
    ∃ s', skiplist_erase_node_layer s fuel t (Function.update prevs L cur)
        (Function.update nexts L nx) L cur = some (true, s') ∧
      WalkInv s' ch node t (Function.update prevs L cur) (Function.update nexts L nx) L ∧
      SameButLocks s s' := by
  obtain ⟨hcas, inv'⟩ := walkInv_lock inv hLt hp hd hnx hc hmono
  have hL : L < s.maxLayer := lt_of_le_of_lt hLt inv.t_lt
  obtain ⟨hcl, _⟩ := pos_cur_mem inv.wf hL hp
  have hu1 : Function.update prevs L cur (L + 1) = prevs (L + 1) :=
    Function.update_noteq (by omega) _ _
  by_cases hdup : L < t ∧ cur = prevs (L + 1)
  · rw [if_pos hdup] at inv'
    refine ⟨s, ?_, inv', sameButLocks_refl s⟩
    have hnext : _sl_next s fuel cur L = some (some nx) :=
      sl_next_skip s L dead cur nx rest2 fuel (pos_chain inv.wf hL hp) hd hnx hf
    unfold Live at hcl hnx
    have e := hdup.2
    simp [skiplist_erase_node_layer, hu1, hdup.1, ← e, _sl_valid_prev_next, hcl, hnx, hnext]
  · rw [if_neg hdup] at inv'
    have hbm := hcas hdup
    refine ⟨storeBeingModified s cur true, ?_, inv', sameButLocks_storeBM s cur true⟩
    have hv : ∀ a, _sl_valid_node (storeBeingModified s cur true) a = _sl_valid_node s a :=
      fun a => storeBM_valid s cur a true
    have hp' : Pos (storeBeingModified s cur true) ch node L cur (dead ++ nx :: rest2) :=
      pos_transport (show (storeBeingModified s cur true).cmpFunc = s.cmpFunc from rfl) hv hp
    have hnext : _sl_next (storeBeingModified s cur true) fuel cur L = some (some nx) := by
      apply sl_next_skip _ L dead cur nx rest2 fuel (pos_chain inv'.wf hL hp')
      · intro d hdd; unfold Live; rw [hv]; exact hd d hdd
      · unfold Live; rw [hv]; exact hnx
      · exact hf
    unfold Live at hcl hnx
    have hdup' : ¬ (L < t ∧ cur = prevs (L + 1)) := hdup
    simp [skiplist_erase_node_layer, hu1, hdup', _sl_valid_prev_next, hcl, hnx, hnext, hbm, hv]

end Skiplist

namespace Skiplist

variable {cap : Nat}

theorem walkInv_sameButLocks_pos {s s' : SkiplistRaw} {ch : Nat → List Nat} {q L cur : Nat}
    {rest : List Nat} (h : SameButLocks s s') (hp : Pos s ch q L cur rest) :
    Pos s' ch q L cur rest := by
  apply pos_transport h.1 _ hp
  intro a
  obtain ⟨_, _, h3, h4⟩ := h.2.2.2 a
  simp [_sl_valid_node, h3, h4]

end Skiplist

namespace Skiplist

/-! ## Effect of the store loops -/

theorem unlink_consts (prevs nexts : Nat → Nat) :
    ∀ (n : Nat) (s : SkiplistRaw) (start : Nat),
      (skiplist_erase_node_unlink prevs nexts n s start).cmpFunc = s.cmpFunc ∧
      (skiplist_erase_node_unlink prevs nexts n s start).maxLayer = s.maxLayer ∧
      (skiplist_erase_node_unlink prevs nexts n s start).fanout = s.fanout := by
  intro n
  induction n with
  | zero => intro s start; exact ⟨rfl, rfl, rfl⟩
  | succ n ih =>
    intro s start
    rw [skiplist_erase_node_unlink]
    exact ih _ _

theorem unlink_flags (prevs nexts : Nat → Nat) :
    ∀ (n : Nat) (s : SkiplistRaw) (start a : Nat),
      ((skiplist_erase_node_unlink prevs nexts n s start).mem a).beingModified =
        (s.mem a).beingModified ∧
      ((skiplist_erase_node_unlink prevs nexts n s start).mem a).topLayer =
        (s.mem a).topLayer ∧
      ((skiplist_erase_node_unlink prevs nexts n s start).mem a).isFullyLinked =
        (s.mem a).isFullyLinked ∧
      ((skiplist_erase_node_unlink prevs nexts n s start).mem a).removed =
        (s.mem a).removed ∧
      ((skiplist_erase_node_unlink prevs nexts n s start).mem a).next.length =
        (s.mem a).next.length := by
  intro n
  induction n with
  | zero => intro s start a; exact ⟨rfl, rfl, rfl, rfl, rfl⟩
  | succ n ih =>
    intro s start a
    rw [skiplist_erase_node_unlink]
    obtain ⟨h1, h2, h3, h4, h5⟩ := ih (storeNext s (prevs start) start (some (nexts start)))
      (start + 1) a
    obtain ⟨g1, g2, g3, g4, g5, _⟩ := storeNext_flags s (prevs start) start a (some (nexts start))
    exact ⟨h1.trans g1, h2.trans g2, h3.trans g3, h4.trans g4, h5.trans g5⟩

theorem unlink_loadNext (prevs nexts : Nat → Nat) :
    ∀ (n : Nat) (s : SkiplistRaw) (start a j : Nat),
      loadNext (skiplist_erase_node_unlink prevs nexts n s start) a j =
        if start ≤ j ∧ j < start + n ∧ prevs j = a ∧ j < (s.mem a).next.length
        then some (nexts j) else loadNext s a j := by
  intro n
  induction n with
  | zero =>
    intro s start a j
    rw [skiplist_erase_node_unlink]
    have : ¬ (start ≤ j ∧ j < start + 0 ∧ prevs j = a ∧ j < (s.mem a).next.length) := by
      rintro ⟨h1, h2, _⟩; omega
    rw [if_neg this]
  | succ n ih =>
    intro s start a j
    rw [skiplist_erase_node_unlink, ih, storeNext_loadNext]
    have hlen := (storeNext_flags s (prevs start) start a (some (nexts start))).2.2.2.2.1
    rw [hlen]
    by_cases hj : j = start
    · subst hj
      by_cases hp : prevs j = a
      · subst hp
        by_cases hl : j < (s.mem (prevs j)).next.length
        · have h1 : ¬ (j + 1 ≤ j ∧ j < j + 1 + n ∧ prevs j = prevs j ∧
              j < (s.mem (prevs j)).next.length) := by rintro ⟨h, _⟩; omega
          rw [if_neg h1, if_pos ⟨rfl, rfl, hl⟩, if_pos ⟨le_rfl, by omega, rfl, hl⟩]
        · have h1 : ¬ (j + 1 ≤ j ∧ j < j + 1 + n ∧ prevs j = prevs j ∧
              j < (s.mem (prevs j)).next.length) := by rintro ⟨h, _⟩; omega
          rw [if_neg h1, if_neg (fun h => hl h.2.2), if_neg (fun h => hl h.2.2.2)]
      · have h1 : ¬ (j + 1 ≤ j ∧ j < j + 1 + n ∧ prevs j = a ∧
            j < (s.mem a).next.length) := by rintro ⟨h, _⟩; omega
        have hp' : ¬ a = prevs j := fun e => hp e.symm
        rw [if_neg h1, if_neg (fun h => hp' h.1), if_neg (fun h => hp h.2.2.1)]
    · by_cases hc : start + 1 ≤ j ∧ j < start + 1 + n ∧ prevs j = a ∧
          j < (s.mem a).next.length
      · rw [if_pos hc, if_pos ⟨by omega, by omega, hc.2.2.1, hc.2.2.2⟩]
      · rw [if_neg hc, if_neg (fun h => hj h.2.1)]
        have : ¬ (start ≤ j ∧ j < start + (n + 1) ∧ prevs j = a ∧
            j < (s.mem a).next.length) := by
          rintro ⟨h1, h2, h3, h4⟩
          exact hc ⟨by omega, by omega, h3, h4⟩
        rw [if_neg this]

theorem clr_flags_loop_spec (arr : Nat → Nat) (top : Nat) :
    ∀ (n : Nat) (s : SkiplistRaw) (layer : Nat), layer + n = top + 1 →
      SameButLocks s (_sl_clr_flags_loop arr top n s layer) ∧
      ∀ a, ((∃ j, layer ≤ j ∧ j ≤ top ∧ arr j = a) →
          ((_sl_clr_flags_loop arr top n s layer).mem a).beingModified = false) ∧
        ((¬ ∃ j, layer ≤ j ∧ j ≤ top ∧ arr j = a) →
          ((_sl_clr_flags_loop arr top n s layer).mem a).beingModified =
            (s.mem a).beingModified) := by
  intro n
  induction n with
  | zero =>
    intro s layer h
    refine ⟨sameButLocks_refl s, fun a => ⟨?_, fun _ => rfl⟩⟩
    rintro ⟨j, h1, h2, _⟩; omega
  | succ n ih =>
    intro s layer h
    rw [_sl_clr_flags_loop]
    obtain ⟨hs, hb⟩ := ih (if layer = top ∨ arr layer ≠ arr (layer + 1) then
      storeBeingModified s (arr layer) false else s) (layer + 1) (by omega)
    constructor
    · refine sameButLocks_trans ?_ hs
      split_ifs
      · exact sameButLocks_storeBM s _ _
      · exact sameButLocks_refl s
    · intro a
      by_cases hex : ∃ j, layer + 1 ≤ j ∧ j ≤ top ∧ arr j = a
      · have hex' : ∃ j, layer ≤ j ∧ j ≤ top ∧ arr j = a := by
          obtain ⟨j, h1, h2, h3⟩ := hex
          exact ⟨j, by omega, h2, h3⟩
        exact ⟨fun _ => (hb a).1 hex, fun h => absurd hex' h⟩
      · have hrest := (hb a).2 hex
        by_cases hal : arr layer = a
        · refine ⟨fun _ => ?_, fun h => absurd ⟨layer, le_rfl, by omega, hal⟩ h⟩
          have hcond : layer = top ∨ arr layer ≠ arr (layer + 1) := by
            by_cases ht : layer = top
            · exact Or.inl ht
            · right
              intro e
              exact hex ⟨layer + 1, le_rfl, by omega, by rw [← e]; exact hal⟩
          rw [hrest, if_pos hcond, storeBM_flag, if_pos hal.symm]
        · have hno : ¬ ∃ j, layer ≤ j ∧ j ≤ top ∧ arr j = a := by
            rintro ⟨j, h1, h2, h3⟩
            rcases Nat.eq_or_lt_of_le h1 with e | e
            · exact hal (e ▸ h3)
            · exact hex ⟨j, e, h2, h3⟩
          refine ⟨fun h => absurd h hno, fun _ => ?_⟩
          rw [hrest]
          split_ifs
          · rw [storeBM_flag, if_neg (fun e => hal e.symm)]
          · rfl

theorem clr_flags_spec (s : SkiplistRaw) (arr : Nat → Nat) (top : Nat) :
    SameButLocks s (_sl_clr_flags s arr 0 top) ∧
    ∀ a, ((∃ j, j ≤ top ∧ arr j = a) →
        ((_sl_clr_flags s arr 0 top).mem a).beingModified = false) ∧
      ((¬ ∃ j, j ≤ top ∧ arr j = a) →
        ((_sl_clr_flags s arr 0 top).mem a).beingModified = (s.mem a).beingModified) := by
  obtain ⟨h1, h2⟩ := clr_flags_loop_spec arr top (top + 1) s 0 (by omega)
  unfold _sl_clr_flags
  rw [Nat.sub_zero]
  refine ⟨h1, fun a => ⟨fun h => (h2 a).1 ?_, fun h => (h2 a).2 ?_⟩⟩
  · obtain ⟨j, hj1, hj2⟩ := h
    exact ⟨j, Nat.zero_le _, hj1, hj2⟩
  · rintro ⟨j, _, hj1, hj2⟩
    exact h ⟨j, hj1, hj2⟩

end Skiplist

namespace Skiplist

/-! ## The unlinking phase of `skiplist_erase_node` -/

theorem storeFL_mem (s : SkiplistRaw) (x a : Nat) (v : Bool) :
    ((storeFullyLinked s x v).mem a).next = (s.mem a).next ∧
    ((storeFullyLinked s x v).mem a).topLayer = (s.mem a).topLayer ∧
    ((storeFullyLinked s x v).mem a).beingModified = (s.mem a).beingModified ∧
    ((storeFullyLinked s x v).mem a).removed = (s.mem a).removed ∧
    ((storeFullyLinked s x v).mem a).isFullyLinked =
      if a = x then v else (s.mem a).isFullyLinked := by
  unfold storeFullyLinked
  rw [setNode_mem]
  split_ifs with h
  · subst h; exact ⟨rfl, rfl, rfl, rfl, rfl⟩
  · exact ⟨rfl, rfl, rfl, rfl, rfl⟩

theorem storeRemoved_mem (s : SkiplistRaw) (x a : Nat) (v : Bool) :
    ((storeRemoved s x v).mem a).next = (s.mem a).next ∧
    ((storeRemoved s x v).mem a).topLayer = (s.mem a).topLayer ∧
    ((storeRemoved s x v).mem a).beingModified = (s.mem a).beingModified ∧
    ((storeRemoved s x v).mem a).isFullyLinked = (s.mem a).isFullyLinked ∧
    ((storeRemoved s x v).mem a).removed = if a = x then v else (s.mem a).removed := by
  unfold storeRemoved
  rw [setNode_mem]
  split_ifs with h
  · subst h; exact ⟨rfl, rfl, rfl, rfl, rfl⟩
  · exact ⟨rfl, rfl, rfl, rfl, rfl⟩

theorem loadNext_congr {s s' : SkiplistRaw} {a : Nat} (h : (s'.mem a).next = (s.mem a).next)
    (j : Nat) : loadNext s' a j = loadNext s a j := by
  unfold loadNext; rw [h]

theorem loadNext_some_lt {s : SkiplistRaw} {a j b : Nat} (h : loadNext s a j = some b) :
    j < (s.mem a).next.length := by
  by_contra hlt
  unfold loadNext at h
  rw [List.getD_eq_getElem?_getD, List.getElem?_eq_none (by omega)] at h
  simp at h

/-- Memory after the tail of `skiplist_erase_node`, field by field. -/
theorem erase_finish_mem (s : SkiplistRaw) (node t : Nat) (prevs nexts : Nat → Nat) :
    (skiplist_erase_node_finish s node t prevs nexts).cmpFunc = s.cmpFunc ∧
    (skiplist_erase_node_finish s node t prevs nexts).maxLayer = s.maxLayer ∧
    (skiplist_erase_node_finish s node t prevs nexts).fanout = s.fanout ∧
    ∀ a,
      ((skiplist_erase_node_finish s node t prevs nexts).mem a).topLayer =
        (s.mem a).topLayer ∧
      ((skiplist_erase_node_finish s node t prevs nexts).mem a).next.length =
        (s.mem a).next.length ∧
      ((skiplist_erase_node_finish s node t prevs nexts).mem a).removed =
        (s.mem a).removed ∧
      ((skiplist_erase_node_finish s node t prevs nexts).mem a).isFullyLinked =
        (if a = node then false else (s.mem a).isFullyLinked) ∧
      (∀ j, loadNext (skiplist_erase_node_finish s node t prevs nexts) a j =
        if j ≤ t ∧ prevs j = a ∧ j < (s.mem a).next.length then some (nexts j)
        else loadNext s a j) ∧
      (a = node →
        ((skiplist_erase_node_finish s node t prevs nexts).mem a).beingModified = false) ∧
      (a ≠ node → (∃ j, j ≤ t ∧ prevs j = a) →
        ((skiplist_erase_node_finish s node t prevs nexts).mem a).beingModified = false) ∧
      (a ≠ node → (¬ ∃ j, j ≤ t ∧ prevs j = a) →
        ((skiplist_erase_node_finish s node t prevs nexts).mem a).beingModified =
          (s.mem a).beingModified) := by
  unfold skiplist_erase_node_finish
  simp only
  generalize hf1 : skiplist_erase_node_unlink prevs nexts (t + 1) s 0 = f1
  generalize hf2 : storeFullyLinked f1 node false = f2
  generalize hf3 : _sl_clr_flags f2 prevs 0 t = f3
  have c1 := unlink_consts prevs nexts (t + 1) s 0
  rw [hf1] at c1
  have c3 := clr_flags_spec f2 prevs t
  rw [hf3] at c3
  obtain ⟨⟨k1, k2, k3, k4⟩, k5⟩ := c3
  have c2 : f2.cmpFunc = f1.cmpFunc ∧ f2.maxLayer = f1.maxLayer ∧ f2.fanout = f1.fanout := by
    rw [← hf2]; exact ⟨rfl, rfl, rfl⟩
  refine ⟨?_, ?_, ?_, fun a => ?_⟩
  · show f3.cmpFunc = _
    rw [k1, c2.1, c1.1]
  · show f3.maxLayer = _
    rw [k2, c2.2.1, c1.2.1]
  · show f3.fanout = _
    rw [k3, c2.2.2, c1.2.2]
  · have u := unlink_flags prevs nexts (t + 1) s 0 a
    rw [hf1] at u
    have ul := unlink_loadNext prevs nexts (t + 1) s 0 a
    rw [hf1] at ul
    have fl := storeFL_mem f1 node a false
    rw [hf2] at fl
    obtain ⟨fl1, fl2, fl3, fl4, fl5⟩ := fl
    obtain ⟨u1, u2, u3, u4, u5⟩ := u
    obtain ⟨q1, q2, q3, q4⟩ := k4 a
    obtain ⟨b1, b2, b3, b4⟩ := storeBM_shape f3 node a false
    have bf := storeBM_flag f3 node a false
    refine ⟨?_, ?_, ?_, ?_, ?_, ?_, ?_, ?_⟩
    · rw [b2, q2, fl2, u2]
    · rw [b1, q1, fl1, u5]
    · rw [b4, q4, fl4, u4]
    · rw [b3, q3, fl5, u3]
    · intro j
      rw [loadNext_congr (b1.trans (q1.trans fl1)) j, ul j]
      have : (0 ≤ j ∧ j < 0 + (t + 1) ∧ prevs j = a ∧ j < (s.mem a).next.length) ↔
          (j ≤ t ∧ prevs j = a ∧ j < (s.mem a).next.length) := by
        constructor
        · rintro ⟨_, h2, h3⟩; exact ⟨by omega, h3⟩
        · rintro ⟨h1, h3⟩; exact ⟨Nat.zero_le _, by omega, h3⟩
      simp only [this]
    · intro h
      rw [bf, if_pos h]
    · intro h hex
      rw [bf, if_neg h]
      exact (k5 a).1 hex
    · intro h hex
      rw [bf, if_neg h, (k5 a).2 hex, fl3, u1]

end Skiplist

namespace Skiplist

theorem chain_transport {R R' : Nat → Nat → Prop} {l : List Nat} (h : List.Chain' R l)
    (himp : ∀ x y, x ∈ l → y ∈ l → R x y → R' x y) : List.Chain' R' l := by
  have h' := List.Chain'.iff_mem.1 h
  exact h'.imp (fun x y ⟨hx, hy, hr⟩ => himp x y hx hy hr)

theorem sl_cmp_irrefl (s : SkiplistRaw) (a : Nat) : ¬ _sl_cmp s a a < 0 := by
  rw [sl_cmp_self]; omega

theorem sl_cmp_asymm {s : SkiplistRaw} (h : LawfulCmp s.cmpFunc) {a b : Nat}
    (h1 : _sl_cmp s a b < 0) : ¬ _sl_cmp s b a < 0 := by
  intro h2
  have := (sl_cmp_antisymm h a b).1 h1
  omega

/-- Facts read off an `Adj` decomposition of a sorted chain. -/
theorem adj_facts {s : SkiplistRaw} {ch : Nat → List Nat} (wf : WellFormed s ch)
    {node j p n : Nat} (hj : j < s.maxLayer) (hh : node ≠ headAddr) (ht : node ≠ tailAddr)
    {pre dead post : List Nat}
    (he : headAddr :: ch j ++ [tailAddr] = pre ++ p :: (dead ++ n :: post))
    (hd : ∀ d ∈ dead, d = node) (hpn : p ≠ node) (hnn : n ≠ node)
    (h1 : _sl_cmp s p node < 0) (h2 : _sl_cmp s node n < 0) :
    headAddr :: (ch j).filter (fun x => decide (x ≠ node)) ++ [tailAddr] =
        pre ++ p :: n :: post ∧
      (∀ x ∈ pre, _sl_cmp s x p < 0) ∧ (∀ x ∈ n :: post, _sl_cmp s p x < 0) ∧
      List.Chain' (Step s j) (pre ++ [p]) ∧ List.Chain' (Step s j) (n :: post) ∧
      (∃ b, loadNext s p j = some b) ∧ node ∉ pre ∧ node ∉ post := by
  have hpw := ordered_pairwise wf hj
  rw [he] at hpw
  have hch := wf.ordered j hj
  rw [he] at hch
  have hpre : ∀ x ∈ pre, _sl_cmp s x p < 0 := fun x hx =>
    (List.pairwise_append.1 hpw).2.2 x hx p (by simp)
  have hpost : ∀ x ∈ n :: post, _sl_cmp s p x < 0 := fun x hx =>
    (List.pairwise_cons.1 (List.pairwise_append.1 hpw).2.1).1 x (by
      rcases List.mem_cons.1 hx with h | h
      · simp [h]
      · simp [h])
  have hnpost : ∀ x ∈ post, _sl_cmp s n x < 0 := by
    intro x hx
    have h3 := (List.pairwise_cons.1 (List.pairwise_append.1 hpw).2.1).2
    exact (List.pairwise_cons.1 (List.pairwise_append.1 h3).2.1).1 x hx
  have hnpre : node ∉ pre := fun h => sl_cmp_asymm wf.lawful h1 (hpre node h)
  have hnpo : node ∉ post := fun h => sl_cmp_asymm wf.lawful h2 (hnpost node h)
  have c1 := (List.chain'_split.1 hch)
  have c2 : List.Chain' (Step s j) ((p :: dead) ++ n :: post) := by simpa using c1.2
  have c3 := (List.chain'_split.1 c2).2
  refine ⟨?_, hpre, hpost, c1.1, c3, ?_, hnpre, hnpo⟩
  · have e1 : (headAddr :: ch j ++ [tailAddr]).filter (fun x => decide (x ≠ node)) =
        headAddr :: (ch j).filter (fun x => decide (x ≠ node)) ++ [tailAddr] := by
      have a1 : decide (headAddr ≠ node) = true := by simpa using fun e => hh e.symm
      have a2 : decide (tailAddr ≠ node) = true := by simpa using fun e => ht e.symm
      simp only [List.cons_append, List.filter_cons, a1, if_true, List.filter_append, a2,
        List.filter_nil]
    rw [← e1, he]
    have f1 : pre.filter (fun x => decide (x ≠ node)) = pre :=
      List.filter_eq_self.2 (fun x hx => by
        have : x ≠ node := fun e => hnpre (e ▸ hx)
        simpa using this)
    have f2 : post.filter (fun x => decide (x ≠ node)) = post :=
      List.filter_eq_self.2 (fun x hx => by
        have : x ≠ node := fun e => hnpo (e ▸ hx)
        simpa using this)
    have f3 : dead.filter (fun x => decide (x ≠ node)) = [] :=
      List.filter_eq_nil_iff.2 (fun x hx => by simpa using hd x hx)
    have a3 : decide (p ≠ node) = true := by simpa using hpn
    have a4 : decide (n ≠ node) = true := by simpa using hnn
    simp only [List.filter_append, List.filter_cons, a3, a4, if_true, f1, f2, f3,
      List.nil_append]
  · have c4 := c1.2
    rcases dead with _ | ⟨d, dead⟩
    · simp only [List.nil_append, List.chain'_cons] at c4
      exact ⟨n, c4.1.1⟩
    · simp only [List.cons_append, List.chain'_cons] at c4
      exact ⟨d, c4.1.1⟩

end Skiplist

namespace Skiplist

/-- The tail of `skiplist_erase_node`, entered with every layer `0 .. t`
locked and validated, leaves a sequentially well-formed list from whose
chains `node` is gone. -/
theorem erase_finish_spec {s : SkiplistRaw} {ch : Nat → List Nat} {node t : Nat}
    {prevs nexts : Nat → Nat} (inv : WalkInv s ch node t prevs nexts 0)
    (hml : s.maxLayer ≤ 256)
    (htop : ∀ L, L < s.maxLayer → ∀ x ∈ ch L,
      L ≤ (s.mem x).topLayer ∧ (s.mem x).topLayer < s.maxLayer)
    (harr : ∀ a, (s.mem a).next = [] ∨ (s.mem a).next.length = (s.mem a).topLayer + 1)
    (hnt : (s.mem node).topLayer = t) :
    SeqWellFormed (skiplist_erase_node_finish s node t prevs nexts)
      (fun L => (ch L).filter (fun x => decide (x ≠ node))) := by
  obtain ⟨hc, hm, _, hmem⟩ := erase_finish_mem s node t prevs nexts
  generalize skiplist_erase_node_finish s node t prevs nexts = f at hc hm hmem ⊢
  have wf := inv.wf
  have hcmp : _sl_cmp f = _sl_cmp s := sl_cmp_congr hc
  have hvalid : ∀ a, a ≠ node → _sl_valid_node f a = _sl_valid_node s a := by
    intro a ha
    obtain ⟨_, _, h3, h4, _⟩ := hmem a
    unfold _sl_valid_node
    rw [h3, h4, if_neg ha]
  have hvnode : _sl_valid_node f node = false := by
    obtain ⟨_, _, _, h4, _⟩ := hmem node
    unfold _sl_valid_node
    rw [h4, if_pos rfl]
    simp
  have hload : ∀ a L, (¬ (L ≤ t ∧ prevs L = a)) → loadNext f a L = loadNext s a L := by
    intro a L h
    rw [(hmem a).2.2.2.2.1 L, if_neg (fun h' => h ⟨h'.1, h'.2.1⟩)]
  have hmemf : ∀ {L x}, x ∈ (ch L).filter (fun x => decide (x ≠ node)) →
      x ∈ ch L ∧ x ≠ node := by
    intro L x hx
    have := List.mem_filter.1 hx
    exact ⟨this.1, by simpa using this.2⟩
  have hwf : WellFormed f (fun L => (ch L).filter (fun x => decide (x ≠ node))) := by
    refine ⟨by rw [hm]; exact wf.maxLayer_pos, by rw [hc]; exact wf.lawful, ?_, ?_, ?_, ?_⟩
    · unfold Live; rw [hvalid _ (fun e => inv.node_ne_head e.symm)]; exact wf.head_live
    · unfold Live; rw [hvalid _ (fun e => inv.node_ne_tail e.symm)]; exact wf.tail_live
    · intro L hL
      rw [hm] at hL
      show List.Chain' (Step f L)
        (headAddr :: (ch L).filter (fun x => decide (x ≠ node)) ++ [tailAddr])
      by_cases hLt : L ≤ t
      · obtain ⟨pre, dead, post, he, hd, hpn, hnn, h1, h2⟩ := inv.adj L (Nat.zero_le _) hLt
        obtain ⟨e, hpre, hpost, c1, c2, ⟨b, hb⟩, _, _⟩ :=
          adj_facts wf hL inv.node_ne_head inv.node_ne_tail he hd hpn hnn h1 h2
        rw [e]
        apply List.chain'_split.2
        constructor
        · apply chain_transport c1
          rintro x y hx hy ⟨hxy, hlt⟩
          have hxp : x ≠ prevs L := by
            rintro rfl
            rcases List.mem_append.1 hy with h | h
            · exact sl_cmp_asymm wf.lawful hlt (hpre y h)
            · simp only [List.mem_singleton] at h
              rw [h] at hlt
              exact sl_cmp_irrefl s _ hlt
          refine ⟨?_, by rw [hcmp]; exact hlt⟩
          rw [hload x L (fun h => hxp h.2.symm)]
          exact hxy
        · apply List.chain'_cons.2
          constructor
          · constructor
            · rw [(hmem (prevs L)).2.2.2.2.1 L, if_pos ⟨hLt, rfl, loadNext_some_lt hb⟩]
            · rw [hcmp]
              exact sl_cmp_lt_trans wf.lawful h1 h2
          · apply chain_transport c2
            rintro x y hx _ ⟨hxy, hlt⟩
            have hxp : x ≠ prevs L := by
              rintro rfl
              exact sl_cmp_irrefl s _ (hpost _ hx)
            refine ⟨?_, by rw [hcmp]; exact hlt⟩
            rw [hload x L (fun h => hxp h.2.symm)]
            exact hxy
      · have hnot : node ∉ ch L := by
          intro h
          have := (htop L hL node h).1
          omega
        have : (ch L).filter (fun x => decide (x ≠ node)) = ch L :=
          List.filter_eq_self.2 (fun x hx => by
            have : x ≠ node := fun e => hnot (e ▸ hx)
            simpa using this)
        rw [this]
        apply chain_transport (wf.ordered L hL)
        rintro x y _ _ ⟨hxy, hlt⟩
        refine ⟨?_, by rw [hcmp]; exact hlt⟩
        rw [hload x L (fun h => hLt h.1)]
        exact hxy
    · intro L hL x hx hl
      rw [hm] at hL
      obtain ⟨hx1, hx2⟩ := hmemf hx
      unfold Live at hl
      rw [hvalid x hx2] at hl
      have := wf.contained L hL x hx1 hl
      exact List.mem_filter.2 ⟨this, by simpa using hx2⟩
  refine ⟨hwf, by rw [hm]; exact hml, ?_, ?_, ?_, ?_⟩
  · intro L hL x hx
    rw [hm] at hL
    obtain ⟨hx1, hx2⟩ := hmemf hx
    unfold Live
    rw [hvalid x hx2]
    exact inv.live L hL x hx1 hx2
  · intro L hL x hx
    rw [hm] at hL ⊢
    obtain ⟨hx1, _⟩ := hmemf hx
    rw [(hmem x).1]
    exact htop L hL x hx1
  · intro a
    obtain ⟨h1, h2, _⟩ := hmem a
    rcases harr a with h | h
    · left
      apply List.length_eq_zero.1
      rw [h2, h]
      rfl
    · right
      rw [h1, h2, h]
  · intro x hx
    have hx' : x ∈ headAddr :: ch 0 ∧ x ≠ node := by
      rcases List.mem_cons.1 hx with h | h
      · exact ⟨by simp [h], by rw [h]; exact fun e => inv.node_ne_head e.symm⟩
      · obtain ⟨h1, h2⟩ := hmemf h
        exact ⟨List.mem_cons_of_mem _ h1, h2⟩
    obtain ⟨_, _, _, _, _, _, hb1, hb2⟩ := hmem x
    by_cases hex : ∃ j, j ≤ t ∧ prevs j = x
    · exact hb1 hx'.2 hex
    · rw [hb2 hx'.2 hex]
      have hl := inv.locks x hx'.1 hx'.2
      by_contra hne
      have : (s.mem x).beingModified = true := by simpa using hne
      obtain ⟨j, _, h2, h3⟩ := hl.1 this
      exact hex ⟨j, h2, h3⟩

end Skiplist

namespace Skiplist

/-! ## `skiplist_erase_node` on a sequentially well-formed list -/

theorem wf_weaken {s s' : SkiplistRaw} {ch : Nat → List Nat} (wf : WellFormed s ch)
    (hc : s'.cmpFunc = s.cmpFunc) (hm : s'.maxLayer = s.maxLayer)
    (hv : ∀ a, Live s' a → Live s a) (hh : Live s' headAddr) (ht : Live s' tailAddr)
    (hn : ∀ a L, loadNext s' a L = loadNext s a L) :
    WellFormed s' ch := by
  have hcmp := sl_cmp_congr hc
  refine ⟨by rw [hm]; exact wf.maxLayer_pos, by rw [hc]; exact wf.lawful, hh, ht, ?_, ?_⟩
  · intro L hL
    rw [hm] at hL
    refine (wf.ordered L hL).imp ?_
    rintro a b ⟨h1, h2⟩
    exact ⟨by rw [hn]; exact h1, by rw [hcmp]; exact h2⟩
  · intro L hL x hx hl
    rw [hm] at hL
    exact wf.contained L hL x hx (hv x hl)

theorem pairwise_ne_cases {R : Nat → Nat → Prop} {l : List Nat} (h : List.Pairwise R l)
    {a b : Nat} (ha : a ∈ l) (hb : b ∈ l) (hne : a ≠ b) : R a b ∨ R b a := by
  have h' : List.Pairwise (fun x y => R x y ∨ R y x) l := h.imp (fun hxy => Or.inl hxy)
  exact h'.forall (fun _ _ hxy => hxy.symm) ha hb hne

theorem seq_node_ne {s : SkiplistRaw} {ch : Nat → List Nat} (swf : SeqWellFormed s ch)
    {node : Nat} (hn : node ∈ ch 0) : node ≠ headAddr ∧ node ≠ tailAddr := by
  have hM : 0 < s.maxLayer := swf.wf.maxLayer_pos
  constructor
  · rintro rfl
    exact head_not_mem swf.wf hM (List.mem_append_left _ hn)
  · rintro rfl
    exact tail_not_mem swf.wf hM hn

/-- The state in which `skiplist_erase_node` starts its search: the node
holds its own lock and carries the tombstone. -/
theorem erase_start_inv {s : SkiplistRaw} {ch : Nat → List Nat} (swf : SeqWellFormed s ch)
    {node : Nat} (hn : node ∈ ch 0) :
    WalkInv (storeRemoved (storeBeingModified s node true) node true) ch node
      (s.mem node).topLayer (fun _ => 0) (fun _ => 0) (s.maxLayer - 1 + 1) := by
  have wf := swf.wf
  have hM : 0 < s.maxLayer := wf.maxLayer_pos
  obtain ⟨hnh, hnt⟩ := seq_node_ne swf hn
  have htl := (swf.top 0 hM node hn).2
  generalize hs2 : storeRemoved (storeBeingModified s node true) node true = s2
  have hmem : ∀ a, (s2.mem a).next = (s.mem a).next ∧
      (s2.mem a).isFullyLinked = (s.mem a).isFullyLinked ∧
      (s2.mem a).removed = (if a = node then true else (s.mem a).removed) ∧
      (a ≠ node → (s2.mem a).beingModified = (s.mem a).beingModified) := by
    intro a
    obtain ⟨r1, _, r3, r4, r5⟩ := storeRemoved_mem (storeBeingModified s node true) node a true
    obtain ⟨b1, _, b3, b4⟩ := storeBM_shape s node a true
    have bf := storeBM_flag s node a true
    rw [hs2] at r1 r3 r4 r5
    refine ⟨r1.trans b1, r4.trans b3, ?_, ?_⟩
    · rw [r5, b4]
    · intro h
      rw [r3, bf, if_neg h]
  have hc : s2.cmpFunc = s.cmpFunc := by rw [← hs2]; rfl
  have hm : s2.maxLayer = s.maxLayer := by rw [← hs2]; rfl
  have hcmp := sl_cmp_congr hc
  have hvalid : ∀ a, a ≠ node → _sl_valid_node s2 a = _sl_valid_node s a := by
    intro a ha
    obtain ⟨_, h2, h3, _⟩ := hmem a
    unfold _sl_valid_node
    rw [h2, h3, if_neg ha]
  have hdead : ¬ Live s2 node := by
    unfold Live _sl_valid_node
    rw [(hmem node).2.2.1, if_pos rfl]
    simp
  have hv : ∀ a, Live s2 a → Live s a := by
    intro a hl
    by_cases h : a = node
    · subst h; exact absurd hl hdead
    · unfold Live at hl ⊢
      rw [← hvalid a h]; exact hl
  have hwf2 : WellFormed s2 ch := by
    refine wf_weaken wf hc hm hv ?_ ?_ (fun a L => loadNext_congr (hmem a).1 L)
    · unfold Live; rw [hvalid _ (fun e => hnh e.symm)]; exact wf.head_live
    · unfold Live; rw [hvalid _ (fun e => hnt e.symm)]; exact wf.tail_live
  have hk : s.maxLayer - 1 + 1 = s.maxLayer := by omega
  rw [hk]
  refine ⟨hwf2, by rw [hm]; exact htl, hnh, hnt, hdead, ?_, ?_, ?_, ?_, ?_⟩
  · intro L hL x hx hne
    unfold Live; rw [hvalid x hne]
    exact swf.live L (hm ▸ hL) x hx
  · intro a ha hne
    rw [(hmem a).2.2.2 hne, swf.unlocked a ha]
    constructor
    · intro h; cases h
    · rintro ⟨j, h1, h2, _⟩; omega
  · intro j h1 h2; omega
  · intro j h1 h2; omega
  · intro x hx hne
    rw [hcmp]
    have hpw := ordered_pairwise wf hM
    simp only [List.cons_append] at hpw
    have hpw' := (List.pairwise_cons.1 hpw).2
    rcases pairwise_ne_cases hpw' (List.mem_append_left _ hn) hx (fun e => hne e.symm)
      with h | h
    · omega
    · have := (sl_cmp_antisymm wf.lawful x node).1 h
      omega

end Skiplist

namespace Skiplist

variable {cap : Nat}

end Skiplist

namespace Skiplist

/-! ## `skiplist_insert`: sampling and node initialisation -/

theorem decide_top_layer_loop_lt (s : SkiplistRaw) (rand : Nat → Nat) :
    ∀ (n layer used : Nat), layer + 1 ≤ s.maxLayer →
      (_sl_decide_top_layer_loop s rand n layer used).1 + 1 ≤ s.maxLayer := by
  intro n
  induction n with
  | zero => intro layer used h; simpa [_sl_decide_top_layer_loop] using h
  | succ n ih =>
    intro layer used h
    rw [_sl_decide_top_layer_loop]
    split_ifs with h1 h2
    · exact ih _ _ (by omega)
    · exact h
    · exact h

theorem decide_top_layer_lt (s : SkiplistRaw) (rand : Nat → Nat) (h : 1 ≤ s.maxLayer) :
    (_sl_decide_top_layer s rand).1 < s.maxLayer := by
  have := decide_top_layer_loop_lt s rand s.maxLayer 0 0 (by omega)
  unfold _sl_decide_top_layer
  omega

theorem node_init_spec (s : SkiplistRaw) (node t : Nat) (ht : t ≤ 255)
    (harr : (s.mem node).next = [] ∨ (s.mem node).next.length = (s.mem node).topLayer + 1) :
    (_sl_node_init s node t).cmpFunc = s.cmpFunc ∧
    (_sl_node_init s node t).maxLayer = s.maxLayer ∧
    (_sl_node_init s node t).fanout = s.fanout ∧
    (∀ a, a ≠ node → (_sl_node_init s node t).mem a = s.mem a) ∧
    ((_sl_node_init s node t).mem node).isFullyLinked = false ∧
    ((_sl_node_init s node t).mem node).beingModified = false ∧
    ((_sl_node_init s node t).mem node).removed = false ∧
    ((_sl_node_init s node t).mem node).topLayer = t ∧
    ((_sl_node_init s node t).mem node).next.length = t + 1 := by
  have h255 : ¬ t > 255 := by omega
  unfold _sl_node_init
  simp only [h255, if_false]
  refine ⟨rfl, rfl, rfl, ?_, ?_⟩
  · intro a ha
    rw [setNode_mem, if_neg ha]
  · rw [setNode_mem, if_pos rfl]
    split_ifs with h
    · simp
    · simp only [ne_eq, not_or, not_not] at h
      obtain ⟨h1, h2⟩ := h
      rcases harr with h3 | h3
      · exact absurd h3 h2
      · refine ⟨rfl, rfl, rfl, h1, ?_⟩
        simp only at h1 ⊢
        rw [h3, h1]

theorem node_init_gen (s : SkiplistRaw) (node t : Nat)
    (harr : (s.mem node).next = [] ∨ (s.mem node).next.length = (s.mem node).topLayer + 1) :
    (_sl_node_init s node t).cmpFunc = s.cmpFunc ∧
    (_sl_node_init s node t).maxLayer = s.maxLayer ∧
    (_sl_node_init s node t).fanout = s.fanout ∧
    (∀ a, a ≠ node → (_sl_node_init s node t).mem a = s.mem a) ∧
    ((_sl_node_init s node t).mem node).isFullyLinked = false ∧
    ((_sl_node_init s node t).mem node).beingModified = false ∧
    ((_sl_node_init s node t).mem node).removed = false ∧
    ((_sl_node_init s node t).mem node).topLayer = min t 255 ∧
    ((_sl_node_init s node t).mem node).next.length = min t 255 + 1 := by
  by_cases ht : t ≤ 255
  · rw [Nat.min_eq_left ht]
    exact node_init_spec s node t ht harr
  · have h255 : t > 255 := by omega
    have hmin : min t 255 = 255 := Nat.min_eq_right (by omega)
    have hsame : _sl_node_init s node t = _sl_node_init s node 255 := by
      unfold _sl_node_init
      have h' : ¬ ((255 : Nat) > 255) := by omega
      simp only [h255, h', if_true, if_false]
    rw [hmin, hsame]
    exact node_init_spec s node 255 (le_refl _) harr

end Skiplist

namespace Skiplist

/-! ## The search phase of `skiplist_insert` -/

end Skiplist

namespace Skiplist

variable {cap : Nat}

end Skiplist

namespace Skiplist

/-! ## The linking phase of `skiplist_insert` -/

end Skiplist

namespace Skiplist

end Skiplist

namespace Skiplist

variable {cap : Nat}

/-! ## `skiplist_insert` on a sequentially well-formed list -/

end Skiplist

namespace Skiplist

/-! ## `skiplist_init` -/

theorem init_loop_spec :
    ∀ (n : Nat) (s : SkiplistRaw) (start : Nat),
      (skiplist_init_loop n s start).cmpFunc = s.cmpFunc ∧
      (skiplist_init_loop n s start).maxLayer = s.maxLayer ∧
      (skiplist_init_loop n s start).fanout = s.fanout ∧
      (∀ a, ((skiplist_init_loop n s start).mem a).beingModified = (s.mem a).beingModified ∧
        ((skiplist_init_loop n s start).mem a).topLayer = (s.mem a).topLayer ∧
        ((skiplist_init_loop n s start).mem a).isFullyLinked = (s.mem a).isFullyLinked ∧
        ((skiplist_init_loop n s start).mem a).removed = (s.mem a).removed ∧
        ((skiplist_init_loop n s start).mem a).next.length = (s.mem a).next.length ∧
        (a ≠ headAddr → a ≠ tailAddr → (skiplist_init_loop n s start).mem a = s.mem a)) ∧
      (∀ j, start ≤ j → j < start + n → j < (s.mem headAddr).next.length →
        loadNext (skiplist_init_loop n s start) headAddr j = some tailAddr) ∧
      (∀ j, j < start → loadNext (skiplist_init_loop n s start) headAddr j =
        loadNext s headAddr j) := by
  intro n
  induction n with
  | zero =>
    intro s start
    refine ⟨rfl, rfl, rfl, fun a => ⟨rfl, rfl, rfl, rfl, rfl, fun _ _ => rfl⟩, ?_, fun _ _ => rfl⟩
    intro j h1 h2; omega
  | succ n ih =>
    intro s start
    rw [skiplist_init_loop]
    generalize hs1 : storeNext s headAddr start (some tailAddr) = s1
    generalize hs2 : storeNext s1 tailAddr start none = s2
    obtain ⟨i1, i2, i3, i4, i5, i6⟩ := ih s2 (start + 1)
    have c1 : s1.cmpFunc = s.cmpFunc ∧ s1.maxLayer = s.maxLayer ∧ s1.fanout = s.fanout := by
      rw [← hs1]; exact ⟨rfl, rfl, rfl⟩
    have c2 : s2.cmpFunc = s1.cmpFunc ∧ s2.maxLayer = s1.maxLayer ∧ s2.fanout = s1.fanout := by
      rw [← hs2]; exact ⟨rfl, rfl, rfl⟩
    have f1 := fun a => storeNext_flags s headAddr start a (some tailAddr)
    have f2 := fun a => storeNext_flags s1 tailAddr start a none
    rw [hs1] at f1
    rw [hs2] at f2
    have l1 := fun a j => storeNext_loadNext s headAddr start a j (some tailAddr)
    have l2 := fun a j => storeNext_loadNext s1 tailAddr start a j none
    rw [hs1] at l1
    rw [hs2] at l2
    have hht : ¬ (headAddr = tailAddr) := by simp [headAddr, tailAddr]
    refine ⟨i1.trans (c2.1.trans c1.1), i2.trans (c2.2.1.trans c1.2.1),
      i3.trans (c2.2.2.trans c1.2.2), fun a => ?_, ?_, ?_⟩
    · obtain ⟨a1, a2, a3, a4, a5, a6⟩ := i4 a
      obtain ⟨b1, b2, b3, b4, b5, _⟩ := f1 a
      obtain ⟨d1, d2, d3, d4, d5, _⟩ := f2 a
      refine ⟨a1.trans (d1.trans b1), a2.trans (d2.trans b2), a3.trans (d3.trans b3),
        a4.trans (d4.trans b4), a5.trans (d5.trans b5), fun h1 h2 => ?_⟩
      rw [a6 h1 h2, ← hs2, ← hs1]
      unfold storeNext
      rw [setNode_mem, if_neg h2, setNode_mem, if_neg h1]
    · intro j h1 h2 h3
      have hlen : (s2.mem headAddr).next.length = (s.mem headAddr).next.length :=
        ((f2 headAddr).2.2.2.2.1).trans ((f1 headAddr).2.2.2.2.1)
      rcases Nat.eq_or_lt_of_le h1 with h | h
      · subst h
        rw [i6 start (by omega), l2, if_neg (fun h => hht h.1), l1, if_pos ⟨rfl, rfl, h3⟩]
      · exact i5 j (by omega) (by omega) (by rw [hlen]; exact h3)
    · intro j hj
      rw [i6 j (by omega), l2, if_neg (fun h => hht h.1), l1,
        if_neg (fun h => by have := h.2.1; omega)]

/-- What `skiplist_init` does whatever `maxLayer` is: the configuration is
kept, the head gets `min maxLayer 255 + 1` slots and memory off the sentinels
is untouched. -/
theorem init_frame (s : SkiplistRaw) (cmp_func : Nat → Nat → Int)
    (harr : ∀ a, (s.mem a).next = [] ∨ (s.mem a).next.length = (s.mem a).topLayer + 1) :
    (skiplist_init s cmp_func).maxLayer = s.maxLayer ∧
    (skiplist_init s cmp_func).fanout = s.fanout ∧
    ((skiplist_init s cmp_func).mem headAddr).next.length = min s.maxLayer 255 + 1 ∧
    ∀ a, a ≠ headAddr → a ≠ tailAddr → (skiplist_init s cmp_func).mem a = s.mem a := by
  have hht : headAddr ≠ tailAddr := by simp [headAddr, tailAddr]
  obtain ⟨_, hm1, hf1, hoff1, _, _, _, _, a5⟩ :=
    node_init_gen s headAddr s.maxLayer (harr headAddr)
  generalize hs1 : _sl_node_init s headAddr s.maxLayer = s1 at hm1 hf1 hoff1 a5
  have harr1 : (s1.mem tailAddr).next = [] ∨
      (s1.mem tailAddr).next.length = (s1.mem tailAddr).topLayer + 1 := by
    rw [hoff1 tailAddr (fun e => hht e.symm)]; exact harr tailAddr
  obtain ⟨_, hm2, hf2, hoff2, _⟩ := node_init_gen s1 tailAddr s.maxLayer harr1
  generalize hs2 : _sl_node_init s1 tailAddr s.maxLayer = s2 at hm2 hf2 hoff2
  obtain ⟨_, hm3, hf3, hfl3, _, _⟩ := init_loop_spec s.maxLayer s2 0
  generalize hs3 : skiplist_init_loop s.maxLayer s2 0 = s3 at hm3 hf3 hfl3
  have hunf : skiplist_init s cmp_func =
      { storeFullyLinked (storeFullyLinked s3 headAddr true) tailAddr true with
        cmpFunc := cmp_func } := by
    unfold skiplist_init
    simp only
    have e1 : (_sl_node_init s headAddr s.maxLayer).maxLayer = s.maxLayer := by rw [hs1, hm1]
    have e2 : (_sl_node_init (_sl_node_init s headAddr s.maxLayer) tailAddr
        (_sl_node_init s headAddr s.maxLayer).maxLayer).maxLayer = s.maxLayer := by
      rw [e1, hs1, hs2, hm2, hm1]
    rw [e2, e1, hs1, hs2, hs3]
  rw [hunf]
  generalize hs4 : storeFullyLinked s3 headAddr true = s4
  generalize hs5 : storeFullyLinked s4 tailAddr true = s5
  have g4 := fun a => storeFL_mem s3 headAddr a true
  rw [hs4] at g4
  have g5 := fun a => storeFL_mem s4 tailAddr a true
  rw [hs5] at g5
  refine ⟨?_, ?_, ?_, ?_⟩
  · rw [← hs5, ← hs4]
    show s3.maxLayer = _
    rw [hm3, hm2, hm1]
  · rw [← hs5, ← hs4]
    show s3.fanout = _
    rw [hf3, hf2, hf1]
  · show (s5.mem headAddr).next.length = _
    rw [(g5 headAddr).1, (g4 headAddr).1, (hfl3 headAddr).2.2.2.2.1, hoff2 headAddr hht, a5]
  · intro a hah hat
    show s5.mem a = s.mem a
    rw [← hs5, ← hs4]
    unfold storeFullyLinked
    rw [setNode_mem, if_neg hat, setNode_mem, if_neg hah, (hfl3 a).2.2.2.2.2 hah hat,
      hoff2 a hat, hoff1 a hah]

end Skiplist

namespace Skiplist

/-! ## The running example is well-formed -/

theorem exCmp_lawful : LawfulCmp exCmp := by
  constructor
  · intro a b; unfold exCmp; omega
  · intro a b c; unfold exCmp; omega

theorem exState_seq : SeqWellFormed exState exChains := by
  refine ⟨⟨by decide, exCmp_lawful, rfl, rfl, ?_, ?_⟩, by decide, ?_, ?_, ?_, ?_⟩
  · intro L hL
    have hL' : L < 2 := hL
    interval_cases L
    · simp [exChains, Step, loadNext, exState, _sl_cmp, headAddr, tailAddr, exCmp]
    · simp [exChains, Step, loadNext, exState, _sl_cmp, headAddr, tailAddr, exCmp]
  · intro L hL x hx _
    have hL' : L + 1 < 2 := hL
    have : L = 0 := by omega
    subst this
    simp [exChains] at hx ⊢
    exact Or.inr hx
  · intro L hL x hx
    have hL' : L < 2 := hL
    interval_cases L
    · simp [exChains] at hx
      rcases hx with rfl | rfl <;> rfl
    · simp [exChains] at hx
      subst hx; rfl
  · intro L hL x hx
    have hL' : L < 2 := hL
    interval_cases L
    · simp [exChains] at hx
      rcases hx with rfl | rfl <;> simp [exState]
    · simp [exChains] at hx
      subst hx; simp [exState]
  · intro a
    unfold exState
    simp only
    split_ifs <;> simp
  · intro x hx
    simp [exChains, headAddr] at hx
    rcases hx with rfl | rfl | rfl <;> rfl

theorem exState_wf : WellFormed exState exChains := exState_seq.wf

theorem exBlank_ok : ∀ a, NodeOK (exBlank.mem a) := fun _ => Or.inl rfl

end Skiplist

namespace Skiplist

/-! ## Lookup claims -/

theorem filter_head_split {p : Nat → Bool} :
    ∀ (l : List Nat) (m : Nat), (l.filter p).head? = some m →
      ∃ d r, l = d ++ m :: r ∧ d.filter p = [] ∧ p m = true := by
  intro l
  induction l with
  | nil => intro m h; simp at h
  | cons x l ih =>
    intro m h
    by_cases hx : p x = true
    · rw [List.filter_cons_of_pos hx] at h
      simp only [List.head?_cons, Option.some.injEq] at h
      subst h
      exact ⟨[], l, rfl, rfl, hx⟩
    · rw [List.filter_cons_of_neg hx] at h
      obtain ⟨d, r, hl, hd, hm⟩ := ih m h
      refine ⟨x :: d, r, by rw [hl]; rfl, ?_, hm⟩
      rw [List.filter_cons_of_neg hx]
      exact hd

theorem filter_last_split {p : Nat → Bool} (l : List Nat) (m : Nat)
    (h : (l.filter p).getLast? = some m) :
    ∃ r d, l = r ++ m :: d ∧ d.filter p = [] ∧ p m = true := by
  have h' : (l.reverse.filter p).head? = some m := by
    rw [List.filter_reverse, List.head?_reverse]
    exact h
  obtain ⟨d, r, hl, hd, hm⟩ := filter_head_split l.reverse m h'
  refine ⟨r.reverse, d.reverse, ?_, ?_, hm⟩
  · have := congrArg List.reverse hl
    simpa using this
  · rw [List.filter_reverse, hd]
    rfl

/-- What `skiplist_next` returns on a node of the bottom chain (head
included): the first live node after it, if any. -/
theorem skiplist_next_on_chain {s : SkiplistRaw} {ch : Nat → List Nat} (wf : WellFormed s ch)
    {a b : List Nat} {n fuel : Nat} (hch : headAddr :: ch 0 = a ++ n :: b)
    (hf : b.length ≤ fuel) :
    skiplist_next s fuel n = some (liveNodes s b).head? := by
  have hM : 0 < s.maxLayer := wf.maxLayer_pos
  have hc : List.Chain' (Step s 0) (a ++ n :: (b ++ [tailAddr])) := by
    have := wf.ordered 0 hM
    have e : headAddr :: ch 0 ++ [tailAddr] = a ++ n :: (b ++ [tailAddr]) := by
      have : headAddr :: ch 0 ++ [tailAddr] = (headAddr :: ch 0) ++ [tailAddr] := rfl
      rw [this, hch]; simp
    rwa [e] at this
  have h := next_from_chain s 0 wf.tail_live b n fuel hc.right_of_append hf
  unfold skiplist_next
  rw [h]
  have hbt : tailAddr ∉ b := by
    intro hb
    have : tailAddr ∈ headAddr :: ch 0 := by rw [hch]; simp [hb]
    rcases List.mem_cons.1 this with h | h
    · simp [headAddr, tailAddr] at h
    · exact tail_not_mem wf hM h
  rcases hlv : liveNodes s b with _ | ⟨m, v⟩
  · simp
  · have : m ∈ liveNodes s b := by rw [hlv]; simp
    have hm := (mem_liveNodes.1 this).1
    have : m ≠ tailAddr := fun e => hbt (e ▸ hm)
    simp [this]

/-- What `skiplist_prev` returns on a node of the bottom chain (tail
included): the last live node before it, if any. -/
theorem skiplist_prev_on_chain {s : SkiplistRaw} {ch : Nat → List Nat} (wf : WellFormed s ch)
    {a b : List Nat} {q fuel : Nat} (hch : ch 0 ++ [tailAddr] = a ++ q :: b)
    (hf : searchFuel s ch ≤ fuel) :
    skiplist_prev s fuel q = some (liveNodes s a).getLast? := by
  unfold skiplist_prev
  rw [find_smaller_spec wf hch hf]
  rcases hlv : (liveNodes s a).getLast? with _ | m
  · simp
  · have hm : m ∈ liveNodes s a := List.mem_of_getLast?_eq_some hlv
    have hma := (mem_liveNodes.1 hm).1
    have hne : m ≠ headAddr := by
      rintro rfl
      exact head_not_mem wf wf.maxLayer_pos (by rw [hch]; simp [hma])
    simp [hne]

/-- Exactness of `skiplist_find` on a well-formed list. -/
theorem find_spec {s : SkiplistRaw} {ch : Nat → List Nat} (wf : WellFormed s ch)
    (query : Nat) {fuel : Nat} (hf : searchFuel s ch ≤ fuel) :
    (∀ n ∈ ch 0 ++ [tailAddr], Live s n → _sl_cmp s query n = 0 →
      skiplist_find s fuel query = some (some n)) ∧
    ((∀ n ∈ ch 0 ++ [tailAddr], Live s n → _sl_cmp s query n ≠ 0) →
      skiplist_find s fuel query = some none) := by
  have hM : 0 < s.maxLayer := wf.maxLayer_pos
  obtain ⟨r, hres, hsome, hnone⟩ := find_walk_spec wf query fuel (s.maxLayer - 1) headAddr _
    (by omega) (pos_head s ch query _) (le_trans (searchFuel_ge wf.maxLayer_pos) hf)
  have hfind : skiplist_find s fuel query = some r := by
    unfold skiplist_find
    rw [if_neg (by omega), hres]
  rw [hfind]
  constructor
  · intro n hn hl hq
    rcases r with _ | m
    · exact absurd hq (hnone rfl n hn hl)
    · obtain ⟨hlm, hmm, hqm⟩ := hsome m rfl
      by_cases hmn : m = n
      · rw [hmn]
      · exfalso
        have hpw := ordered_pairwise wf hM
        simp only [List.cons_append] at hpw
        have hpw' := (List.pairwise_cons.1 hpw).2
        have h1 := sl_cmp_eq_symm wf.lawful hqm
        rcases pairwise_ne_cases hpw' hmm hn hmn with h | h
        · have h3 := sl_cmp_lt_of_lt_of_le wf.lawful h
            (le_of_eq (sl_cmp_eq_symm wf.lawful hq))
          have h4 := sl_cmp_lt_of_lt_of_le wf.lawful h3 (le_of_eq hqm)
          exact sl_cmp_irrefl s m h4
        · have h3 := sl_cmp_lt_of_lt_of_le wf.lawful h (le_of_eq h1)
          have h4 := sl_cmp_lt_of_lt_of_le wf.lawful h3 (le_of_eq hq)
          exact sl_cmp_irrefl s n h4
  · intro hall
    rcases r with _ | m
    · rfl
    · obtain ⟨hlm, hmm, hqm⟩ := hsome m rfl
      exact absurd hqm (hall m hmm hlm)

/-- C2: on a well-formed list `skiplist_find` returns the live node linked
at layer 0 (the tail sentinel counts as one, equal only to itself) that
compares equal to the query, and returns null when no such node compares
equal to the query. -/
theorem skiplist_find_exact (s : SkiplistRaw) (ch : Nat → List Nat) (wf : WellFormed s ch)
    (query fuel : Nat) (hf : searchFuel s ch ≤ fuel) :
    (∀ n ∈ ch 0 ++ [tailAddr], Live s n → _sl_cmp s query n = 0 →
      skiplist_find s fuel query = some (some n)) ∧
    ((∀ n ∈ ch 0 ++ [tailAddr], Live s n → _sl_cmp s query n ≠ 0) →
      skiplist_find s fuel query = some none) :=
  find_spec wf query hf

/-- Witness for C2 on the example list: the theorem applies, and `find(20)`
is node 20. -/
theorem skiplist_find_exact_witness :
    WellFormed exState exChains ∧ searchFuel exState exChains ≤ 20 ∧
    skiplist_find exState 20 20 = some (some 20) :=
  ⟨exState_wf, by decide,
    (skiplist_find_exact exState exChains exState_wf 20 20 (by decide)).1 20
      (by simp [exChains]) rfl rfl⟩

end Skiplist

namespace Skiplist

/-- C3: on a well-formed list `skiplist_find_smaller` returns the strict
predecessor of the query: the greatest live node comparing strictly less than
the query (never a node equal to it), and the head sentinel exactly when the
query is smaller than or equal to every live node. -/
theorem skiplist_find_smaller_pred (s : SkiplistRaw) (ch : Nat → List Nat)
    (wf : WellFormed s ch) (query fuel : Nat) (hf : searchFuel s ch ≤ fuel) :
    ∃ p, skiplist_find_smaller s fuel query = some (some p) ∧
      (p = headAddr ∨ (p ∈ ch 0 ∧ Live s p ∧ _sl_cmp s p query < 0)) ∧
      (∀ n ∈ ch 0, Live s n → _sl_cmp s n query < 0 → n = p ∨ _sl_cmp s n p < 0) ∧
      (p = headAddr ↔ ∀ n ∈ ch 0, Live s n → _sl_cmp s query n ≤ 0) := by
  have hM : 0 < s.maxLayer := wf.maxLayer_pos
  obtain ⟨p, hres, hp, hgreat⟩ := find_smaller_walk_spec wf query fuel (s.maxLayer - 1)
    headAddr _ (by omega) (pos_head s ch query _)
    (le_trans (searchFuel_ge wf.maxLayer_pos) hf)
  have hfind : skiplist_find_smaller s fuel query = some (some p) := by
    unfold skiplist_find_smaller
    rw [if_neg (by omega), hres]
  have hbelow : ∀ n ∈ ch 0, Live s n → 0 < _sl_cmp s query n →
      p ≠ headAddr ∧ (n = p ∨ _sl_cmp s n p < 0) := by
    intro n hn hl hq
    obtain ⟨_, _, hor⟩ := hgreat n (List.mem_append_left _ hn) hl hq
    refine ⟨?_, hor⟩
    rintro rfl
    rcases hor with h | h
    · exact head_not_mem wf hM (List.mem_append_left _ (h ▸ hn))
    · have := sl_cmp_head_ge s n
      omega
  refine ⟨p, hfind, ?_, ?_, ?_⟩
  · rcases hp with h | ⟨hl, hm, hq⟩
    · exact Or.inl h
    · exact Or.inr ⟨hm, hl, (sl_cmp_antisymm wf.lawful p query).2 hq⟩
  · intro n hn hl hlt
    exact (hbelow n hn hl ((sl_cmp_antisymm wf.lawful n query).1 hlt)).2
  · constructor
    · intro hph n hn hl
      by_contra hc
      exact (hbelow n hn hl (by omega)).1 hph
    · intro hall
      rcases hp with h | ⟨hl, hm, hq⟩
      · exact h
      · have := hall p hm hl
        omega

/-- Witness for C3 on the example list: `find_smaller(15)` is node 10. -/
theorem skiplist_find_smaller_pred_witness :
    WellFormed exState exChains ∧ searchFuel exState exChains ≤ 20 ∧
    ∃ p, skiplist_find_smaller exState 20 15 = some (some p) ∧
      (p = headAddr ∨ (p ∈ exChains 0 ∧ Live exState p ∧ _sl_cmp exState p 15 < 0)) ∧
      (∀ n ∈ exChains 0, Live exState n → _sl_cmp exState n 15 < 0 →
        n = p ∨ _sl_cmp exState n p < 0) ∧
      (p = headAddr ↔ ∀ n ∈ exChains 0, Live exState n → _sl_cmp exState 15 n ≤ 0) :=
  ⟨exState_wf, by decide,
    skiplist_find_smaller_pred exState exChains exState_wf 15 20 (by decide)⟩

/-- C9: on a well-formed list, for a live node `n` of the bottom chain,
`skiplist_next` is the first live node after `n` (null if none) and
`skiplist_prev` the last live node before `n` (null if none); hence each
undoes the other whenever it does not return null. -/
theorem skiplist_next_prev_inverse (s : SkiplistRaw) (ch : Nat → List Nat)
    (wf : WellFormed s ch) (fuel : Nat) (hf : searchFuel s ch ≤ fuel)
    (a b : List Nat) (n : Nat) (hch : ch 0 = a ++ n :: b) (hl : Live s n) :
    skiplist_next s fuel n = some (liveNodes s b).head? ∧
    skiplist_prev s fuel n = some (liveNodes s a).getLast? ∧
    (∀ m, skiplist_next s fuel n = some (some m) → skiplist_prev s fuel m = some (some n)) ∧
    (∀ m, skiplist_prev s fuel n = some (some m) → skiplist_next s fuel m = some (some n)) := by
  have hlen : (ch 0).length + 1 ≤ fuel := le_trans (searchFuel_ge_len wf.maxLayer_pos) hf
  have hlen' := congrArg List.length hch
  simp only [List.length_append, List.length_cons] at hlen'
  have hnext : skiplist_next s fuel n = some (liveNodes s b).head? :=
    skiplist_next_on_chain wf (show headAddr :: ch 0 = (headAddr :: a) ++ n :: b by
      rw [hch]; rfl) (by omega)
  have hprev : skiplist_prev s fuel n = some (liveNodes s a).getLast? :=
    skiplist_prev_on_chain wf (show ch 0 ++ [tailAddr] = a ++ n :: (b ++ [tailAddr]) by
      rw [hch]; simp) hf
  have hln : liveNodes s [n] = [n] := by
    unfold Live at hl
    simp [liveNodes, hl]
  refine ⟨hnext, hprev, ?_, ?_⟩
  · intro m hm
    rw [hnext] at hm
    simp only [Option.some.injEq] at hm
    obtain ⟨d, r, hb, hd, _⟩ := filter_head_split b m hm
    have e : ch 0 ++ [tailAddr] = (a ++ n :: d) ++ m :: (r ++ [tailAddr]) := by
      rw [hch, hb]; simp
    rw [skiplist_prev_on_chain wf e hf]
    have : liveNodes s (a ++ n :: d) = liveNodes s a ++ [n] := by
      have : a ++ n :: d = a ++ ([n] ++ d) := rfl
      rw [this, liveNodes_append, liveNodes_append, hln]
      unfold liveNodes
      rw [hd]
      simp
    rw [this]
    simp
  · intro m hm
    rw [hprev] at hm
    simp only [Option.some.injEq] at hm
    obtain ⟨r, d, ha, hd, _⟩ := filter_last_split a m hm
    have e : headAddr :: ch 0 = (headAddr :: r) ++ m :: (d ++ n :: b) := by
      rw [hch, ha]; simp
    have hlen2 : (d ++ n :: b).length ≤ fuel := by
      have := congrArg List.length ha
      simp only [List.length_append, List.length_cons] at this ⊢
      omega
    rw [skiplist_next_on_chain wf e hlen2]
    have : liveNodes s (d ++ n :: b) = n :: liveNodes s b := by
      have : d ++ n :: b = d ++ ([n] ++ b) := rfl
      rw [this, liveNodes_append, liveNodes_append, hln]
      unfold liveNodes
      rw [hd]
      simp
    rw [this]
    simp

/-- Witness for C9 on the example list, at node 10 (followed by node 20). -/
theorem skiplist_next_prev_inverse_witness :
    WellFormed exState exChains ∧ searchFuel exState exChains ≤ 20 ∧
    exChains 0 = [] ++ 10 :: [20] ∧ Live exState 10 ∧
    skiplist_next exState 20 10 = some (liveNodes exState [20]).head? ∧
    skiplist_prev exState 20 10 = some (liveNodes exState []).getLast? ∧
    (∀ m, skiplist_next exState 20 10 = some (some m) →
      skiplist_prev exState 20 m = some (some 10)) ∧
    (∀ m, skiplist_prev exState 20 10 = some (some m) →
      skiplist_next exState 20 m = some (some 10)) :=
  ⟨exState_wf, by decide, rfl, rfl,
    skiplist_next_prev_inverse exState exChains exState_wf 20 (by decide) [] [20] 10 rfl rfl⟩

/-- C10: on a well-formed list `skiplist_begin` returns the first and
`skiplist_end` the last live node of the bottom chain, which are the smallest
and the largest live node under the comparator; both return null exactly when
the list has no live node. -/
theorem skiplist_begin_end_extremes (s : SkiplistRaw) (ch : Nat → List Nat)
    (wf : WellFormed s ch) (fuel : Nat) (hf : searchFuel s ch ≤ fuel) :
    skiplist_begin s fuel = some (liveNodes s (ch 0)).head? ∧
    skiplist_end s fuel = some (liveNodes s (ch 0)).getLast? ∧
    (∀ b, (liveNodes s (ch 0)).head? = some b →
      ∀ n ∈ liveNodes s (ch 0), n = b ∨ _sl_cmp s b n < 0) ∧
    (∀ e, (liveNodes s (ch 0)).getLast? = some e →
      ∀ n ∈ liveNodes s (ch 0), n = e ∨ _sl_cmp s n e < 0) ∧
    (skiplist_begin s fuel = some none ↔ liveNodes s (ch 0) = []) ∧
    (skiplist_end s fuel = some none ↔ liveNodes s (ch 0) = []) := by
  have hM : 0 < s.maxLayer := wf.maxLayer_pos
  have hlen : (ch 0).length + 1 ≤ fuel := le_trans (searchFuel_ge_len wf.maxLayer_pos) hf
  have hbegin : skiplist_begin s fuel = some (liveNodes s (ch 0)).head? := by
    have := skiplist_next_on_chain wf (show headAddr :: ch 0 = [] ++ headAddr :: ch 0 from rfl)
      (show (ch 0).length ≤ fuel by omega)
    exact this
  have hend : skiplist_end s fuel = some (liveNodes s (ch 0)).getLast? := by
    unfold skiplist_end
    exact skiplist_prev_on_chain wf
      (show ch 0 ++ [tailAddr] = ch 0 ++ tailAddr :: [] from rfl) hf
  have hpw := ordered_pairwise wf hM
  simp only [List.cons_append] at hpw
  have hpw0 : List.Pairwise (fun a b => _sl_cmp s a b < 0) (liveNodes s (ch 0)) :=
    ((List.pairwise_append.1 (List.pairwise_cons.1 hpw).2).1).sublist (List.filter_sublist _)
  refine ⟨hbegin, hend, ?_, ?_, ?_, ?_⟩
  · intro b hb n hn
    rcases hlv : liveNodes s (ch 0) with _ | ⟨x, v⟩
    · rw [hlv] at hn; simp at hn
    · rw [hlv] at hb hn hpw0
      simp only [List.head?_cons, Option.some.injEq] at hb
      subst hb
      rcases List.mem_cons.1 hn with h | h
      · exact Or.inl h
      · exact Or.inr ((List.pairwise_cons.1 hpw0).1 n h)
  · intro e he n hn
    rcases List.eq_nil_or_concat (liveNodes s (ch 0)) with hnil | ⟨v, x, hv⟩
    · rw [hnil] at hn; simp at hn
    · rw [List.concat_eq_append] at hv
      rw [hv] at he hn hpw0
      simp only [List.getLast?_append, List.getLast?_singleton] at he
      simp [Option.or] at he
      subst he
      rcases List.mem_append.1 hn with h | h
      · exact Or.inr ((List.pairwise_append.1 hpw0).2.2 n h x (by simp))
      · simp only [List.mem_singleton] at h
        exact Or.inl h
  · rw [hbegin]
    simp
  · rw [hend]
    simp

/-- Witness for C10 on the example list. -/
theorem skiplist_begin_end_extremes_witness :
    WellFormed exState exChains ∧ searchFuel exState exChains ≤ 20 ∧
    skiplist_begin exState 20 = some (some 10) ∧ skiplist_end exState 20 = some (some 20) :=
  ⟨exState_wf, by decide,
    (skiplist_begin_end_extremes exState exChains exState_wf 20 (by decide)).1,
    (skiplist_begin_end_extremes exState exChains exState_wf 20 (by decide)).2.1⟩

end Skiplist

namespace Skiplist

variable {cap : Nat}

/-! ## Traversal, status codes and fuel bounds -/

theorem erase_walk_codes (node t : Nat) :
    ∀ (fuel : Nat) (s : SkiplistRaw) (prevs nexts : Nat → Nat) (L cur : Nat) (r : Int)
      (s' : SkiplistRaw),
      skiplist_erase_node_walk cap node t fuel s prevs nexts L cur = some (r, s') →
      r = 0 ∨ r = -3 := by
  intro fuel
  induction fuel with
  | zero =>
    intro s prevs nexts L cur r s' h
    simp [skiplist_erase_node_walk] at h
  | succ fuel ih =>
    intro s prevs nexts L cur r s' h
    rw [skiplist_erase_node_walk] at h
    rcases hnx : _sl_next s (fuel + 1) cur L with _ | _ | nx
    · simp [hnx] at h
    · simp [hnx] at h
    · simp only [hnx] at h
      by_cases h1 : _sl_cmp s node nx > 0
      · simp only [h1, if_true] at h
        split_ifs at h
        · exact ih _ _ _ _ _ _ _ h
        · simp only [Option.some.injEq, Prod.mk.injEq] at h
          exact Or.inl h.1.symm
        · exact ih _ _ _ _ _ _ _ h
      · simp only [h1, if_false] at h
        by_cases h4 : L ≤ t
        · simp only [h4, if_true] at h
          rcases hl : skiplist_erase_node_layer s (fuel + 1) t (Function.update prevs L cur)
            (Function.update nexts L nx) L cur with _ | ⟨b, s2⟩
          · simp [hl] at h
          · simp only [hl] at h
            cases b
            · simp only at h
              split_ifs at h
              · simp only [Option.some.injEq, Prod.mk.injEq] at h
                exact Or.inr h.1.symm
              · exact ih _ _ _ _ _ _ _ h
            · simp only at h
              split_ifs at h
              · exact ih _ _ _ _ _ _ _ h
              · simp only [Option.some.injEq, Prod.mk.injEq] at h
                exact Or.inl h.1.symm
        · simp only [h4, if_false] at h
          split_ifs at h
          · exact ih _ _ _ _ _ _ _ h
          · simp only [Option.some.injEq, Prod.mk.injEq] at h
            exact Or.inl h.1.symm

theorem erase_node_codes (s : SkiplistRaw) (fuel node : Nat) (r : Int) (s' : SkiplistRaw)
    (h : skiplist_erase_node cap s fuel node = some (r, s')) :
    r = 0 ∨ r = -1 ∨ r = -2 ∨ r = -3 := by
  unfold skiplist_erase_node at h
  simp only at h
  split_ifs at h
  · simp only [Option.some.injEq, Prod.mk.injEq] at h
    exact Or.inr (Or.inl h.1.symm)
  · simp only [Option.some.injEq, Prod.mk.injEq] at h
    exact Or.inr (Or.inr (Or.inl h.1.symm))
  · simp only [Option.some.injEq, Prod.mk.injEq] at h
    exact Or.inr (Or.inr (Or.inr h.1.symm))
  · simp only [Option.some.injEq, Prod.mk.injEq] at h
    exact Or.inl h.1.symm
  · rcases erase_walk_codes _ _ _ _ _ _ _ _ _ _ h with h' | h'
    · exact Or.inl h'
    · exact Or.inr (Or.inr (Or.inr h'))

end Skiplist

namespace Skiplist

variable {cap : Nat}

/-! ## Removal claims -/

end Skiplist

namespace Skiplist

variable {cap : Nat}

end Skiplist

namespace Skiplist

/-! ## More fuel never changes a result -/

end Skiplist

namespace Skiplist

variable {cap : Nat}

end Skiplist

namespace Skiplist

variable {cap : Nat}

/-! ## Reachable cap states are sequentially well-formed -/

end Skiplist

namespace Skiplist

variable {cap : Nat}

/-! ## Fuel bounds and the sampler on concrete runs -/

end Skiplist

namespace Skiplist

variable {cap : Nat}

/-! ## Round trip -/

end Skiplist

namespace Skiplist

/-! ## Beyond the sentinels' and the writers' arrays -/

end Skiplist

namespace Skiplist

/-! ## The comparator wrapper, the sampler and `_sl_next` on their own -/

/-- C12: the wrapped comparator `_sl_cmp` treats the sentinels as extremes.
Identical nodes compare equal, head is below every other node, tail is above
every other node, two distinct non-sentinel nodes are compared by the user
comparator, and the sign of `_sl_cmp` is antisymmetric whenever the sign of
the user comparator is. -/
theorem sl_cmp_sentinel_extremes (s : SkiplistRaw) :
    (∀ a, _sl_cmp s a a = 0) ∧
    (∀ b, b ≠ headAddr → _sl_cmp s headAddr b < 0) ∧
    (∀ a, a ≠ tailAddr → _sl_cmp s a tailAddr < 0) ∧
    (∀ b, b ≠ tailAddr → 0 < _sl_cmp s tailAddr b) ∧
    (∀ a, a ≠ headAddr → 0 < _sl_cmp s a headAddr) ∧
    (∀ a b, a ≠ b → a ≠ headAddr → a ≠ tailAddr → b ≠ headAddr → b ≠ tailAddr →
      _sl_cmp s a b = s.cmpFunc a b) ∧
    ((∀ a b, Int.sign (s.cmpFunc a b) = - Int.sign (s.cmpFunc b a)) →
      ∀ a b, Int.sign (_sl_cmp s a b) = - Int.sign (_sl_cmp s b a)) := by
  have hht : headAddr ≠ tailAddr := by simp [headAddr, tailAddr]
  refine ⟨?_, ?_, ?_, ?_, ?_, ?_, ?_⟩
  · intro a
    simp [_sl_cmp]
  · intro b hb
    simp [_sl_cmp, Ne.symm hb]
  · intro a ha
    simp [_sl_cmp, ha]
  · intro b hb
    simp [_sl_cmp, Ne.symm hb, Ne.symm hht, hb]
  · intro a ha
    simp [_sl_cmp, ha, hht]
  · intro a b hab ha ha' hb hb'
    simp [_sl_cmp, hab, ha, ha', hb, hb']
  · intro hanti a b
    unfold _sl_cmp
    by_cases hab : a = b
    · simp [hab]
    · have hba : ¬ b = a := fun e => hab e.symm
      simp only [hab, hba, if_false]
      by_cases h1 : a = headAddr
      · have h1' : ¬ b = headAddr := fun e => hab (h1.trans e.symm)
        have h1'' : ¬ a = tailAddr := fun e => hht (h1.symm.trans e)
        simp [h1, h1', Ne.symm hht, hht]
      · by_cases h2 : b = tailAddr
        · have h2' : ¬ a = tailAddr := fun e => hab (e.trans h2.symm)
          simp [h1, h2, h2', Ne.symm hht, hht]
        · by_cases h3 : a = tailAddr
          · simp [h1, h2, h3, Ne.symm hht, hht]
          · by_cases h4 : b = headAddr
            · simp [h1, h2, h3, h4, Ne.symm hht, hht]
            · simp only [h1, h2, h3, h4, or_self, if_false]
              exact hanti a b

/-- Witness for C12: with the address comparator the wrapper is antisymmetric
on the example list. -/
theorem sl_cmp_sentinel_extremes_witness :
    (∀ a b, Int.sign (exState.cmpFunc a b) = - Int.sign (exState.cmpFunc b a)) ∧
    ∀ a b, Int.sign (_sl_cmp exState a b) = - Int.sign (_sl_cmp exState b a) :=
  ⟨fun a b => by
      show Int.sign (exCmp a b) = - Int.sign (exCmp b a)
      unfold exCmp
      rw [← Int.sign_neg]
      congr 1
      omega,
    (sl_cmp_sentinel_extremes exState).2.2.2.2.2.2 (fun a b => by
      show Int.sign (exCmp a b) = - Int.sign (exCmp b a)
      unfold exCmp
      rw [← Int.sign_neg]
      congr 1
      omega)⟩

end Skiplist

namespace Skiplist

/-- The sampler loop entered with `layer` promotions made out of `layer`
draws: when the draws `layer .. k-1` promote and draw `k` (if it is ever
made) does not, the loop stops at layer `min (M-1) k` having made
`min (M-1) (k+1)` draws. -/
theorem decide_top_layer_loop_run (s : SkiplistRaw) (rand : Nat → Nat) (k : Nat)
    (hrun : ∀ i, i < k → rand i % s.fanout = 0)
    (hstop : k < s.maxLayer - 1 → rand k % s.fanout ≠ 0) :
    ∀ (n layer : Nat), s.maxLayer - 1 ≤ layer + n → layer ≤ s.maxLayer - 1 → layer ≤ k →
      _sl_decide_top_layer_loop s rand n layer layer =
        (min (s.maxLayer - 1) k, min (s.maxLayer - 1) (k + 1)) := by
  intro n
  induction n with
  | zero =>
    intro layer h1 h2 h3
    rw [_sl_decide_top_layer_loop]
    have e1 : min (s.maxLayer - 1) k = layer := by omega
    have e2 : min (s.maxLayer - 1) (k + 1) = layer := by omega
    rw [e1, e2]
  | succ n ih =>
    intro layer h1 h2 h3
    rw [_sl_decide_top_layer_loop]
    by_cases hl : layer + 1 < s.maxLayer
    · by_cases hr : rand layer % s.fanout = 0
      · have hlk : layer ≠ k := by
          rintro rfl
          exact hstop (by omega) hr
        simp only [hl, hr, if_true]
        exact ih (layer + 1) (by omega) (by omega) (by omega)
      · have hlk : layer = k := by
          by_contra hne
          exact hr (hrun layer (by omega))
        simp only [hl, hr, if_true, if_false]
        have e1 : min (s.maxLayer - 1) k = layer := by omega
        have e2 : min (s.maxLayer - 1) (k + 1) = layer + 1 := by omega
        rw [e1, e2]
    · simp only [hl, if_false]
      have e1 : min (s.maxLayer - 1) k = layer := by omega
      have e2 : min (s.maxLayer - 1) (k + 1) = layer := by omega
      rw [e1, e2]

/-- C16: the layer sampler is a capped run length.  For `fanout >= 1` and
`maxLayer >= 1`: if exactly the first `k` draws are multiples of the fanout,
`_sl_decide_top_layer` returns `min (maxLayer - 1) k` and has made
`min (maxLayer - 1) (k + 1)` draws (none once `maxLayer - 1` is reached); if
every draw is a multiple of the fanout it returns `maxLayer - 1` after
`maxLayer - 1` draws; the result is always at most `maxLayer - 1`. -/
theorem sl_decide_top_layer_run_length (s : SkiplistRaw) (rand : Nat → Nat)
    (_hF : 1 ≤ s.fanout) (hM : 1 ≤ s.maxLayer) :
    (∀ k, (∀ i, i < k → rand i % s.fanout = 0) → rand k % s.fanout ≠ 0 →
      _sl_decide_top_layer s rand = (min (s.maxLayer - 1) k, min (s.maxLayer - 1) (k + 1))) ∧
    ((∀ i, rand i % s.fanout = 0) →
      _sl_decide_top_layer s rand = (s.maxLayer - 1, s.maxLayer - 1)) ∧
    (_sl_decide_top_layer s rand).1 ≤ s.maxLayer - 1 := by
  refine ⟨?_, ?_, ?_⟩
  · intro k hrun hstop
    unfold _sl_decide_top_layer
    exact decide_top_layer_loop_run s rand k hrun (fun _ => hstop) s.maxLayer 0
      (by omega) (by omega) (by omega)
  · intro hall
    unfold _sl_decide_top_layer
    have := decide_top_layer_loop_run s rand (s.maxLayer - 1) (fun i _ => hall i)
      (fun h => absurd h (by omega)) s.maxLayer 0 (by omega) (by omega) (by omega)
    rw [this]
    simp
  · have := decide_top_layer_lt s rand hM
    omega

/-- Witness for C16 on the example list (`maxLayer = 2`, `fanout = 4`): the
draws 8, 3, ... give layer 1 after one draw, the draws 3, ... give layer 0. -/
theorem sl_decide_top_layer_run_length_witness :
    1 ≤ exState.fanout ∧ 1 ≤ exState.maxLayer ∧
    _sl_decide_top_layer exState (fun i => if i = 0 then 8 else 3) = (1, 1) ∧
    _sl_decide_top_layer exState (fun _ => 3) = (0, 1) :=
  ⟨by decide, by decide,
    (sl_decide_top_layer_run_length exState (fun i => if i = 0 then 8 else 3)
      (by decide) (by decide)).1 1
      (fun i hi => by
        have : i = 0 := by omega
        subst this
        decide)
      (by decide),
    (sl_decide_top_layer_run_length exState (fun _ => 3) (by decide) (by decide)).1 0
      (fun i hi => absurd hi (by omega)) (by decide)⟩

/-- From the pointer just loaded, `_sl_next` walks over the nodes that are
not live and stops at the first live one. -/
theorem sl_next_first_live (s : SkiplistRaw) (L : Nat) :
    ∀ (dead : List Nat) (x nx : Nat) (rest : List Nat) (fuel : Nat),
      List.Chain' (fun a b => loadNext s a L = some b) (x :: (dead ++ nx :: rest)) →
      (∀ d ∈ dead, ¬ Live s d) → Live s nx → dead.length ≤ fuel →
      _sl_next s fuel x L = some (some nx) := by
  intro dead
  induction dead with
  | nil =>
    intro x nx rest fuel hc _ hn _
    have h1 : loadNext s x L = some nx := by
      simp only [List.nil_append, List.chain'_cons] at hc
      exact hc.1
    unfold _sl_next
    rw [h1]
    unfold _sl_next_loop
    unfold Live at hn
    simp [hn]
  | cons d ds ih =>
    intro x nx rest fuel hc hd hn hf
    have h1 : loadNext s x L = some d := by
      simp only [List.cons_append, List.chain'_cons] at hc
      exact hc.1
    have h2 : List.Chain' (fun a b => loadNext s a L = some b) (d :: (ds ++ nx :: rest)) := by
      simp only [List.cons_append, List.chain'_cons] at hc
      exact hc.2
    have hdd : ¬ _sl_valid_node s d = true := hd d (List.mem_cons_self _ _)
    cases fuel with
    | zero => simp at hf
    | succ fuel =>
      have := ih d nx rest fuel h2 (fun e he => hd e (List.mem_cons_of_mem _ he)) hn
        (by simpa using hf)
      unfold _sl_next at this ⊢
      rw [h1]
      rw [_sl_next_loop]
      simp only [hdd, if_false]
      exact this

end Skiplist

namespace Skiplist

/-! ## Readers on lists with no order assumption -/

/-- C15: `_sl_next` returns the first live node.  When following `next[L]`
from `cur` runs through the nodes `c` and reaches tail (a live sentinel),
`_sl_next(cur, L)` returns a node `r` with `isFullyLinked = true` and
`removed = false`, every node of the chain strictly between `cur` and `r` is
not live, and `r` is tail when no node of `c` is live. -/
theorem sl_next_returns_first_live (s : SkiplistRaw) (L cur : Nat) (c : List Nat) (fuel : Nat)
    (_hcur : cur ≠ tailAddr)
    (hchain : List.Chain' (fun a b => loadNext s a L = some b) (cur :: (c ++ [tailAddr])))
    (htail : Live s tailAddr) (hf : c.length ≤ fuel) :
    ∃ dead r rest, c ++ [tailAddr] = dead ++ r :: rest ∧
      _sl_next s fuel cur L = some (some r) ∧
      (s.mem r).isFullyLinked = true ∧ (s.mem r).removed = false ∧
      (∀ d ∈ dead, ¬ ((s.mem d).isFullyLinked = true ∧ (s.mem d).removed = false)) ∧
      ((∀ x ∈ c, ¬ Live s x) → r = tailAddr) := by
  obtain ⟨dead, r, rest, hsplit, hd, hr⟩ :=
    split_first_live s (c ++ [tailAddr]) ⟨tailAddr, by simp, htail⟩
  have hlen := congrArg List.length hsplit
  simp only [List.length_append, List.length_cons, List.length_nil] at hlen
  have hnext : _sl_next s fuel cur L = some (some r) :=
    sl_next_first_live s L dead cur r rest fuel (hsplit ▸ hchain) hd hr (by omega)
  have hlive : ∀ x, Live s x ↔ ((s.mem x).isFullyLinked = true ∧ (s.mem x).removed = false) := by
    intro x
    unfold Live _sl_valid_node
    cases (s.mem x).removed <;> cases (s.mem x).isFullyLinked <;> simp
  refine ⟨dead, r, rest, hsplit, hnext, ((hlive r).1 hr).1, ((hlive r).1 hr).2, ?_, ?_⟩
  · intro d hdm
    rw [← hlive]
    exact hd d hdm
  · intro hall
    have hmem : r ∈ c ++ [tailAddr] := by rw [hsplit]; simp
    rcases List.mem_append.1 hmem with h | h
    · exact absurd hr (hall r h)
    · simpa using h

/-- Witness for C15 on the example list with node 10 tombstoned: from head
at layer 0 the first live node is node 20, reached through node 10. -/
theorem sl_next_returns_first_live_witness :
    ∃ dead r rest, [10, 20] ++ [tailAddr] = dead ++ r :: rest ∧
      _sl_next exTomb 2 headAddr 0 = some (some r) ∧
      (exTomb.mem r).isFullyLinked = true ∧ (exTomb.mem r).removed = false ∧
      (∀ d ∈ dead, ¬ ((exTomb.mem d).isFullyLinked = true ∧
        (exTomb.mem d).removed = false)) ∧
      ((∀ x ∈ [10, 20], ¬ Live exTomb x) → r = tailAddr) :=
  sl_next_returns_first_live exTomb 0 headAddr [10, 20] 2 (by decide)
    (by simp [loadNext, exTomb, storeRemoved, setNode, exState, headAddr, tailAddr])
    rfl (by decide)

end Skiplist

namespace Skiplist

theorem sl_next_loop_live (s : SkiplistRaw) (L : Nat) :
    ∀ (fuel : Nat) (p : Option Nat) (r : Nat),
      _sl_next_loop s L fuel p = some (some r) → Live s r := by
  intro fuel
  induction fuel with
  | zero =>
    intro p r h
    cases p with
    | none => simp [_sl_next_loop] at h
    | some n =>
      rw [_sl_next_loop] at h
      by_cases hv : _sl_valid_node s n = true
      · simp only [hv, if_true, Option.some.injEq] at h
        exact h ▸ hv
      · simp [hv] at h
  | succ fuel ih =>
    intro p r h
    cases p with
    | none => simp [_sl_next_loop] at h
    | some n =>
      rw [_sl_next_loop] at h
      by_cases hv : _sl_valid_node s n = true
      · simp only [hv, if_true, Option.some.injEq] at h
        exact h ▸ hv
      · simp only [hv, if_false] at h
        exact ih _ r h

theorem sl_next_live (s : SkiplistRaw) (fuel cur L r : Nat)
    (h : _sl_next s fuel cur L = some (some r)) : Live s r :=
  sl_next_loop_live s L fuel _ r h

/-- Whatever the state, a node returned by the search loop of `skiplist_find`
was returned by `_sl_next` and compared equal to the query. -/
theorem find_walk_safe (s : SkiplistRaw) (q : Nat) :
    ∀ (fuel L cur r : Nat), skiplist_find_walk s q fuel L cur = some (some r) →
      _sl_cmp s q r = 0 ∧ Live s r := by
  intro fuel
  induction fuel with
  | zero =>
    intro L cur r h
    simp [skiplist_find_walk] at h
  | succ fuel ih =>
    intro L cur r h
    rw [skiplist_find_walk] at h
    rcases hnx : _sl_next s (fuel + 1) cur L with _ | _ | nx
    · simp [hnx] at h
    · simp [hnx] at h
    · simp only [hnx] at h
      by_cases hc : _sl_cmp s q nx > 0
      · simp only [hc, if_true] at h
        by_cases hnt : nx ≠ tailAddr
        · rw [if_pos hnt] at h
          exact ih _ _ _ h
        · rw [if_neg hnt] at h
          by_cases hL : L = 0
          · rw [if_pos hL] at h
            injection h with h
            cases h
          · simp only [hL, if_false] at h
            exact ih _ _ _ h
      · simp only [hc, if_false] at h
        by_cases hz : _sl_cmp s q nx = 0
        · simp only [hz, if_true, Option.some.injEq] at h
          subst h
          exact ⟨hz, sl_next_live s _ _ _ _ hnx⟩
        · simp only [hz, if_false] at h
          by_cases hL : L ≠ 0
          · rw [if_pos hL] at h
            exact ih _ _ _ h
          · rw [if_neg hL] at h
            injection h with h
            cases h

/-- On finite chains `_sl_next` finds a live node no later than tail. -/
theorem sl_next_loop_ends {s : SkiplistRaw} {R : Nat → Nat → Prop} {rank : Nat → Nat → Nat}
    {B : Nat} (ce : ChainsEnd s R rank B) {L : Nat} (hL : L < s.maxLayer) :
    ∀ (fuel b : Nat), R L b → rank L b ≤ fuel →
      ∃ nx, _sl_next_loop s L fuel (some b) = some (some nx) ∧ R L nx ∧
        rank L nx ≤ rank L b := by
  intro fuel
  induction fuel with
  | zero =>
    intro b hb hr
    rw [_sl_next_loop]
    by_cases hv : _sl_valid_node s b = true
    · exact ⟨b, by simp [hv], hb, le_refl _⟩
    · have hbt : b ≠ tailAddr := fun e => hv (e ▸ ce.tail_live)
      obtain ⟨b', _, _, hlt⟩ := ce.next L b hL hb hbt
      omega
  | succ fuel ih =>
    intro b hb hr
    rw [_sl_next_loop]
    by_cases hv : _sl_valid_node s b = true
    · exact ⟨b, by simp [hv], hb, le_refl _⟩
    · have hbt : b ≠ tailAddr := fun e => hv (e ▸ ce.tail_live)
      obtain ⟨b', hld, hb', hlt⟩ := ce.next L b hL hb hbt
      obtain ⟨nx, hres, hnx, hle⟩ := ih b' hb' (by omega)
      refine ⟨nx, ?_, hnx, by omega⟩
      simp only [hv, if_false, hld]
      exact hres

/-- On finite chains the search loop of `skiplist_find` returns. -/
theorem find_walk_returns {s : SkiplistRaw} {R : Nat → Nat → Prop} {rank : Nat → Nat → Nat}
    {B : Nat} (ce : ChainsEnd s R rank B) (q : Nat) :
    ∀ (fuel L cur : Nat), L < s.maxLayer → R L cur → cur ≠ tailAddr →
      rank L cur + L * (B + 1) + 1 ≤ fuel →
      ∃ r, skiplist_find_walk s q fuel L cur = some r := by
  intro fuel
  induction fuel with
  | zero =>
    intro L cur _ _ _ hf
    omega
  | succ fuel ih =>
    intro L cur hL hcur hct hf
    obtain ⟨b, hld, hb, hlt⟩ := ce.next L cur hL hcur hct
    obtain ⟨nx, hres, hnx, hle⟩ := sl_next_loop_ends ce hL (fuel + 1) b hb (by omega)
    have hnext : _sl_next s (fuel + 1) cur L = some (some nx) := by
      unfold _sl_next
      rw [hld]
      exact hres
    rw [skiplist_find_walk, hnext]
    simp only
    have hB := ce.bound
    by_cases hc : _sl_cmp s q nx > 0
    · have hnt : nx ≠ tailAddr := by
        rintro rfl
        have := sl_cmp_tail_le s q
        omega
      simp only [hc, if_true, ne_eq, hnt, not_false_eq_true]
      exact ih L nx hL hnx hnt (by omega)
    · simp only [hc, if_false]
      by_cases hz : _sl_cmp s q nx = 0
      · exact ⟨some nx, by simp [hz]⟩
      · simp only [hz, if_false]
        cases L with
        | zero => exact ⟨none, by simp⟩
        | succ L =>
          simp only [ne_eq, Nat.add_one_ne_zero, not_false_eq_true, if_true,
            Nat.add_sub_cancel]
          refine ih L cur (by omega) (ce.down L cur hcur) hct ?_
          have h1 := hB L cur
          have h2 : (L + 1) * (B + 1) = L * (B + 1) + (B + 1) := by ring
          omega

/-- C11: `skiplist_find` never returns a wrong or dead node.  Whatever the
state (no ordering or containment assumption, nodes may be mid-insert or
tombstoned) and whatever the fuel, a node `r` returned for `query` satisfies
`cmp(query, r) = 0`, `isFullyLinked = true` and `removed = false`; and when
the forward chains are finite and end at tail, `skiplist_find` returns (a
node or null). -/
theorem skiplist_find_never_wrong (s : SkiplistRaw) (query : Nat) :
    (∀ fuel r, skiplist_find s fuel query = some (some r) →
      _sl_cmp s query r = 0 ∧ (s.mem r).isFullyLinked = true ∧ (s.mem r).removed = false) ∧
    (∀ (R : Nat → Nat → Prop) (rank : Nat → Nat → Nat) (B fuel : Nat),
      ChainsEnd s R rank B → s.maxLayer * (B + 1) ≤ fuel →
      ∃ r, skiplist_find s fuel query = some r) := by
  constructor
  · intro fuel r h
    unfold skiplist_find at h
    by_cases hM : s.maxLayer = 0
    · simp [hM] at h
    · rw [if_neg hM] at h
      obtain ⟨h1, h2⟩ := find_walk_safe s query _ _ _ _ h
      refine ⟨h1, ?_⟩
      unfold Live _sl_valid_node at h2
      revert h2
      cases (s.mem r).removed <;> cases (s.mem r).isFullyLinked <;> simp
  · intro R rank B fuel ce hf
    unfold skiplist_find
    by_cases hM : s.maxLayer = 0
    · exact ⟨none, by simp [hM]⟩
    · rw [if_neg hM]
      refine find_walk_returns ce query fuel (s.maxLayer - 1) headAddr (by omega)
        (ce.head _ (by omega)) (by simp [headAddr, tailAddr]) ?_
      have h1 := ce.bound (s.maxLayer - 1) headAddr
      have h2 : s.maxLayer * (B + 1) = (s.maxLayer - 1) * (B + 1) + (B + 1) := by
        have : s.maxLayer = (s.maxLayer - 1) + 1 := by omega
        nth_rewrite 1 [this]
        ring
      omega

/-- The chains of the example list with node 10 tombstoned are finite. -/
theorem exTomb_chainsEnd :
    ChainsEnd exTomb (fun L a => a = 0 ∨ a = 1 ∨ a = 20 ∨ (L = 0 ∧ a = 10))
      (fun _ a => if a = 0 then 3 else if a = 10 then 2 else if a = 20 then 1 else 0) 3 := by
  refine ⟨rfl, fun L _ => Or.inl rfl, ?_, ?_, ?_⟩
  · intro L a h
    rcases h with h | h | h | ⟨h, _⟩
    · exact Or.inl h
    · exact Or.inr (Or.inl h)
    · exact Or.inr (Or.inr (Or.inl h))
    · omega
  · intro L a hL hR hat
    have hL' : L < 2 := hL
    interval_cases L
    · rcases hR with h | h | h | ⟨_, h⟩
      · subst h
        exact ⟨10, by simp [loadNext, exTomb, storeRemoved, setNode, exState, headAddr,
          tailAddr], by simp, by simp⟩
      · exact absurd h hat
      · subst h
        exact ⟨1, by simp [loadNext, exTomb, storeRemoved, setNode, exState, headAddr,
          tailAddr], by simp, by simp⟩
      · subst h
        exact ⟨20, by simp [loadNext, exTomb, storeRemoved, setNode, exState, headAddr,
          tailAddr], by simp, by simp⟩
    · rcases hR with h | h | h | ⟨h, _⟩
      · subst h
        exact ⟨20, by simp [loadNext, exTomb, storeRemoved, setNode, exState, headAddr,
          tailAddr], by simp, by simp⟩
      · exact absurd h hat
      · subst h
        exact ⟨1, by simp [loadNext, exTomb, storeRemoved, setNode, exState, headAddr,
          tailAddr], by simp, by simp⟩
      · omega
  · intro L a
    show (if a = 0 then 3 else if a = 10 then 2 else if a = 20 then 1 else 0) ≤ 3
    split_ifs <;> omega

/-- Witness for C11 on the example list with node 10 tombstoned: the search
returns for every query, and whatever it returns for query 10 compares equal
to 10 and is live. -/
theorem skiplist_find_never_wrong_witness :
    (∀ fuel r, skiplist_find exTomb fuel 10 = some (some r) →
      _sl_cmp exTomb 10 r = 0 ∧ (exTomb.mem r).isFullyLinked = true ∧
        (exTomb.mem r).removed = false) ∧
    ∃ r, skiplist_find exTomb 8 10 = some r :=
  ⟨(skiplist_find_never_wrong exTomb 10).1,
    (skiplist_find_never_wrong exTomb 10).2 _ _ 3 8 exTomb_chainsEnd (by decide)⟩

end Skiplist

namespace Skiplist

/-! ## The list left by `skiplist_init` -/

/-- The loop of `skiplist_init` leaves `NULL` in the slots of tail it has
passed. -/
theorem init_loop_tail :
    ∀ (n : Nat) (s : SkiplistRaw) (start : Nat),
      (∀ j, start ≤ j → j < start + n → loadNext (skiplist_init_loop n s start) tailAddr j = none) ∧
      (∀ j, j < start → loadNext (skiplist_init_loop n s start) tailAddr j =
        loadNext s tailAddr j) := by
  intro n
  induction n with
  | zero =>
    intro s start
    exact ⟨fun j h1 h2 => by omega, fun _ _ => rfl⟩
  | succ n ih =>
    intro s start
    rw [skiplist_init_loop]
    obtain ⟨i1, i2⟩ := ih (storeNext (storeNext s headAddr start (some tailAddr)) tailAddr
      start none) (start + 1)
    have hth : ¬ (tailAddr = headAddr) := by simp [headAddr, tailAddr]
    constructor
    · intro j h1 h2
      rcases Nat.eq_or_lt_of_le h1 with h | h
      · subst h
        rw [i2 start (by omega), storeNext_loadNext]
        split_ifs with hc
        · rfl
        · have hlen : ¬ start <
              ((storeNext s headAddr start (some tailAddr)).mem tailAddr).next.length := by
            intro hl
            exact hc ⟨rfl, rfl, hl⟩
          unfold loadNext
          exact List.getD_eq_default _ _ (by omega)
      · exact i1 j (by omega) (by omega)
    · intro j hj
      rw [i2 j (by omega), storeNext_loadNext, if_neg (fun h => by have := h.2.1; omega),
        storeNext_loadNext, if_neg (fun h => hth h.1)]

/-- The sentinels after `skiplist_init`, for `maxLayer` up to the 256 slots
of the head. -/
theorem init_sentinels (s : SkiplistRaw) (cmp_func : Nat → Nat → Int)
    (hM' : s.maxLayer ≤ 256)
    (hh : (s.mem headAddr).next = [] ∨
      (s.mem headAddr).next.length = (s.mem headAddr).topLayer + 1)
    (ht : (s.mem tailAddr).next = [] ∨
      (s.mem tailAddr).next.length = (s.mem tailAddr).topLayer + 1) :
    (skiplist_init s cmp_func).cmpFunc = cmp_func ∧
    (skiplist_init s cmp_func).maxLayer = s.maxLayer ∧
    (∀ L, L < s.maxLayer → loadNext (skiplist_init s cmp_func) headAddr L = some tailAddr) ∧
    (∀ L, L < s.maxLayer → loadNext (skiplist_init s cmp_func) tailAddr L = none) ∧
    (∀ a, a = headAddr ∨ a = tailAddr →
      ((skiplist_init s cmp_func).mem a).isFullyLinked = true ∧
      ((skiplist_init s cmp_func).mem a).removed = false ∧
      ((skiplist_init s cmp_func).mem a).beingModified = false) := by
  have hht : headAddr ≠ tailAddr := by simp [headAddr, tailAddr]
  obtain ⟨_, hm1, _, hoff1, _, a2, a3, _, a5⟩ := node_init_gen s headAddr s.maxLayer hh
  generalize hs1 : _sl_node_init s headAddr s.maxLayer = s1 at hm1 hoff1 a2 a3 a5
  have harr1 : (s1.mem tailAddr).next = [] ∨
      (s1.mem tailAddr).next.length = (s1.mem tailAddr).topLayer + 1 := by
    rw [hoff1 tailAddr (fun e => hht e.symm)]; exact ht
  obtain ⟨_, hm2, _, hoff2, _, b2, b3, _, _⟩ := node_init_gen s1 tailAddr s.maxLayer harr1
  generalize hs2 : _sl_node_init s1 tailAddr s.maxLayer = s2 at hm2 hoff2 b2 b3
  obtain ⟨_, hm3, _, hfl3, hld3, _⟩ := init_loop_spec s.maxLayer s2 0
  obtain ⟨htl3, _⟩ := init_loop_tail s.maxLayer s2 0
  generalize hs3 : skiplist_init_loop s.maxLayer s2 0 = s3 at hm3 hfl3 hld3 htl3
  have hunf : skiplist_init s cmp_func =
      { storeFullyLinked (storeFullyLinked s3 headAddr true) tailAddr true with
        cmpFunc := cmp_func } := by
    unfold skiplist_init
    simp only
    have e1 : (_sl_node_init s headAddr s.maxLayer).maxLayer = s.maxLayer := by rw [hs1, hm1]
    have e2 : (_sl_node_init (_sl_node_init s headAddr s.maxLayer) tailAddr
        (_sl_node_init s headAddr s.maxLayer).maxLayer).maxLayer = s.maxLayer := by
      rw [e1, hs1, hs2, hm2, hm1]
    rw [e2, e1, hs1, hs2, hs3]
  rw [hunf]
  generalize hs4 : storeFullyLinked s3 headAddr true = s4
  generalize hs5 : storeFullyLinked s4 tailAddr true = s5
  have g4 := fun a => storeFL_mem s3 headAddr a true
  rw [hs4] at g4
  have g5 := fun a => storeFL_mem s4 tailAddr a true
  rw [hs5] at g5
  have hnext : ∀ a, (s5.mem a).next = (s3.mem a).next := fun a =>
    (g5 a).1.trans (g4 a).1
  have hhead2 : s2.mem headAddr = s1.mem headAddr := hoff2 headAddr hht
  refine ⟨rfl, ?_, ?_, ?_, ?_⟩
  · show s5.maxLayer = _
    rw [← hs5, ← hs4]
    show s3.maxLayer = _
    rw [hm3, hm2, hm1]
  · intro L hL
    show loadNext s5 headAddr L = some tailAddr
    rw [loadNext_congr (hnext headAddr) L]
    exact hld3 L (Nat.zero_le _) (by omega) (by rw [hhead2, a5]; omega)
  · intro L hL
    show loadNext s5 tailAddr L = none
    rw [loadNext_congr (hnext tailAddr) L]
    exact htl3 L (Nat.zero_le _) (by omega)
  · intro a ha
    show (s5.mem a).isFullyLinked = true ∧ (s5.mem a).removed = false ∧
      (s5.mem a).beingModified = false
    rcases ha with rfl | rfl
    · refine ⟨?_, ?_, ?_⟩
      · rw [(g5 headAddr).2.2.2.2, if_neg hht, (g4 headAddr).2.2.2.2, if_pos rfl]
      · rw [(g5 headAddr).2.2.2.1, (g4 headAddr).2.2.2.1, (hfl3 headAddr).2.2.2.1, hhead2, a3]
      · rw [(g5 headAddr).2.2.1, (g4 headAddr).2.2.1, (hfl3 headAddr).1, hhead2, a2]
    · refine ⟨?_, ?_, ?_⟩
      · rw [(g5 tailAddr).2.2.2.2, if_pos rfl]
      · rw [(g5 tailAddr).2.2.2.1, (g4 tailAddr).2.2.2.1, (hfl3 tailAddr).2.2.2.1, b3]
      · rw [(g5 tailAddr).2.2.1, (g4 tailAddr).2.2.1, (hfl3 tailAddr).1, b2]

/-- On a list where head points to a live tail, `_sl_next` from head is tail. -/
theorem sl_next_head_tail {s : SkiplistRaw} {L : Nat}
    (hld : loadNext s headAddr L = some tailAddr) (htl : Live s tailAddr) (fuel : Nat) :
    _sl_next s fuel headAddr L = some (some tailAddr) := by
  unfold _sl_next
  rw [hld]
  unfold _sl_next_loop
  unfold Live at htl
  simp [htl]

/-- The search of `skiplist_find` on an empty list descends from head to
layer 0 and returns null. -/
theorem find_walk_empty {s : SkiplistRaw} {M : Nat}
    (hld : ∀ L, L < M → loadNext s headAddr L = some tailAddr) (htl : Live s tailAddr)
    {q : Nat} (hq : q ≠ tailAddr) :
    ∀ (L fuel : Nat), L < M → L + 1 ≤ fuel →
      skiplist_find_walk s q fuel L headAddr = some none := by
  have hcmp : _sl_cmp s q tailAddr = -1 := by
    unfold _sl_cmp
    simp [hq]
  intro L
  induction L with
  | zero =>
    intro fuel hL hf
    obtain ⟨f, rfl⟩ : ∃ f, fuel = f + 1 := ⟨fuel - 1, by omega⟩
    rw [skiplist_find_walk, sl_next_head_tail (hld 0 hL) htl]
    simp [hcmp]
  | succ L ih =>
    intro fuel hL hf
    obtain ⟨f, rfl⟩ : ∃ f, fuel = f + 1 := ⟨fuel - 1, by omega⟩
    rw [skiplist_find_walk, sl_next_head_tail (hld (L + 1) hL) htl]
    simp only [hcmp]
    simp only [gt_iff_lt, Int.reduceNeg, Int.reduceLT, if_false, Int.reduceEq,
      ne_eq, Nat.add_one_ne_zero, not_false_eq_true, if_true, Nat.add_sub_cancel]
    exact ih f (by omega) (by omega)

/-- The search of `skiplist_find_smaller` on an empty list ends on head. -/
theorem find_smaller_walk_empty {s : SkiplistRaw} {M : Nat}
    (hld : ∀ L, L < M → loadNext s headAddr L = some tailAddr) (htl : Live s tailAddr)
    (q : Nat) :
    ∀ (L fuel : Nat), L < M → L + 1 ≤ fuel →
      skiplist_find_smaller_walk s q fuel L headAddr = some (some headAddr) := by
  have hcmp : ¬ _sl_cmp s q tailAddr > 0 := by
    have := sl_cmp_tail_le s q
    omega
  intro L
  induction L with
  | zero =>
    intro fuel hL hf
    obtain ⟨f, rfl⟩ : ∃ f, fuel = f + 1 := ⟨fuel - 1, by omega⟩
    rw [skiplist_find_smaller_walk, sl_next_head_tail (hld 0 hL) htl]
    simp [hcmp]
  | succ L ih =>
    intro fuel hL hf
    obtain ⟨f, rfl⟩ : ∃ f, fuel = f + 1 := ⟨fuel - 1, by omega⟩
    rw [skiplist_find_smaller_walk, sl_next_head_tail (hld (L + 1) hL) htl]
    simp only [hcmp, if_false, ne_eq, Nat.add_one_ne_zero, not_false_eq_true, if_true,
      Nat.add_sub_cancel]
    exact ih f (by omega) (by omega)

/-- C13: `skiplist_init` produces the empty list.  For `maxLayer = M` with
`1 <= M <= 255` (and sentinel headers whose forward array is `NULL` or has
`topLayer + 1` slots), after `skiplist_init` every `head.next[L]` with
`L < M` is tail and every `tail.next[L]` is null, both sentinels have
`isFullyLinked = true`, `removed = false` and `beingModified = false`, the
comparator is the one passed in, and with fuel `M` `skiplist_begin` and
`skiplist_end` return null and `skiplist_find` returns null for every
non-sentinel query. -/
theorem skiplist_init_empty (s0 : SkiplistRaw) (cmp_func : Nat → Nat → Int)
    (hM : 1 ≤ s0.maxLayer) (hM' : s0.maxLayer ≤ 255)
    (hh : NodeOK (s0.mem headAddr)) (ht : NodeOK (s0.mem tailAddr)) :
    (∀ L, L < s0.maxLayer →
      loadNext (skiplist_init s0 cmp_func) headAddr L = some tailAddr ∧
      loadNext (skiplist_init s0 cmp_func) tailAddr L = none) ∧
    (∀ a, a = headAddr ∨ a = tailAddr →
      ((skiplist_init s0 cmp_func).mem a).isFullyLinked = true ∧
      ((skiplist_init s0 cmp_func).mem a).removed = false ∧
      ((skiplist_init s0 cmp_func).mem a).beingModified = false) ∧
    (skiplist_init s0 cmp_func).cmpFunc = cmp_func ∧
    (∀ fuel, s0.maxLayer ≤ fuel →
      skiplist_begin (skiplist_init s0 cmp_func) fuel = some none ∧
      skiplist_end (skiplist_init s0 cmp_func) fuel = some none ∧
      ∀ q, q ≠ headAddr → q ≠ tailAddr →
        skiplist_find (skiplist_init s0 cmp_func) fuel q = some none) := by
  obtain ⟨hc, hm, hld, htl, hfl⟩ := init_sentinels s0 cmp_func (by omega) hh ht
  have hlive : Live (skiplist_init s0 cmp_func) tailAddr := by
    obtain ⟨h1, h2, _⟩ := hfl tailAddr (Or.inr rfl)
    unfold Live _sl_valid_node
    rw [h1, h2]
    rfl
  refine ⟨fun L hL => ⟨hld L hL, htl L hL⟩, hfl, hc, ?_⟩
  intro fuel hf
  have hne : ¬ (skiplist_init s0 cmp_func).maxLayer = 0 := by rw [hm]; omega
  refine ⟨?_, ?_, ?_⟩
  · unfold skiplist_begin
    rw [sl_next_head_tail (hld 0 (by omega)) hlive]
    simp
  · unfold skiplist_end skiplist_prev skiplist_find_smaller
    rw [if_neg hne, hm,
      find_smaller_walk_empty hld hlive tailAddr (s0.maxLayer - 1) fuel (by omega) (by omega)]
    simp
  · intro q _ hq
    unfold skiplist_find
    rw [if_neg hne, hm]
    exact find_walk_empty hld hlive hq (s0.maxLayer - 1) fuel (by omega) (by omega)

/-- Witness for C13: initialising the blank two-layer memory. -/
theorem skiplist_init_empty_witness :
    (∀ L, L < exBlank.maxLayer →
      loadNext (skiplist_init exBlank exCmp) headAddr L = some tailAddr ∧
      loadNext (skiplist_init exBlank exCmp) tailAddr L = none) ∧
    (∀ a, a = headAddr ∨ a = tailAddr →
      ((skiplist_init exBlank exCmp).mem a).isFullyLinked = true ∧
      ((skiplist_init exBlank exCmp).mem a).removed = false ∧
      ((skiplist_init exBlank exCmp).mem a).beingModified = false) ∧
    (skiplist_init exBlank exCmp).cmpFunc = exCmp ∧
    (∀ fuel, exBlank.maxLayer ≤ fuel →
      skiplist_begin (skiplist_init exBlank exCmp) fuel = some none ∧
      skiplist_end (skiplist_init exBlank exCmp) fuel = some none ∧
      ∀ q, q ≠ headAddr → q ≠ tailAddr →
        skiplist_find (skiplist_init exBlank exCmp) fuel q = some none) :=
  skiplist_init_empty exBlank exCmp (by decide) (by decide) (exBlank_ok _) (exBlank_ok _)

end Skiplist

namespace Skiplist

variable {cap : Nat}

/-! ## The lock `skiplist_erase_node` takes on the node itself -/

/-- The `return -3` of `skiplist_erase_node`: a node that is neither removed
nor locked nor fully linked gets `beingModified = true` and `removed = true`
and the function returns without clearing either. -/
theorem erase_node_unlinked (s : SkiplistRaw) (fuel node : Nat)
    (hr : (s.mem node).removed = false) (hb : (s.mem node).beingModified = false)
    (hl : (s.mem node).isFullyLinked = false) :
    skiplist_erase_node cap s fuel node =
      some (-3, storeRemoved (storeBeingModified s node true) node true) ∧
    ((storeRemoved (storeBeingModified s node true) node true).mem node).beingModified = true ∧
    ((storeRemoved (storeBeingModified s node true) node true).mem node).removed = true := by
  have hfl : ((storeRemoved (storeBeingModified s node true) node true).mem node).isFullyLinked
      = false := by
    simp [storeRemoved, storeBeingModified, setNode, hl]
  refine ⟨?_, by simp [storeRemoved, storeBeingModified, setNode],
    by simp [storeRemoved, storeBeingModified, setNode]⟩
  unfold skiplist_erase_node
  simp only [hr, hb, hfl, Bool.false_eq_true, if_false, Bool.not_false, if_true]

/-- C20 (failing input): on the freshly initialised list, `skiplist_erase_node`
of node 10, whose header is zeroed (`beingModified = false`, not fully
linked), returns -3 and leaves `beingModified = true` on the node. -/
theorem skiplist_erase_node_leaves_lock :
    ((skiplist_init exBlank exCmp).mem 10).beingModified = false ∧
    ∀ fuel, ∃ s', skiplist_erase_node 64 (skiplist_init exBlank exCmp) fuel 10 = some (-3, s') ∧
      (s'.mem 10).beingModified = true := by
  obtain ⟨_, _, _, hoff⟩ := init_frame exBlank exCmp exBlank_ok
  have hmem : (skiplist_init exBlank exCmp).mem 10 = exBlank.mem 10 :=
    hoff 10 (by decide) (by decide)
  refine ⟨by rw [hmem]; rfl, fun fuel => ?_⟩
  obtain ⟨h1, h2, _⟩ := erase_node_unlinked (skiplist_init exBlank exCmp) fuel 10
    (show ((skiplist_init exBlank exCmp).mem 10).removed = false by rw [hmem]; rfl)
    (by rw [hmem]; rfl) (by rw [hmem]; rfl)
  exact ⟨_, h1, h2⟩

end Skiplist

namespace Skiplist

/-! ## `_sl_clr_flags` store by store -/

end Skiplist

namespace Skiplist

variable {cap : Nat}

/-! ## What every store of a writer leaves alone -/

end Skiplist

namespace Skiplist

variable {cap : Nat}

/-! ## The sentinels during `skiplist_insert` -/

end Skiplist

namespace Skiplist

variable {cap : Nat}

end Skiplist

namespace Skiplist

variable {cap : Nat}

/-! ## The memory during `skiplist_erase_node` -/

end Skiplist

namespace Skiplist

variable {cap : Nat}

end Skiplist

namespace Skiplist

variable {cap : Nat}

end Skiplist

namespace Skiplist

variable {cap : Nat}

/-! ## Locks of the sentinels -/

end Skiplist

namespace Skiplist

end Skiplist

namespace Skiplist

end Skiplist

namespace Skiplist

variable {cap : Nat}

/-! ## The traces end in the returned memory -/

theorem getLast_glue {α : Type} {a b : α} {A B : List α}
    (h : (a :: A).getLast? = some b) : (a :: (A ++ B)).getLast? = (b :: B).getLast? := by
  have e1 : a :: (A ++ B) = (a :: A) ++ B := rfl
  have e2 : b :: B = [b] ++ B := rfl
  rw [e1, e2, List.getLast?_append, List.getLast?_append, h]
  rfl

theorem clr_flags_loop_trace_last (arr : Nat → Nat) (top : Nat) :
    ∀ (n : Nat) (s : SkiplistRaw) (layer : Nat),
      (s :: _sl_clr_flags_loop_trace arr top n s layer).getLast? =
        some (_sl_clr_flags_loop arr top n s layer) := by
  intro n
  induction n with
  | zero => intro s layer; rfl
  | succ n ih =>
    intro s layer
    rw [_sl_clr_flags_loop_trace, _sl_clr_flags_loop]
    by_cases hc : layer = top ∨ arr layer ≠ arr (layer + 1)
    · simp only [hc, if_true]
      rw [List.getLast?_cons_cons]
      exact ih _ _
    · simp only [hc, if_false]
      exact ih _ _

theorem clr_flags_trace_last (s : SkiplistRaw) (arr : Nat → Nat) (start top : Nat) :
    (s :: _sl_clr_flags_trace s arr start top).getLast? = some (_sl_clr_flags s arr start top) :=
  clr_flags_loop_trace_last arr top _ s start

theorem insert_link_trace_last (node : Nat) (prevs : Nat → Nat) :
    ∀ (n : Nat) (s : SkiplistRaw) (layer : Nat),
      (s :: skiplist_insert_link_trace node prevs n s layer).getLast? =
        some (skiplist_insert_link node prevs n s layer) := by
  intro n
  induction n with
  | zero => intro s layer; rfl
  | succ n ih =>
    intro s layer
    rw [skiplist_insert_link_trace, skiplist_insert_link, List.getLast?_cons_cons]
    exact ih _ _

theorem insert_finish_trace_last (s : SkiplistRaw) (node top : Nat) (prevs : Nat → Nat) :
    (s :: skiplist_insert_finish_trace s node top prevs).getLast? =
      some (skiplist_insert_finish s node top prevs) := by
  unfold skiplist_insert_finish_trace skiplist_insert_finish
  rw [getLast_glue (insert_link_trace_last node prevs (top + 1) s 0), List.getLast?_cons_cons]
  exact clr_flags_trace_last _ prevs 0 top

theorem insert_layer_trace_last (s : SkiplistRaw) (fuel node top : Nat)
    (prevs nexts : Nat → Nat) (L cur nx : Nat) (b : Bool) (s' : SkiplistRaw)
    (h : skiplist_insert_layer s fuel node top prevs nexts L cur nx = some (b, s')) :
    (s :: skiplist_insert_layer_trace s fuel node top prevs nexts L cur nx).getLast? =
      some s' := by
  unfold skiplist_insert_layer at h
  unfold skiplist_insert_layer_trace
  simp only at h ⊢
  generalize hs1 : (if (!decide (L < top ∧ prevs L = prevs (L + 1)) &&
      !(s.mem (prevs L)).beingModified) = true then storeBeingModified s (prevs L) true
      else s) = s1 at h ⊢
  have h1 : (s :: (if (!decide (L < top ∧ prevs L = prevs (L + 1)) &&
      !(s.mem (prevs L)).beingModified) = true then [s1] else [])).getLast? = some s1 := by
    rw [← hs1]
    split_ifs <;> rfl
  rw [getLast_glue h1]
  have hcons : ∀ b s', (match _sl_next (storeNext s1 node L (some (nexts L))) fuel cur L with
        | none => none
        | some r =>
          if r ≠ some nx then
            some (false, _sl_clr_flags (storeNext s1 node L (some (nexts L))) prevs L top)
          else some (true, storeNext s1 node L (some (nexts L)))) = some (b, s') →
      (s1 :: storeNext s1 node L (some (nexts L)) ::
        (match _sl_next (storeNext s1 node L (some (nexts L))) fuel cur L with
        | none => []
        | some r =>
          if r ≠ some nx then
            _sl_clr_flags_trace (storeNext s1 node L (some (nexts L))) prevs L top
          else [])).getLast? = some s' := by
    intro b s' h
    rw [List.getLast?_cons_cons]
    rcases hnx : _sl_next (storeNext s1 node L (some (nexts L))) fuel cur L with _ | r
    · rw [hnx] at h
      simp at h
    · rw [hnx] at h
      simp only at h ⊢
      by_cases hr : r ≠ some nx
      · rw [if_pos hr] at h ⊢
        simp only [Option.some.injEq, Prod.mk.injEq] at h
        rw [← h.2]
        exact clr_flags_trace_last _ prevs L top
      · rw [if_neg hr] at h ⊢
        simp only [Option.some.injEq, Prod.mk.injEq] at h
        rw [← h.2]
        rfl
  split_ifs at h ⊢ <;>
    first
    | exact hcons b s' h
    | (simp only [Option.some.injEq, Prod.mk.injEq] at h
       rw [← h.2]
       exact clr_flags_trace_last _ prevs _ top)

end Skiplist

namespace Skiplist

variable {cap : Nat}

/-- The memory trace of the search of `skiplist_insert` ends in the memory it
returns. -/
theorem insert_walk_trace_last (node t : Nat) :
    ∀ (fuel : Nat) (s : SkiplistRaw) (prevs nexts : Nat → Nat) (L cur : Nat)
      (s' : SkiplistRaw),
      skiplist_insert_walk cap node t fuel s prevs nexts L cur = some s' →
      (s :: skiplist_insert_walk_trace cap node t fuel s prevs nexts L cur).getLast? =
        some s' := by
  intro fuel
  induction fuel with
  | zero =>
    intro s prevs nexts L cur s' h
    simp [skiplist_insert_walk] at h
  | succ fuel ih =>
    intro s prevs nexts L cur s' h
    rw [skiplist_insert_walk] at h
    rw [skiplist_insert_walk_trace]
    rcases hnx : _sl_next s (fuel + 1) cur L with _ | _ | nx
    · rw [hnx] at h; simp at h
    · rw [hnx] at h; simp at h
    · rw [hnx] at h
      simp only at h ⊢
      by_cases hc : _sl_cmp s node nx > 0
      · rw [if_pos hc] at h ⊢
        by_cases hnt : nx ≠ tailAddr
        · rw [if_pos hnt] at h ⊢
          exact ih _ _ _ _ _ _ h
        · rw [if_neg hnt] at h ⊢
          by_cases hL0 : L = 0
          · rw [if_pos hL0] at h ⊢
            simp only [Option.some.injEq] at h
            rw [← h]
            rfl
          · rw [if_neg hL0] at h ⊢
            exact ih _ _ _ _ _ _ h
      · rw [if_neg hc] at h ⊢
        by_cases hLt : L ≤ t
        · rw [if_pos hLt] at h ⊢
          by_cases hLc : L < cap
          · rw [if_pos hLc] at h ⊢
            rcases hl : skiplist_insert_layer s (fuel + 1) node t (Function.update prevs L cur)
              (Function.update nexts L nx) L cur nx with _ | ⟨b, s1⟩
            · rw [hl] at h; simp at h
            · rw [hl] at h
              rw [getLast_glue (insert_layer_trace_last s (fuel + 1) node t _ _ L cur nx b s1 hl)]
              cases b with
              | false =>
                simp only at h ⊢
                exact ih _ _ _ _ _ _ h
              | true =>
                simp only at h ⊢
                by_cases hL0 : L ≠ 0
                · rw [if_pos hL0] at h ⊢
                  exact ih _ _ _ _ _ _ h
                · rw [if_neg hL0] at h ⊢
                  simp only [Option.some.injEq] at h
                  rw [← h]
                  exact insert_finish_trace_last _ _ _ _
          · rw [if_neg hLc] at h
            simp at h
        · rw [if_neg hLt] at h ⊢
          by_cases hL0 : L ≠ 0
          · rw [if_pos hL0] at h ⊢
            exact ih _ _ _ _ _ _ h
          · rw [if_neg hL0] at h ⊢
            simp only [Option.some.injEq] at h
            rw [← h]
            exact insert_finish_trace_last _ _ _ _

/-- The last entry of `skiplist_insert_trace` is the memory `skiplist_insert`
returns. -/
theorem insert_trace_last (s : SkiplistRaw) (fuel node : Nat) (rand : Nat → Nat)
    (s' : SkiplistRaw) (h : skiplist_insert cap s fuel node rand = some s') :
    (skiplist_insert_trace cap s fuel node rand).getLast? = some s' := by
  unfold skiplist_insert at h
  unfold skiplist_insert_trace
  simp only at h
  by_cases hM : (_sl_node_init s node (_sl_decide_top_layer s rand).1).maxLayer = 0
  · rw [if_pos hM] at h ⊢
    simp only [Option.some.injEq] at h
    rw [← h]
    rfl
  · rw [if_neg hM] at h ⊢
    exact insert_walk_trace_last node _ fuel _ _ _ _ _ s' h

theorem erase_unlink_trace_last (prevs nexts : Nat → Nat) :
    ∀ (n : Nat) (s : SkiplistRaw) (layer : Nat),
      (s :: skiplist_erase_node_unlink_trace prevs nexts n s layer).getLast? =
        some (skiplist_erase_node_unlink prevs nexts n s layer) := by
  intro n
  induction n with
  | zero => intro s layer; rfl
  | succ n ih =>
    intro s layer
    rw [skiplist_erase_node_unlink_trace, skiplist_erase_node_unlink, List.getLast?_cons_cons]
    exact ih _ _

theorem erase_finish_trace_last (s : SkiplistRaw) (node top : Nat) (prevs nexts : Nat → Nat) :
    (s :: skiplist_erase_node_finish_trace s node top prevs nexts).getLast? =
      some (skiplist_erase_node_finish s node top prevs nexts) := by
  unfold skiplist_erase_node_finish_trace
  rw [getLast_glue (erase_unlink_trace_last prevs nexts (top + 1) s 0), List.getLast?_cons_cons,
    getLast_glue (clr_flags_trace_last _ prevs 0 top)]
  rfl

theorem erase_layer_trace_last (s : SkiplistRaw) (fuel top : Nat)
    (prevs nexts : Nat → Nat) (L cur : Nat) (b : Bool) (s' : SkiplistRaw)
    (h : skiplist_erase_node_layer s fuel top prevs nexts L cur = some (b, s')) :
    (s :: skiplist_erase_node_layer_trace s fuel top prevs nexts L cur).getLast? = some s' := by
  unfold skiplist_erase_node_layer at h
  unfold skiplist_erase_node_layer_trace
  simp only at h ⊢
  generalize hs1 : (if (!decide (L < top ∧ prevs L = prevs (L + 1)) &&
      !(s.mem (prevs L)).beingModified) = true then storeBeingModified s (prevs L) true
      else s) = s1 at h ⊢
  have h1 : (s :: (if (!decide (L < top ∧ prevs L = prevs (L + 1)) &&
      !(s.mem (prevs L)).beingModified) = true then [s1] else [])).getLast? = some s1 := by
    rw [← hs1]
    split_ifs <;> rfl
  rw [getLast_glue h1]
  have hcons : ∀ b s', (match _sl_next s1 fuel cur L with
        | none => none
        | some r =>
          if r ≠ some (nexts L) then some (false, _sl_clr_flags s1 prevs L top)
          else some (true, s1)) = some (b, s') →
      (s1 :: (match _sl_next s1 fuel cur L with
        | none => []
        | some r =>
          if r ≠ some (nexts L) then _sl_clr_flags_trace s1 prevs L top else [])).getLast? =
        some s' := by
    intro b s' h
    rcases hnx : _sl_next s1 fuel cur L with _ | r
    · rw [hnx] at h
      simp at h
    · rw [hnx] at h
      simp only at h ⊢
      by_cases hr : r ≠ some (nexts L)
      · rw [if_pos hr] at h ⊢
        simp only [Option.some.injEq, Prod.mk.injEq] at h
        rw [← h.2]
        exact clr_flags_trace_last _ prevs L top
      · rw [if_neg hr] at h ⊢
        simp only [Option.some.injEq, Prod.mk.injEq] at h
        rw [← h.2]
        rfl
  split_ifs at h ⊢ <;>
    first
    | exact hcons b s' h
    | (simp only [Option.some.injEq, Prod.mk.injEq] at h
       rw [← h.2]
       exact clr_flags_trace_last _ prevs _ top)

end Skiplist

namespace Skiplist

variable {cap : Nat}

/-- The memory trace of the search of `skiplist_erase_node` ends in the
memory it returns. -/
theorem erase_walk_trace_last (node t : Nat) :
    ∀ (fuel : Nat) (s : SkiplistRaw) (prevs nexts : Nat → Nat) (L cur : Nat)
      (r : Int) (s' : SkiplistRaw),
      skiplist_erase_node_walk cap node t fuel s prevs nexts L cur = some (r, s') →
      (s :: skiplist_erase_node_walk_trace cap node t fuel s prevs nexts L cur).getLast? =
        some s' := by
  intro fuel
  induction fuel with
  | zero =>
    intro s prevs nexts L cur r s' h
    simp [skiplist_erase_node_walk] at h
  | succ fuel ih =>
    intro s prevs nexts L cur r s' h
    rw [skiplist_erase_node_walk] at h
    rw [skiplist_erase_node_walk_trace]
    rcases hnx : _sl_next s (fuel + 1) cur L with _ | _ | nx
    · rw [hnx] at h; simp at h
    · rw [hnx] at h; simp at h
    · rw [hnx] at h
      simp only at h ⊢
      by_cases hc : _sl_cmp s node nx > 0
      · rw [if_pos hc] at h ⊢
        by_cases hnt : nx ≠ tailAddr
        · rw [if_pos hnt] at h ⊢
          exact ih _ _ _ _ _ _ _ h
        · rw [if_neg hnt] at h ⊢
          by_cases hL0 : L = 0
          · rw [if_pos hL0] at h ⊢
            simp only [Option.some.injEq, Prod.mk.injEq] at h
            rw [← h.2]
            exact erase_finish_trace_last _ _ _ _ _
          · rw [if_neg hL0] at h ⊢
            exact ih _ _ _ _ _ _ _ h
      · rw [if_neg hc] at h ⊢
        by_cases hLt : L ≤ t
        · rw [if_pos hLt] at h ⊢
          by_cases hLc : L < cap
          · rw [if_pos hLc] at h ⊢
            rcases hl : skiplist_erase_node_layer s (fuel + 1) t (Function.update prevs L cur)
              (Function.update nexts L nx) L cur with _ | ⟨b, s1⟩
            · rw [hl] at h; simp at h
            · rw [hl] at h
              rw [getLast_glue (erase_layer_trace_last s (fuel + 1) t _ _ L cur b s1 hl)]
              cases b with
              | false =>
                simp only at h ⊢
                by_cases hfl : (!(s1.mem node).isFullyLinked) = true
                · rw [if_pos hfl] at h ⊢
                  simp only [Option.some.injEq, Prod.mk.injEq] at h
                  rw [← h.2]
                  rfl
                · rw [if_neg hfl] at h ⊢
                  exact ih _ _ _ _ _ _ _ h
              | true =>
                simp only at h ⊢
                by_cases hL0 : L ≠ 0
                · rw [if_pos hL0] at h ⊢
                  exact ih _ _ _ _ _ _ _ h
                · rw [if_neg hL0] at h ⊢
                  simp only [Option.some.injEq, Prod.mk.injEq] at h
                  rw [← h.2]
                  exact erase_finish_trace_last _ _ _ _ _
          · rw [if_neg hLc] at h
            simp at h
        · rw [if_neg hLt] at h ⊢
          by_cases hL0 : L ≠ 0
          · rw [if_pos hL0] at h ⊢
            exact ih _ _ _ _ _ _ _ h
          · rw [if_neg hL0] at h ⊢
            simp only [Option.some.injEq, Prod.mk.injEq] at h
            rw [← h.2]
            exact erase_finish_trace_last _ _ _ _ _

/-- The memory `skiplist_erase_node` returns is the last entry of
`skiplist_erase_node_trace`, or the memory it started in when it made no
store. -/
theorem erase_node_trace_last (s : SkiplistRaw) (fuel node : Nat) (r : Int)
    (s' : SkiplistRaw) (h : skiplist_erase_node cap s fuel node = some (r, s')) :
    (s :: skiplist_erase_node_trace cap s fuel node).getLast? = some s' := by
  unfold skiplist_erase_node at h
  unfold skiplist_erase_node_trace
  simp only at h
  by_cases hr : (s.mem node).removed = true
  · rw [if_pos hr] at h ⊢
    simp only [Option.some.injEq, Prod.mk.injEq] at h
    rw [← h.2]
    rfl
  · rw [if_neg hr] at h ⊢
    by_cases hb : (s.mem node).beingModified = true
    · rw [if_pos hb] at h ⊢
      simp only [Option.some.injEq, Prod.mk.injEq] at h
      rw [← h.2]
      rfl
    · rw [if_neg hb] at h ⊢
      rw [List.getLast?_cons_cons, List.getLast?_cons_cons]
      by_cases hfl : (!((storeRemoved (storeBeingModified s node true) node true).mem
          node).isFullyLinked) = true
      · rw [if_pos hfl] at h ⊢
        simp only [Option.some.injEq, Prod.mk.injEq] at h
        rw [← h.2]
        rfl
      · rw [if_neg hfl] at h ⊢
        by_cases hM : (storeRemoved (storeBeingModified s node true) node true).maxLayer = 0
        · rw [if_pos hM] at h ⊢
          simp only [Option.some.injEq, Prod.mk.injEq] at h
          rw [← h.2]
          exact erase_finish_trace_last _ _ _ _ _
        · rw [if_neg hM] at h ⊢
          exact erase_walk_trace_last node _ fuel _ _ _ _ _ r s' h

end Skiplist

namespace Skiplist

variable {cap : Nat}

/-! ## The writers under the weak compare-exchange -/

theorem ATM_CAS_ok (spur : List Bool) (s : SkiplistRaw) (a : Nat)
    (hb : (s.mem a).beingModified = false) (h : spur.head? ≠ some true) :
    ATM_CAS spur s a = (true, storeBeingModified s a true, spur.tail) := by
  unfold ATM_CAS
  rw [if_pos ⟨hb, h⟩]

theorem ATM_CAS_spurious (sp : List Bool) (s : SkiplistRaw) (a : Nat) :
    ATM_CAS (true :: sp) s a = (false, s, sp) := by
  unfold ATM_CAS
  rw [if_neg (by simp)]
  rfl

theorem ATM_CAS_locked (spur : List Bool) (s : SkiplistRaw) (a : Nat)
    (hb : (s.mem a).beingModified = true) :
    ATM_CAS spur s a = (false, s, spur.tail) := by
  unfold ATM_CAS
  rw [if_neg (by simp [hb])]

/-- When the compare-exchange does not fail spuriously the block behaves as
`skiplist_erase_node_layer` says. -/
theorem erase_layer_weak_eq (spur : List Bool) (s : SkiplistRaw) (fuel t : Nat)
    (prevs nexts : Nat → Nat) (L cur : Nat)
    (h : (L < t ∧ prevs L = prevs (L + 1)) ∨ spur.head? ≠ some true) :
    skiplist_erase_node_layer_weak spur s fuel t prevs nexts L cur =
      (skiplist_erase_node_layer s fuel t prevs nexts L cur).map
        (fun r => (r.1, r.2, if L < t ∧ prevs L = prevs (L + 1) then spur else spur.tail)) := by
  have hmatch : ∀ (s1 : SkiplistRaw) (sp : List Bool),
      (match _sl_next s1 fuel cur L with
        | none => none
        | some r =>
          if r ≠ some (nexts L) then some (false, _sl_clr_flags s1 prevs L t, sp)
          else some (true, s1, sp)) =
      Option.map (fun r => (r.1, r.2, sp))
        (match _sl_next s1 fuel cur L with
        | none => none
        | some r =>
          if r ≠ some (nexts L) then some (false, _sl_clr_flags s1 prevs L t)
          else some (true, s1)) := by
    intro s1 sp
    rcases _sl_next s1 fuel cur L with _ | r
    · rfl
    · by_cases hc : r = some (nexts L) <;> simp [hc]
  unfold skiplist_erase_node_layer_weak skiplist_erase_node_layer
  by_cases hdup : L < t ∧ prevs L = prevs (L + 1)
  · simp only [hdup, and_self, decide_True, if_true, Bool.not_true, Bool.false_and,
      Bool.true_or, Bool.false_eq_true, if_false]
    split_ifs <;> first | rfl | exact hmatch _ _
  · rcases hb : (s.mem (prevs L)).beingModified with _ | _
    · rw [ATM_CAS_ok spur s _ hb (h.resolve_left hdup)]
      simp only [hdup, decide_False, Bool.false_eq_true, if_false, Bool.not_false,
        Bool.and_self, if_true, Bool.false_or, hb]
      split_ifs <;> first | rfl | exact hmatch _ _
    · rw [ATM_CAS_locked spur s _ hb]
      simp only [hdup, decide_False, Bool.false_eq_true, if_false, Bool.not_false,
        Bool.and_self, if_true, Bool.false_or, hb, Bool.not_true, Bool.and_false]
      rfl

/-- A spurious failure of the compare-exchange releases the locks of the
layers above and sends the code to `erase_node_retry`. -/
theorem erase_layer_weak_fail (sp : List Bool) (s : SkiplistRaw) (fuel t : Nat)
    (prevs nexts : Nat → Nat) (L cur : Nat) (hdup : ¬ (L < t ∧ prevs L = prevs (L + 1))) :
    skiplist_erase_node_layer_weak (true :: sp) s fuel t prevs nexts L cur =
      some (false, _sl_clr_flags s prevs (L + 1) t, sp) := by
  unfold skiplist_erase_node_layer_weak
  rw [ATM_CAS_spurious]
  simp [hdup]

end Skiplist

namespace Skiplist

variable {cap : Nat}

theorem count_true_tail {spur : List Bool} (h : spur.head? ≠ some true) :
    spur.tail.count true = spur.count true := by
  rcases spur with _ | ⟨b, sp⟩
  · rfl
  · cases b
    · simp
    · simp at h

theorem sameButLocks_valid {s s' : SkiplistRaw} (h : SameButLocks s s') (a : Nat) :
    _sl_valid_node s' a = _sl_valid_node s a := by
  obtain ⟨_, _, h3, h4⟩ := h.2.2.2 a
  simp [_sl_valid_node, h3, h4]

/-- The jump to the retry label of a writer whose compare-exchange on
`prevs[L]` failed spuriously: `_sl_clr_flags` releases the locks of the
layers `L + 1 .. t`, and the search starts again from the top on a list in
which no predecessor is locked. -/
theorem walkInv_retry {s : SkiplistRaw} {ch : Nat → List Nat} {node t : Nat}
    {prevs nexts : Nat → Nat} {L : Nat} (prevs' nexts' : Nat → Nat)
    (inv : WalkInv s ch node t prevs nexts (L + 1)) (hLt : L ≤ t)
    (hp' : ∀ j, L + 1 ≤ j → prevs' j = prevs j) :
    WalkInv (_sl_clr_flags s prevs' (L + 1) t) ch node t prevs' nexts'
      ((_sl_clr_flags s prevs' (L + 1) t).maxLayer - 1 + 1) ∧
    SameButLocks s (_sl_clr_flags s prevs' (L + 1) t) := by
  obtain ⟨hs, hb⟩ := clr_flags_loop_spec prevs' t (t + 1 - (L + 1)) s (L + 1) (by omega)
  have hcl : _sl_clr_flags s prevs' (L + 1) t =
      _sl_clr_flags_loop prevs' t (t + 1 - (L + 1)) s (L + 1) := rfl
  rw [hcl]
  generalize _sl_clr_flags_loop prevs' t (t + 1 - (L + 1)) s (L + 1) = sr at hs hb
  refine ⟨?_, hs⟩
  have hc : sr.cmpFunc = s.cmpFunc := hs.1
  have hm : sr.maxLayer = s.maxLayer := hs.2.1
  have hv := sameButLocks_valid hs
  have hcmp := sl_cmp_congr hc
  have ht := inv.t_lt
  have hk : sr.maxLayer - 1 + 1 = s.maxLayer := by rw [hm]; omega
  rw [hk]
  refine ⟨wf_transport inv.wf hc hm hv (fun L' _ a _ => loadNext_congr (hs.2.2.2 a).1 L'),
    by rw [hm]; exact ht, inv.node_ne_head, inv.node_ne_tail, ?_, ?_, ?_, ?_, ?_, ?_⟩
  · unfold Live; rw [hv]; exact inv.node_dead
  · intro L' hL' x hx hne
    unfold Live; rw [hv]
    exact inv.live L' (hm ▸ hL') x hx hne
  · intro a ha hne
    constructor
    · intro hset
      exfalso
      by_cases hex : ∃ j, L + 1 ≤ j ∧ j ≤ t ∧ prevs' j = a
      · rw [(hb a).1 hex] at hset
        cases hset
      · rw [(hb a).2 hex] at hset
        obtain ⟨j, h1, h2, h3⟩ := (inv.locks a ha hne).1 hset
        exact hex ⟨j, h1, h2, by rw [hp' j h1]; exact h3⟩
    · rintro ⟨j, h1, h2, _⟩
      omega
  · intro j h1 h2; omega
  · intro j h1 h2; omega
  · intro x hx hne
    rw [hcmp]
    exact inv.fresh x hx hne

/-- Under the weak compare-exchange the search of `skiplist_erase_node`
 reaches the unlinking code after one more pass for each spurious failure:
the number of jumps to `erase_node_retry` is the number of failures used
up. -/
theorem erase_walk_weak_spec {ch : Nat → List Nat} {node t : Nat} :
    ∀ (fuel : Nat) (spur : List Bool) (s : SkiplistRaw) (prevs nexts : Nat → Nat) (L cur : Nat)
      (rest : List Nat),
      WalkInv s ch node t prevs nexts (L + 1) → L < s.maxLayer → s.maxLayer ≤ cap →
      Pos s ch node L cur rest →
      (∀ j, L + 1 ≤ j → j ≤ t → prevs j = cur ∨ _sl_cmp s (prevs j) cur < 0) →
      (s.mem node).isFullyLinked = true →
      rest.length + L * (chainBound ch s.maxLayer + 1) + spur.length * searchFuel s ch ≤ fuel →
      ∃ s' prevs' nexts' k sp',
        skiplist_erase_node_walk_weak cap node t fuel spur s prevs nexts L cur =
          some (0, skiplist_erase_node_finish s' node t prevs' nexts', k, sp') ∧
        WalkInv s' ch node t prevs' nexts' 0 ∧ SameButLocks s s' ∧
        k + sp'.count true = spur.count true ∧ sp'.length ≤ spur.length ∧
        (t ≤ L → spur ≠ [] → sp'.length < spur.length) := by
  intro fuel
  induction fuel with
  | zero =>
    intro spur s prevs nexts L cur rest _ _ _ hp _ _ hf
    have := List.length_pos_of_mem (pos_tail_mem hp)
    omega
  | succ fuel ih =>
    intro spur s prevs nexts L cur rest inv hL hcap hp hmono hfl hf
    have wf := inv.wf
    have hLc : L < cap := lt_of_lt_of_le hL hcap
    obtain ⟨dead, nx, rest2, rfl, hd, hn, hnext⟩ :=
      pos_step wf hL hp (show (rest.length ≤ fuel + 1) by omega)
    rw [skiplist_erase_node_walk_weak, hnext]
    simp only [List.length_append, List.length_cons] at hf
    by_cases hc : 0 < _sl_cmp s node nx
    · obtain ⟨hnt, hp'⟩ := pos_advance hp hn hc
      simp only [gt_iff_lt, hc, if_true, ne_eq, hnt, not_false_eq_true]
      refine ih spur s prevs nexts L nx rest2 inv hL hcap hp' ?_ hfl (by omega)
      intro j h1 h2
      have hlt : _sl_cmp s cur nx < 0 := pos_cur_lt_next wf hL hp nx (by simp)
      rcases hmono j h1 h2 with h | h
      · right; rw [h]; exact hlt
      · right; exact sl_cmp_lt_trans wf.lawful h hlt
    · simp only [gt_iff_lt, hc, if_false]
      by_cases hLt : L ≤ t
      · have hu0 : Function.update prevs L cur L = cur := Function.update_same _ _ _
        have hu1 : Function.update prevs L cur (L + 1) = prevs (L + 1) :=
          Function.update_noteq (by omega) _ _
        simp only [hLt, hLc, if_true]
        by_cases hok : (L < t ∧ Function.update prevs L cur L =
            Function.update prevs L cur (L + 1)) ∨ spur.head? ≠ some true
        · -- the layer is locked and validated
          obtain ⟨s', hlayer, inv', hsame⟩ :=
            erase_layer_ok inv hLt hp hd hn hc hmono (show dead.length ≤ fuel + 1 by omega)
          rw [erase_layer_weak_eq spur s (fuel + 1) t _ _ L cur hok, hlayer]
          simp only [Option.map]
          generalize hsp1 : (if L < t ∧ Function.update prevs L cur L =
            Function.update prevs L cur (L + 1) then spur else spur.tail) = sp1
          have hlen1 : sp1.length ≤ spur.length := by
            rw [← hsp1]; split_ifs
            · exact le_refl _
            · simp
          have hcnt1 : sp1.count true = spur.count true := by
            rw [← hsp1]; split_ifs with hd'
            · rfl
            · exact count_true_tail (hok.resolve_left hd')
          have hlt1 : t ≤ L → spur ≠ [] → sp1.length < spur.length := by
            intro htL hne
            rw [← hsp1, if_neg (by omega), List.length_tail]
            have := List.length_pos.2 hne
            omega
          have hm : s'.maxLayer = s.maxLayer := hsame.2.1
          have hsf : searchFuel s' ch = searchFuel s ch := by unfold searchFuel; rw [hm]
          have hmul : sp1.length * searchFuel s ch ≤ spur.length * searchFuel s ch :=
            Nat.mul_le_mul_right _ hlen1
          cases L with
          | zero =>
            simp only [ne_eq, not_true_eq_false, if_false]
            exact ⟨s', _, _, 0, sp1, rfl, inv', hsame, by rw [hcnt1]; omega, hlen1, hlt1⟩
          | succ L =>
            simp only [ne_eq, Nat.add_one_ne_zero, not_false_eq_true, if_true,
              Nat.add_sub_cancel]
            have hp2 := walkInv_sameButLocks_pos hsame hp
            obtain ⟨rest', hp', hlen⟩ := pos_descend inv'.wf (by rw [hm]; exact hL) hp2
            have hB := chainBound_le ch s.maxLayer L (by omega)
            obtain ⟨s'', prevs'', nexts'', k, sp', hres, inv'', hsame', hcnt, hle', _⟩ :=
              ih sp1 s' _ _ L cur rest' inv' (by rw [hm]; omega) (by rw [hm]; exact hcap) hp' (by
                intro j h1 h2
                rcases Nat.eq_or_lt_of_le h1 with h | h
                · left; rw [← h]; simp
                · rw [Function.update_noteq (by omega)]
                  rw [sl_cmp_congr hsame.1]
                  exact hmono j h h2) (by rw [(hsame.2.2.2 node).2.2.1]; exact hfl) (by
                rw [hm, hsf]
                have : (L + 1) * (chainBound ch s.maxLayer + 1) =
                  L * (chainBound ch s.maxLayer + 1) + (chainBound ch s.maxLayer + 1) := by
                  ring
                omega)
            exact ⟨s'', prevs'', nexts'', k, sp', hres, inv'', sameButLocks_trans hsame hsame',
              by rw [hcnt, hcnt1], le_trans hle' hlen1,
              fun htL hne => lt_of_le_of_lt hle' (hlt1 (by omega) hne)⟩
        · -- the compare-exchange fails spuriously
          have hdup : ¬ (L < t ∧ Function.update prevs L cur L =
              Function.update prevs L cur (L + 1)) := fun h => hok (Or.inl h)
          have hhead : spur.head? = some true := by
            by_contra h
            exact hok (Or.inr h)
          obtain ⟨sp, rfl⟩ : ∃ sp, spur = true :: sp := by
            rcases spur with _ | ⟨b, sp⟩
            · simp at hhead
            · simp only [List.head?_cons, Option.some.injEq] at hhead
              exact ⟨sp, by rw [hhead]⟩
          rw [erase_layer_weak_fail sp s (fuel + 1) t _ _ L cur hdup]
          obtain ⟨invr, hsame⟩ := walkInv_retry (Function.update prevs L cur)
            (Function.update nexts L nx) inv hLt
            (fun j hj => Function.update_noteq (by omega) _ _)
          generalize _sl_clr_flags s (Function.update prevs L cur) (L + 1) t = sr at invr hsame
          have hm : sr.maxLayer = s.maxLayer := hsame.2.1
          have hsf : searchFuel sr ch = searchFuel s ch := by unfold searchFuel; rw [hm]
          have hflr : (sr.mem node).isFullyLinked = true := by
            rw [(hsame.2.2.2 node).2.2.1]; exact hfl
          simp only [hflr, Bool.not_true, Bool.false_eq_true, if_false]
          have hge := @searchFuel_ge s ch wf.maxLayer_pos
          simp only [List.length_cons] at hf
          obtain ⟨s'', prevs'', nexts'', k, sp', hres, inv'', hsame', hcnt, hle', _⟩ :=
            ih sp sr _ _ (sr.maxLayer - 1) headAddr (ch (sr.maxLayer - 1) ++ [tailAddr]) invr
              (by have := wf.maxLayer_pos; rw [hm]; omega) (by rw [hm]; exact hcap)
              (pos_head sr ch node _) (by intro j h1 h2; have := inv.t_lt; rw [hm] at h1; omega)
              hflr (by
                rw [hm, hsf]
                have : (sp.length + 1) * searchFuel s ch =
                  sp.length * searchFuel s ch + searchFuel s ch := by ring
                omega)
          rw [hres]
          refine ⟨s'', prevs'', nexts'', k + 1, sp', rfl, inv'', sameButLocks_trans hsame hsame',
            ?_, ?_, ?_⟩
          · simp only [List.count_cons_self]
            omega
          · simp only [List.length_cons]
            omega
          · intro _ _
            simp only [List.length_cons]
            omega
      · simp only [hLt, if_false]
        cases L with
        | zero => omega
        | succ L =>
          simp only [ne_eq, Nat.add_one_ne_zero, not_false_eq_true, if_true,
            Nat.add_sub_cancel]
          obtain ⟨rest', hp', hlen⟩ := pos_descend wf hL hp
          have hB := chainBound_le ch s.maxLayer L (by omega)
          obtain ⟨s'', prevs'', nexts'', k, sp', hres, inv'', hsame', hcnt, hle', hlt'⟩ :=
            ih spur s prevs nexts L cur rest' (walkInv_lower inv (by omega)) (by omega) hcap
              hp' (by intro j h1 h2; omega) hfl (by
                have : (L + 1) * (chainBound ch s.maxLayer + 1) =
                  L * (chainBound ch s.maxLayer + 1) + (chainBound ch s.maxLayer + 1) := by
                  ring
                omega)
          exact ⟨s'', prevs'', nexts'', k, sp', hres, inv'', hsame', hcnt, hle',
            fun _ hne => hlt' (by omega) hne⟩

end Skiplist

namespace Skiplist

variable {cap : Nat}

/-- Erasing a node of a sequentially well-formed list under the weak
compare-exchange: when the exchange on the node itself does not fail
spuriously the call returns 0 after one more pass for each spurious failure
on a predecessor, and leaves a sequentially well-formed list without the
node. -/
theorem erase_node_weak_spec {s : SkiplistRaw} {ch : Nat → List Nat} (swf : SeqWellFormed s ch)
    (hcap : s.maxLayer ≤ cap) {node : Nat} (hn : node ∈ ch 0) (spur : List Bool)
    (hhead : spur.head? ≠ some true) {fuel : Nat}
    (hf : (spur.length + 1) * searchFuel s ch ≤ fuel) :
    ∃ s' k sp', skiplist_erase_node_weak cap spur s fuel node = some (0, s', k, sp') ∧
      k + sp'.count true = spur.count true ∧
      (spur.tail ≠ [] → sp'.length < spur.tail.length) ∧
      SeqWellFormed s' (fun L => (ch L).filter (fun x => decide (x ≠ node))) ∧
      (s'.mem node).removed = true ∧ (s'.mem node).isFullyLinked = false ∧
      (s'.mem node).beingModified = false ∧
      s'.cmpFunc = s.cmpFunc ∧ s'.maxLayer = s.maxLayer ∧ s'.fanout = s.fanout := by
  have wf := swf.wf
  have hM : 0 < s.maxLayer := wf.maxLayer_pos
  have hlive := swf.live 0 hM node hn
  have hunl := swf.unlocked node (List.mem_cons_of_mem _ hn)
  have inv0 := erase_start_inv swf hn
  unfold Live _sl_valid_node at hlive
  have hrem : (s.mem node).removed = false := by
    cases h : (s.mem node).removed <;> simp_all
  have hfl : (s.mem node).isFullyLinked = true := by
    cases h : (s.mem node).isFullyLinked <;> simp_all
  generalize hs2 : storeRemoved (storeBeingModified s node true) node true = s2 at inv0
  have hmem2 : ∀ a, (s2.mem a).next = (s.mem a).next ∧
      (s2.mem a).topLayer = (s.mem a).topLayer ∧
      (s2.mem a).isFullyLinked = (s.mem a).isFullyLinked ∧
      (s2.mem a).removed = (if a = node then true else (s.mem a).removed) := by
    intro a
    obtain ⟨r1, r2, _, r4, r5⟩ := storeRemoved_mem (storeBeingModified s node true) node a true
    obtain ⟨b1, b2, b3, b4⟩ := storeBM_shape s node a true
    rw [hs2] at r1 r2 r4 r5
    exact ⟨r1.trans b1, r2.trans b2, r4.trans b3, by rw [r5, b4]⟩
  have hc2 : s2.cmpFunc = s.cmpFunc := by rw [← hs2]; rfl
  have hm2 : s2.maxLayer = s.maxLayer := by rw [← hs2]; rfl
  have hf2 : s2.fanout = s.fanout := by rw [← hs2]; rfl
  have hsf2 : searchFuel s2 ch = searchFuel s ch := by unfold searchFuel; rw [hm2]
  have hge := @searchFuel_ge s ch wf.maxLayer_pos
  have hlt : spur.tail.length ≤ spur.length := by simp
  have hmul : spur.tail.length * searchFuel s ch ≤ spur.length * searchFuel s ch :=
    Nat.mul_le_mul_right _ hlt
  obtain ⟨s3, prevs, nexts, k, sp', hwalk, inv3, hsame, hcnt, _, hcons⟩ :=
    erase_walk_weak_spec fuel spur.tail s2 (fun _ => 0) (fun _ => 0) (s.maxLayer - 1) headAddr
      (ch (s.maxLayer - 1) ++ [tailAddr]) inv0 (by rw [hm2]; omega)
      (show s2.maxLayer ≤ cap by rw [hm2]; exact hcap)
      (pos_head s2 ch node _) (by intro j h1 h2; have := inv0.t_lt; rw [hm2] at this; omega)
      (by rw [(hmem2 node).2.2.1]; exact hfl)
      (by
        rw [hm2, hsf2]
        have : (spur.length + 1) * searchFuel s ch =
          spur.length * searchFuel s ch + searchFuel s ch := by ring
        omega)
  obtain ⟨hc3, hm3, hf3, hmem3⟩ := hsame
  have hfin := erase_finish_spec inv3 (by rw [hm3, hm2]; exact swf.maxLayer_le)
    (by
      intro L hL x hx
      rw [hm3, hm2] at hL ⊢
      rw [(hmem3 x).2.1, (hmem2 x).2.1]
      exact swf.top L hL x hx)
    (by
      intro a
      rw [(hmem3 a).1, (hmem3 a).2.1, (hmem2 a).1, (hmem2 a).2.1]
      exact swf.arr a)
    (by rw [(hmem3 node).2.1, (hmem2 node).2.1])
  obtain ⟨gc, gm, gf, gmem⟩ := erase_finish_mem s3 node (s.mem node).topLayer prevs nexts
  refine ⟨_, k, sp', ?_, by rw [hcnt]; exact count_true_tail hhead,
    hcons (by have := inv0.t_lt; rw [hm2] at this; omega), hfin, ?_, ?_, ?_, ?_, ?_, ?_⟩
  · unfold skiplist_erase_node_weak
    have h1 : ((storeRemoved (storeBeingModified s node true) node true).mem node).isFullyLinked
        = true := by rw [hs2, (hmem2 node).2.2.1]; exact hfl
    have h2 : ¬ (storeRemoved (storeBeingModified s node true) node true).maxLayer = 0 := by
      rw [hs2, hm2]; omega
    simp only [hrem, ATM_CAS_ok spur s node hunl hhead, h1, h2, Bool.false_eq_true, if_false,
      Bool.not_true]
    rw [hs2, hm2]
    exact hwalk
  · rw [(gmem node).2.2.1, (hmem3 node).2.2.2, (hmem2 node).2.2.2, if_pos rfl]
  · rw [(gmem node).2.2.2.1, if_pos rfl]
  · exact (gmem node).2.2.2.2.2.1 rfl
  · rw [gc, hc3, hc2]
  · rw [gm, hm3, hm2]
  · rw [gf, hf3, hf2]

/-- The statuses `skiplist_erase_node` returns at entry under the weak
compare-exchange: -1 on a tombstoned node; -2 when the exchange on the node
fails, because the flag is set or spuriously; -3 when the node is not fully
linked.  The memory is as the source leaves it. -/
theorem erase_node_weak_entry (spur : List Bool) (s : SkiplistRaw) (fuel node : Nat) :
    ((s.mem node).removed = true →
      skiplist_erase_node_weak cap spur s fuel node = some (-1, s, 0, spur)) ∧
    ((s.mem node).removed = false →
      ((s.mem node).beingModified = true ∨ spur.head? = some true) →
      skiplist_erase_node_weak cap spur s fuel node = some (-2, s, 0, spur.tail)) ∧
    ((s.mem node).removed = false → (s.mem node).beingModified = false →
      spur.head? ≠ some true → (s.mem node).isFullyLinked = false →
      skiplist_erase_node_weak cap spur s fuel node =
        some (-3, storeRemoved (storeBeingModified s node true) node true, 0, spur.tail)) := by
  refine ⟨?_, ?_, ?_⟩
  · intro h
    simp [skiplist_erase_node_weak, h]
  · intro h1 h2
    have hcas : ATM_CAS spur s node = (false, s, spur.tail) := by
      unfold ATM_CAS
      rw [if_neg]
      rintro ⟨ha, hb⟩
      rcases h2 with h2 | h2
      · rw [ha] at h2; cases h2
      · exact hb h2
    simp [skiplist_erase_node_weak, h1, hcas]
  · intro h1 h2 h3 h4
    have hfl : ((storeRemoved (storeBeingModified s node true) node true).mem
        node).isFullyLinked = false := by
      rw [(storeRemoved_mem _ node node true).2.2.2.1, (storeBM_shape s node node true).2.2.1]
      exact h4
    simp [skiplist_erase_node_weak, h1, ATM_CAS_ok spur s node h2 h3, hfl]

theorem erase_walk_weak_codes (node t : Nat) :
    ∀ (fuel : Nat) (spur : List Bool) (s : SkiplistRaw) (prevs nexts : Nat → Nat) (L cur : Nat)
      (r : Int) (x : SkiplistRaw × Nat × List Bool),
      skiplist_erase_node_walk_weak cap node t fuel spur s prevs nexts L cur = some (r, x) →
      r = 0 ∨ r = -3 := by
  intro fuel
  induction fuel with
  | zero =>
    intro spur s prevs nexts L cur r x h
    simp [skiplist_erase_node_walk_weak] at h
  | succ fuel ih =>
    intro spur s prevs nexts L cur r x h
    rw [skiplist_erase_node_walk_weak] at h
    rcases hnx : _sl_next s (fuel + 1) cur L with _ | _ | nx
    · simp [hnx] at h
    · simp [hnx] at h
    · simp only [hnx] at h
      by_cases h1 : _sl_cmp s node nx > 0
      · simp only [h1, if_true] at h
        split_ifs at h
        · exact ih _ _ _ _ _ _ _ _ h
        · simp only [Option.some.injEq, Prod.mk.injEq] at h
          exact Or.inl h.1.symm
        · exact ih _ _ _ _ _ _ _ _ h
      · simp only [h1, if_false] at h
        by_cases h4 : L ≤ t
        · simp only [h4, if_true] at h
          rcases hl : skiplist_erase_node_layer_weak spur s (fuel + 1) t
            (Function.update prevs L cur) (Function.update nexts L nx) L cur
            with _ | ⟨b, s2, sp2⟩
          · simp [hl] at h
          · simp only [hl] at h
            cases b
            · simp only at h
              split_ifs at h
              · simp only [Option.some.injEq, Prod.mk.injEq] at h
                exact Or.inr h.1.symm
              · rcases hw : skiplist_erase_node_walk_weak cap node t fuel sp2 s2
                  (Function.update prevs L cur) (Function.update nexts L nx) (s2.maxLayer - 1)
                  headAddr with _ | ⟨r', x'⟩
                · simp [hw] at h
                · simp only [hw, Option.map, Option.some.injEq, Prod.mk.injEq] at h
                  rw [← h.1]
                  exact ih _ _ _ _ _ _ _ _ hw
            · simp only at h
              split_ifs at h
              · exact ih _ _ _ _ _ _ _ _ h
              · simp only [Option.some.injEq, Prod.mk.injEq] at h
                exact Or.inl h.1.symm
        · simp only [h4, if_false] at h
          split_ifs at h
          · exact ih _ _ _ _ _ _ _ _ h
          · simp only [Option.some.injEq, Prod.mk.injEq] at h
            exact Or.inl h.1.symm

/-- Whatever the memory, the fuel and the outcomes of the compare-exchange,
a status returned by `skiplist_erase_node` is one of 0, -1, -2, -3. -/
theorem erase_node_weak_codes (spur : List Bool) (s : SkiplistRaw) (fuel node : Nat) (r : Int)
    (x : SkiplistRaw × Nat × List Bool)
    (h : skiplist_erase_node_weak cap spur s fuel node = some (r, x)) :
    r = 0 ∨ r = -1 ∨ r = -2 ∨ r = -3 := by
  unfold skiplist_erase_node_weak at h
  simp only at h
  split_ifs at h
  · simp only [Option.some.injEq, Prod.mk.injEq] at h
    exact Or.inr (Or.inl h.1.symm)
  · simp only [Option.some.injEq, Prod.mk.injEq] at h
    exact Or.inr (Or.inr (Or.inl h.1.symm))
  · simp only [Option.some.injEq, Prod.mk.injEq] at h
    exact Or.inr (Or.inr (Or.inr h.1.symm))
  · simp only [Option.some.injEq, Prod.mk.injEq] at h
    exact Or.inl h.1.symm
  · rcases erase_walk_weak_codes _ _ _ _ _ _ _ _ _ _ _ h with h' | h'
    · exact Or.inl h'
    · exact Or.inr (Or.inr (Or.inr h'))

end Skiplist

namespace Skiplist

variable {cap : Nat}

/-- When the compare-exchange does not fail spuriously the block behaves as
`skiplist_insert_layer` says. -/
theorem insert_layer_weak_eq (spur : List Bool) (s : SkiplistRaw) (fuel node t : Nat)
    (prevs nexts : Nat → Nat) (L cur nx : Nat)
    (h : (L < t ∧ prevs L = prevs (L + 1)) ∨ spur.head? ≠ some true) :
    skiplist_insert_layer_weak spur s fuel node t prevs nexts L cur nx =
      (skiplist_insert_layer s fuel node t prevs nexts L cur nx).map
        (fun r => (r.1, r.2, if L < t ∧ prevs L = prevs (L + 1) then spur else spur.tail)) := by
  have hmatch : ∀ (s2 : SkiplistRaw) (sp : List Bool),
      (match _sl_next s2 fuel cur L with
        | none => none
        | some r =>
          if r ≠ some nx then some (false, _sl_clr_flags s2 prevs L t, sp)
          else some (true, s2, sp)) =
      Option.map (fun r => (r.1, r.2, sp))
        (match _sl_next s2 fuel cur L with
        | none => none
        | some r =>
          if r ≠ some nx then some (false, _sl_clr_flags s2 prevs L t)
          else some (true, s2)) := by
    intro s2 sp
    rcases _sl_next s2 fuel cur L with _ | r
    · rfl
    · by_cases hc : r = some nx <;> simp [hc]
  unfold skiplist_insert_layer_weak skiplist_insert_layer
  by_cases hdup : L < t ∧ prevs L = prevs (L + 1)
  · simp only [hdup, and_self, decide_True, if_true, Bool.not_true, Bool.false_and,
      Bool.true_or, Bool.false_eq_true, if_false]
    split_ifs <;> first | rfl | exact hmatch _ _
  · rcases hb : (s.mem (prevs L)).beingModified with _ | _
    · rw [ATM_CAS_ok spur s _ hb (h.resolve_left hdup)]
      simp only [hdup, decide_False, Bool.false_eq_true, if_false, Bool.not_false,
        Bool.and_self, if_true, Bool.false_or, hb]
      split_ifs <;> first | rfl | exact hmatch _ _
    · rw [ATM_CAS_locked spur s _ hb]
      simp only [hdup, decide_False, Bool.false_eq_true, if_false, Bool.not_false,
        Bool.and_self, if_true, Bool.false_or, hb, Bool.not_true, Bool.and_false]
      rfl

end Skiplist

namespace Skiplist

variable {cap : Nat}

end Skiplist

namespace Skiplist

variable {cap : Nat}

/-! ## The run without spurious failure -/

/-- With no spurious failure the search of `skiplist_erase_node` under the
weak compare-exchange is `skiplist_erase_node_walk`. -/
theorem erase_walk_weak_nil (node t : Nat) :
    ∀ (fuel : Nat) (s : SkiplistRaw) (prevs nexts : Nat → Nat) (L cur : Nat),
      (skiplist_erase_node_walk_weak cap node t fuel [] s prevs nexts L cur).map
          (fun r => (r.1, r.2.1)) =
        skiplist_erase_node_walk cap node t fuel s prevs nexts L cur := by
  intro fuel
  induction fuel with
  | zero => intro s prevs nexts L cur; rfl
  | succ fuel ih =>
    intro s prevs nexts L cur
    rw [skiplist_erase_node_walk_weak, skiplist_erase_node_walk]
    rcases _sl_next s (fuel + 1) cur L with _ | _ | nx
    · rfl
    · rfl
    · dsimp only
      by_cases h1 : _sl_cmp s node nx > 0
      · simp only [h1, if_true]
        split_ifs
        · exact ih _ _ _ _ _
        · rfl
        · exact ih _ _ _ _ _
      · simp only [h1, if_false]
        by_cases h4 : L ≤ t
        · simp only [h4, if_true]
          by_cases h5 : L < cap
          · simp only [h5, if_true]
            rw [erase_layer_weak_eq [] s (fuel + 1) t _ _ L cur (Or.inr (by simp))]
            rcases skiplist_erase_node_layer s (fuel + 1) t (Function.update prevs L cur)
              (Function.update nexts L nx) L cur with _ | ⟨b, s2⟩
            · rfl
            · cases b
              · simp only [Option.map, List.tail_nil, ite_self]
                split_ifs
                · rfl
                · rw [← ih s2 (Function.update prevs L cur) (Function.update nexts L nx)
                    (s2.maxLayer - 1) headAddr]
                  rcases skiplist_erase_node_walk_weak cap node t fuel [] s2
                    (Function.update prevs L cur) (Function.update nexts L nx)
                    (s2.maxLayer - 1) headAddr with _ | r
                  · rfl
                  · rfl
              · simp only [Option.map, List.tail_nil, ite_self]
                split_ifs
                · exact ih _ _ _ _ _
                · rfl
          · simp only [h5, if_false]
            rfl
        · simp only [h4, if_false]
          split_ifs
          · exact ih _ _ _ _ _
          · rfl

/-- With no spurious failure `skiplist_erase_node` under the weak
compare-exchange is `skiplist_erase_node`. -/
theorem erase_node_weak_nil (s : SkiplistRaw) (fuel node : Nat) :
    (skiplist_erase_node_weak cap [] s fuel node).map (fun r => (r.1, r.2.1)) =
      skiplist_erase_node cap s fuel node := by
  unfold skiplist_erase_node_weak skiplist_erase_node ATM_CAS
  by_cases h1 : (s.mem node).removed = true
  · simp [h1]
  · rcases hb : (s.mem node).beingModified with _ | _
    · simp only [h1, if_false, hb, List.head?_nil, ne_eq, not_false_eq_true, and_self,
        if_true, Bool.not_true, Bool.false_eq_true, reduceCtorEq]
      split_ifs
      · rfl
      · rfl
      · exact erase_walk_weak_nil _ _ _ _ _ _ _ _
    · simp [h1, hb]

/-- With no spurious failure the search of `skiplist_insert` under the weak
compare-exchange is `skiplist_insert_walk`. -/
theorem insert_walk_weak_nil (node t : Nat) :
    ∀ (fuel : Nat) (s : SkiplistRaw) (prevs nexts : Nat → Nat) (L cur : Nat),
      (skiplist_insert_walk_weak cap node t fuel [] s prevs nexts L cur).map Prod.fst =
        skiplist_insert_walk cap node t fuel s prevs nexts L cur := by
  intro fuel
  induction fuel with
  | zero => intro s prevs nexts L cur; rfl
  | succ fuel ih =>
    intro s prevs nexts L cur
    rw [skiplist_insert_walk_weak, skiplist_insert_walk]
    rcases _sl_next s (fuel + 1) cur L with _ | _ | nx
    · rfl
    · rfl
    · dsimp only
      by_cases h1 : _sl_cmp s node nx > 0
      · simp only [h1, if_true]
        split_ifs
        · exact ih _ _ _ _ _
        · rfl
        · exact ih _ _ _ _ _
      · simp only [h1, if_false]
        by_cases h4 : L ≤ t
        · simp only [h4, if_true]
          by_cases h5 : L < cap
          · simp only [h5, if_true]
            rw [insert_layer_weak_eq [] s (fuel + 1) node t _ _ L cur nx (Or.inr (by simp))]
            rcases skiplist_insert_layer s (fuel + 1) node t (Function.update prevs L cur)
              (Function.update nexts L nx) L cur nx with _ | ⟨b, s2⟩
            · rfl
            · cases b
              · simp only [Option.map, List.tail_nil, ite_self]
                rw [← ih s2 (Function.update prevs L cur) (Function.update nexts L nx)
                  (s2.maxLayer - 1) headAddr]
                rcases skiplist_insert_walk_weak cap node t fuel [] s2
                  (Function.update prevs L cur) (Function.update nexts L nx)
                  (s2.maxLayer - 1) headAddr with _ | r
                · rfl
                · rfl
              · simp only [Option.map, List.tail_nil, ite_self]
                split_ifs
                · exact ih _ _ _ _ _
                · rfl
          · simp only [h5, if_false]
            rfl
        · simp only [h4, if_false]
          split_ifs
          · exact ih _ _ _ _ _
          · rfl

/-- With no spurious failure `skiplist_insert` under the weak
compare-exchange is `skiplist_insert`. -/
theorem insert_weak_nil (s : SkiplistRaw) (fuel node : Nat) (rand : Nat → Nat) :
    (skiplist_insert_weak cap [] s fuel node rand).map Prod.fst =
      skiplist_insert cap s fuel node rand := by
  unfold skiplist_insert_weak skiplist_insert
  simp only
  split_ifs
  · rfl
  · exact insert_walk_weak_nil _ _ _ _ _ _ _ _

/-- With no spurious failure the loop of `skiplist_erase` under the weak
compare-exchange is `skiplist_erase_loop`. -/
theorem erase_loop_weak_nil (found : Nat) :
    ∀ (fuel : Nat) (s : SkiplistRaw),
      (skiplist_erase_loop_weak cap found fuel [] s).map (fun r => (r.1, r.2.1)) =
        skiplist_erase_loop cap found fuel s := by
  intro fuel
  induction fuel with
  | zero => intro s; rfl
  | succ fuel ih =>
    intro s
    rw [skiplist_erase_loop_weak, skiplist_erase_loop, ← @erase_node_weak_nil cap]
    rcases hen : skiplist_erase_node_weak cap [] s (fuel + 1) found with _ | ⟨ret, s2, k, sp⟩
    · rfl
    · simp only [Option.map]
      by_cases hr : ret = -2
      · have hsp : sp = [] ∧ s2 = s := by
          unfold skiplist_erase_node_weak at hen
          simp only at hen
          split_ifs at hen
          · simp only [Option.some.injEq, Prod.mk.injEq] at hen
            omega
          · simp only [Option.some.injEq, Prod.mk.injEq] at hen
            rename_i hcas
            obtain ⟨_, e2, _, e4⟩ := hen
            rw [← e2, ← e4]
            unfold ATM_CAS at hcas ⊢
            split_ifs at hcas ⊢
            · simp at hcas
            · exact ⟨rfl, rfl⟩
          · simp only [Option.some.injEq, Prod.mk.injEq] at hen
            omega
          · simp only [Option.some.injEq, Prod.mk.injEq] at hen
            omega
          · rcases erase_walk_weak_codes _ _ _ _ _ _ _ _ _ _ _ hen with h' | h' <;> omega
        rw [hsp.1, hsp.2]
        simp only [hr, if_true]
        rw [← ih s]
        rcases skiplist_erase_loop_weak cap found fuel [] s with _ | r
        · rfl
        · rfl
      · simp only [hr, if_false]

/-- With no spurious failure `skiplist_erase` under the weak
compare-exchange is `skiplist_erase`. -/
theorem erase_weak_nil (s : SkiplistRaw) (fuel query : Nat) :
    (skiplist_erase_weak cap [] s fuel query).map (fun r => (r.1, r.2.1)) =
      skiplist_erase cap s fuel query := by
  unfold skiplist_erase_weak skiplist_erase
  rcases skiplist_find s fuel query with _ | _ | found
  · rfl
  · rfl
  · exact erase_loop_weak_nil _ _ _

end Skiplist

namespace Skiplist

variable {cap : Nat}

/-! ## Status codes and termination under the weak compare-exchange -/

/-- C4 (amended): status codes of `skiplist_erase_node` run without
interference, `ATM_CAS` being a weak compare-exchange whose outcomes are
listed by `spur`.  The call returns -1 if `removed` is set at entry;
otherwise -2 if `beingModified` is set at entry or the exchange on the node
fails spuriously; otherwise -3 if `isFullyLinked` is clear; otherwise, for a
node of a sequentially well-formed list whose `maxLayer` fits the writers'
arrays, 0, after one jump to `erase_node_retry` for each exchange on a
predecessor that fails spuriously (`k` counts the jumps, `sp'` is what is
left of `spur`, and an exchange on a predecessor is attempted).  Whatever the
memory, the fuel and the outcomes, no other value is returned. -/
theorem skiplist_erase_node_status (cap : Nat) (s : SkiplistRaw) (ch : Nat → List Nat)
    (fuel node : Nat) (spur : List Bool) :
    ((s.mem node).removed = true →
      skiplist_erase_node_weak cap spur s fuel node = some (-1, s, 0, spur)) ∧
    ((s.mem node).removed = false →
      ((s.mem node).beingModified = true ∨ spur.head? = some true) →
      skiplist_erase_node_weak cap spur s fuel node = some (-2, s, 0, spur.tail)) ∧
    ((s.mem node).removed = false → (s.mem node).beingModified = false →
      spur.head? ≠ some true → (s.mem node).isFullyLinked = false →
      skiplist_erase_node_weak cap spur s fuel node =
        some (-3, storeRemoved (storeBeingModified s node true) node true, 0, spur.tail)) ∧
    (SeqWellFormed s ch → s.maxLayer ≤ cap → node ∈ ch 0 → spur.head? ≠ some true →
      (spur.length + 1) * searchFuel s ch ≤ fuel →
      ∃ s' k sp', skiplist_erase_node_weak cap spur s fuel node = some (0, s', k, sp') ∧
        k + sp'.count true = spur.count true ∧
        (spur.tail ≠ [] → sp'.length < spur.tail.length)) ∧
    (∀ fuel' spur' r x, skiplist_erase_node_weak cap spur' s fuel' node = some (r, x) →
      r = 0 ∨ r = -1 ∨ r = -2 ∨ r = -3) := by
  obtain ⟨e1, e2, e3⟩ := @erase_node_weak_entry cap spur s fuel node
  refine ⟨e1, e2, e3, ?_, fun fuel' spur' r x h => erase_node_weak_codes spur' s fuel' node r x h⟩
  intro swf hcap hn hhead hf
  obtain ⟨s', k, sp', hen, hcnt, hcons, _⟩ := erase_node_weak_spec swf hcap hn spur hhead hf
  exact ⟨s', k, sp', hen, hcnt, hcons⟩

/-- Witness for C4 on the example list: the tombstoned node 10 gives -1; a
spurious failure of the exchange on the live node 10 gives -2; the node 30,
which was never linked, gives -3; and the live node 10 gives 0 after exactly
one jump to `erase_node_retry` when the first exchange on a predecessor
fails spuriously. -/
theorem skiplist_erase_node_status_witness :
    skiplist_erase_node_weak 64 [] exTomb 20 10 = some (-1, exTomb, 0, []) ∧
    skiplist_erase_node_weak 64 [true, false] exState 20 10 = some (-2, exState, 0, [false]) ∧
    skiplist_erase_node_weak 64 [] exState 20 30 =
      some (-3, storeRemoved (storeBeingModified exState 30 true) 30 true, 0, []) ∧
    (∃ s', skiplist_erase_node_weak 64 [false, true] exState 40 10 = some (0, s', 1, [])) ∧
    (∀ fuel' spur' r x, skiplist_erase_node_weak 64 spur' exState fuel' 10 = some (r, x) →
      r = 0 ∨ r = -1 ∨ r = -2 ∨ r = -3) := by
  refine ⟨(skiplist_erase_node_status 64 exTomb exChains 20 10 []).1 rfl,
    (skiplist_erase_node_status 64 exState exChains 20 10 [true, false]).2.1 rfl (Or.inr rfl),
    (skiplist_erase_node_status 64 exState exChains 20 30 []).2.2.1 rfl rfl (by simp) rfl, ?_,
    (skiplist_erase_node_status 64 exState exChains 20 10 []).2.2.2.2⟩
  obtain ⟨s', k, sp', hen, hcnt, hcons⟩ :=
    (skiplist_erase_node_status 64 exState exChains 40 10 [false, true]).2.2.2.1 exState_seq
      (by decide) (by simp [exChains]) (by simp) (by decide)
  have hsp : sp' = [] := by
    have := hcons (by simp)
    simp only [List.tail_cons, List.length_singleton, Nat.lt_one_iff] at this
    exact List.length_eq_zero.1 this
  subst hsp
  have hk : k = 1 := by
    simp only [List.count_nil, add_zero] at hcnt
    rw [hcnt]
    rfl
  subst hk
  exact ⟨s', hen⟩

/-- C4 (counterexample): the claim says that a call on a node whose
`removed` and `beingModified` are clear at entry returns -3 or 0.  On the
example list, which is sequentially well-formed and holds no lock, the live
node 10 has both flags clear and is fully linked, yet the call returns -2
whenever the weak compare-exchange on the node fails spuriously. -/
theorem skiplist_erase_node_spurious_busy :
    SeqWellFormed exState exChains ∧ 10 ∈ exChains 0 ∧
    (exState.mem 10).removed = false ∧ (exState.mem 10).beingModified = false ∧
    (exState.mem 10).isFullyLinked = true ∧
    ∀ fuel sp, skiplist_erase_node_weak 64 (true :: sp) exState fuel 10 =
      some (-2, exState, 0, sp) :=
  ⟨exState_seq, by simp [exChains], rfl, rfl, rfl,
    fun fuel sp => (@erase_node_weak_entry 64 (true :: sp) exState fuel 10).2.1 rfl (Or.inr rfl)⟩

end Skiplist
